import Mathlib

/-!
# exp/draw: Porter-Duff compositing of a source onto a destination

A shallow embedding of `src/pkg/exp/draw/draw.go` (`Draw`, `DrawMask`, `drawFill`,
`drawCopy`, `Border`) and theorems about it.

Conventions of the embedding.

* Go's `int` is `Int`; the claims are stated for coordinates inside images, where no
  machine overflow occurs.  The `uint32` arithmetic of the blend is written with explicit
  reductions modulo `2^32`.
* A colour is represented by the four `uint32` values that its `RGBA()` method returns.
* The pixels of the destination are a total function from coordinates to colours, paired
  with a chronological log of the pixel reads and stores the code performs.  Indexing
  outside a buffer, which panics in Go, is not represented: the claims carry in-bounds
  hypotheses.
* An image argument (source or mask) is either the destination itself, whose pixels are
  read from the current state, or an image whose pixels do not change during the call.
  `dst.Set(x, y, c)` changes the single pixel `(x, y)`, to `c` as converted by the
  destination's colour model.
* The two `for v := v0; v != v1; v += d` loops of `DrawMask` need not terminate, so they
  run on an iteration budget and report whether the loop condition was reached.
-/

namespace ExpDraw

/-! ## Geometry (`arith.go`, not part of the source tree) -/

/-- Modelled from the spec: `draw.Point`, "an integer 2D offset". -/
structure Point where
  X : Int
  Y : Int
deriving DecidableEq, Repr

/-- Modelled from the spec: `draw.Rectangle`, "an axis-aligned integer region with
min/max corners". -/
structure Rectangle where
  Min : Point
  Max : Point
deriving DecidableEq, Repr

/-- Modelled from the spec: `Pt(X, Y)`, shorthand for `Point{X, Y}`. -/
def Pt (X Y : Int) : Point := ⟨X, Y⟩

/-- Modelled from the spec: `Rect(x0, y0, x1, y1)`, shorthand for the rectangle with
corners `(x0, y0)` and `(x1, y1)`. -/
def Rect (x0 y0 x1 y1 : Int) : Rectangle := ⟨⟨x0, y0⟩, ⟨x1, y1⟩⟩

/-- Modelled from the spec: `ZP`, the zero point ("originPoint"). -/
def ZP : Point := ⟨0, 0⟩

/-- Modelled from the spec: `Point.Add`, point addition. -/
def Point.Add (p q : Point) : Point := ⟨p.X + q.X, p.Y + q.Y⟩

/-- Modelled from the spec: `Point.Sub`, point subtraction. -/
def Point.Sub (p q : Point) : Point := ⟨p.X - q.X, p.Y - q.Y⟩

/-- Modelled from the spec: `Rectangle.Dx`, the width `Max.X - Min.X`. -/
def Rectangle.Dx (r : Rectangle) : Int := r.Max.X - r.Min.X

/-- Modelled from the spec: `Rectangle.Dy`, the height `Max.Y - Min.Y`. -/
def Rectangle.Dy (r : Rectangle) : Int := r.Max.Y - r.Min.Y

/-- Modelled from the spec: `Rectangle.Add`, translation of a rectangle by a point. -/
def Rectangle.Add (r : Rectangle) (p : Point) : Rectangle := ⟨r.Min.Add p, r.Max.Add p⟩

/-- Modelled from the spec: `Rectangle.Overlaps`, the overlap test: the two rectangles
share a point. -/
def Rectangle.Overlaps (r r1 : Rectangle) : Bool :=
  decide (r.Min.X < r1.Max.X) && decide (r1.Min.X < r.Max.X) &&
    decide (r.Min.Y < r1.Max.Y) && decide (r1.Min.Y < r.Max.Y)

/-- The pixels of a rectangle: `Min.X <= x < Max.X` and `Min.Y <= y < Max.Y`. -/
def Rectangle.Contains (r : Rectangle) (x y : Int) : Prop :=
  r.Min.X ≤ x ∧ x < r.Max.X ∧ r.Min.Y ≤ y ∧ y < r.Max.Y

instance (r : Rectangle) (x y : Int) : Decidable (r.Contains x y) := by
  unfold Rectangle.Contains; infer_instance

/-- A rectangle is well formed when `Max.X >= Min.X` and `Max.Y >= Min.Y`
(the second TODO of `DrawMask`). -/
def Rectangle.WellFormed (r : Rectangle) : Prop :=
  r.Min.X ≤ r.Max.X ∧ r.Min.Y ≤ r.Max.Y

instance (r : Rectangle) : Decidable r.WellFormed := by
  unfold Rectangle.WellFormed; infer_instance

/-- The rectangle lies inside an image of the given width and height. -/
def Rectangle.Inside (r : Rectangle) (w h : Int) : Prop :=
  0 ≤ r.Min.X ∧ r.Max.X ≤ w ∧ 0 ≤ r.Min.Y ∧ r.Max.Y ≤ h

instance (r : Rectangle) (w h : Int) : Decidable (r.Inside w h) := by
  unfold Rectangle.Inside; infer_instance

/-! ## Colours and images (package `image`, not part of the source tree) -/

/-- Modelled from the spec: `image.Color`, whose `RGBA()` "channels" method returns
red, green, blue and alpha.  `draw.go` compares a channel with `0xFFFFFFFF` and shifts it
by 16 and by 24, so each channel is a `uint32`; a colour is the four values it returns. -/
structure Color where
  r : Nat
  g : Nat
  b : Nat
  a : Nat
deriving DecidableEq, Repr

/-- Reduction to `uint32`. -/
def u32 (n : Nat) : Nat := n % 2 ^ 32

/-- Conversion `uint16(n)`. -/
def u16 (n : Nat) : Nat := n % 2 ^ 16

/-- Conversion `uint8(n)`. -/
def u8 (n : Nat) : Nat := n % 2 ^ 8

/-- Modelled from the spec: `image.RGBAColor{R, G, B, A}` with 8-bit fields; its
`RGBA()` replicates each byte over the 32-bit channel, so that the high-order 8 bits of a
channel give the 8-bit value back. -/
def RGBAColor (R G B A : Nat) : Color :=
  ⟨R * 0x01010101, G * 0x01010101, B * 0x01010101, A * 0x01010101⟩

/-- Modelled from the spec: `image.RGBA64Color{R, G, B, A}` with 16-bit fields; its
`RGBA()` replicates each 16-bit value over the 32-bit channel. -/
def RGBA64Color (R G B A : Nat) : Color :=
  ⟨R * 0x00010001, G * 0x00010001, B * 0x00010001, A * 0x00010001⟩

/-- Modelled from the spec: the colour model of `image.RGBA`, applied by its `Set`:
a colour is narrowed to the high-order 8 bits of each channel. -/
def toRGBAColor (c : Color) : Color :=
  RGBAColor (u8 (c.r >>> 24)) (u8 (c.g >>> 24)) (u8 (c.b >>> 24)) (u8 (c.a >>> 24))

/-- What an `image.Image` other than the destination exposes: `Width()`, `Height()` and
`At(x, y)`. -/
structure Image where
  Width : Int
  Height : Int
  At : Int → Int → Color

/-- The dynamic type of the destination `draw.Image`: a `*image.RGBA`, whose `Set`
converts with `toRGBAColor`, or any other image type, whose `Set` stores the colour as
converted by its own colour model `conv`. -/
inductive DstKind where
  | RGBA
  | other (conv : Color → Color)

/-- The destination `draw.Image`: its dynamic type and its extent.  Its pixels are the
mutable part and live in `State`. -/
structure Dst where
  kind : DstKind
  Width : Int
  Height : Int

/-- The conversion that `dst.Set(x, y, c)` applies to `c` before storing it. -/
def Dst.conv (dst : Dst) (c : Color) : Color :=
  match dst.kind with
  | .RGBA => toRGBAColor c
  | .other f => f c

/-- An `image.Image` argument of `DrawMask` (the source or the mask), by dynamic type
and identity: the destination itself (`image.Image(dst) == src`), an `image.ColorImage`
(a flat colour; the extent its `Width()` and `Height()` report is a parameter), a
`*image.RGBA` other than the destination, or an image of any other type. -/
inductive Source where
  | self
  | ColorImage (c : Color) (W H : Int)
  | RGBA (i : Image)
  | other (i : Image)

/-- One observable pixel access of the drawing code, in the order performed. -/
inductive Event where
  | SrcAt (x y : Int)
  | MaskAt (x y : Int)
  | Set (x y : Int)
deriving DecidableEq, Repr

/-- The mutable state during a call: the pixels of the destination (`dst.At`) and the
log of accesses so far. -/
structure State where
  pix : Int → Int → Color
  log : List Event

/-- `src.Width()`. -/
def Source.Width (src : Source) (dst : Dst) : Int :=
  match src with
  | .self => dst.Width
  | .ColorImage _ W _ => W
  | .RGBA i => i.Width
  | .other i => i.Width

/-- `src.Height()`. -/
def Source.Height (src : Source) (dst : Dst) : Int :=
  match src with
  | .self => dst.Height
  | .ColorImage _ _ H => H
  | .RGBA i => i.Height
  | .other i => i.Height

/-- `src.At(x, y)` in the current state: the destination's own pixel when the image is
the destination itself. -/
def Source.At (src : Source) (s : State) (x y : Int) : Color :=
  match src with
  | .self => s.pix x y
  | .ColorImage c _ _ => c
  | .RGBA i => i.At x y
  | .other i => i.At x y

/-- Append an event to the log. -/
def State.note (s : State) (e : Event) : State :=
  { s with log := s.log ++ [e] }

/-- A store of colour `c` into the destination pixel `(x, y)`, as in
`dst.Pixel[y][x] = c`. -/
def State.store (s : State) (x y : Int) (c : Color) : State :=
  { pix := fun x1 y1 => if x1 = x ∧ y1 = y then c else s.pix x1 y1
    log := s.log ++ [Event.Set x y] }

/-- `dst.Set(x, y, c)`: a store of `c` as converted by the destination. -/
def Dst.Set (dst : Dst) (s : State) (x y : Int) (c : Color) : State :=
  s.store x y (dst.conv c)

/-- The built-in `copy(dst.Pixel[y][dx0:dx1], row)`: the pixels `dx0 <= x < dx1` of
destination row `y` receive `row x`, all at once. -/
def State.copyRow (s : State) (y dx0 dx1 : Int) (row : Int → Color) : State :=
  { pix := fun x1 y1 => if y1 = y ∧ dx0 ≤ x1 ∧ x1 < dx1 then row x1 else s.pix x1 y1
    log := s.log ++ (List.range (dx1 - dx0).toNat).map (fun (k : Nat) => Event.Set (dx0 + (k : Int)) y) }

/-! ## Loops on an iteration budget -/

/-- The result of running a loop on a budget: the loop condition was reached, or the
budget ran out in the state given. -/
inductive Outcome (σ : Type) where
  | finished (s : σ)
  | exhausted (s : σ)

/-- The state an outcome carries. -/
def Outcome.state {σ : Type} : Outcome σ → σ
  | .finished s => s
  | .exhausted s => s

/-- Whether the computation ran to its end. -/
def Outcome.isFinished {σ : Type} : Outcome σ → Bool
  | .finished _ => true
  | .exhausted _ => false

/-- Sequencing: continue with `k` when the first part ran to its end. -/
def Outcome.andThen {σ : Type} (o : Outcome σ) (k : σ → Outcome σ) : Outcome σ :=
  match o with
  | .finished s => k s
  | .exhausted s => .exhausted s

/-- The loop `for v := v0; v != v1; v, sv, mv = v+d, sv+d, mv+d { body }` of `DrawMask`,
run for at most `fuel` tests of its condition. -/
def forNe {σ : Type} (body : Int → Int → Int → σ → Outcome σ) :
    Nat → Int → Int → Int → Int → Int → σ → Outcome σ
  | 0, _, _, _, _, _, s => .exhausted s
  | fuel + 1, v, v1, d, sv, mv, s =>
    if v = v1 then .finished s
    else
      match body v sv mv s with
      | .finished s1 => forNe body fuel (v + d) v1 d (sv + d) (mv + d) s1
      | .exhausted s1 => .exhausted s1

/-! ## draw.go -/

/-- A Porter-Duff compositing operator: `type Op int`. -/
abbrev Op := Int

/-- The constant `SoverD Op = 0`. -/
def SoverD : Op := 0

/-- The constant `M = 1<<16 - 1` of the blend. -/
def M : Nat := 2 ^ 16 - 1

/-- One channel of the blend, `(d*(M-a) + s*ma) / M` in `uint32` arithmetic.
`a <= M` always, so `M - a` does not wrap. -/
def blendChannel (d s ma a : Nat) : Nat :=
  u32 (u32 (d * (M - a)) + u32 (s * ma)) / M

/-- The `default` branch of the switch (lines 104 to 127): the colour `*out` computed
from the destination colour `d`, the source colour `sc` and the mask alpha `ma`
(the 32-bit value, neither `0` nor `0xFFFFFFFF`). -/
def blend (d sc : Color) (ma : Nat) : Color :=
  let dr := d.r >>> 16
  let dg := d.g >>> 16
  let db := d.b >>> 16
  let da := d.a >>> 16
  let sr := sc.r >>> 16
  let sg := sc.g >>> 16
  let sb := sc.b >>> 16
  let sa := sc.a >>> 16
  let ma := ma >>> 16
  let a := u32 (sa * ma) / M
  let dr := blendChannel dr sr ma a
  let dg := blendChannel dg sg ma a
  let db := blendChannel db sb ma a
  let da := blendChannel da sa ma a
  RGBA64Color (u16 dr) (u16 dg) (u16 db) (u16 da)

/-- The body of the inner loop of `DrawMask` (lines 92 to 129) at destination pixel
`(x, y)`, source pixel `(sx, sy)` and mask pixel `(mx, my)`.  The colour `out` is
allocated once and overwritten before each use, and the one pointer is passed to every
`dst.Set` of the blend branch.  `dst.Set` is modelled as storing a converted copy of the
colour it is given, as `*image.RGBA` does; a destination that retains the pointer itself,
whose earlier blended pixels would follow each later blend, is not represented. -/
def pixel (dst : Dst) (src : Source) (mask : Option Source)
    (x y sx sy mx my : Int) (s : State) : State :=
  match mask with
  | none => dst.Set (s.note (.SrcAt sx sy)) x y (src.At s sx sy)
  | some m =>
    let ma := (m.At s mx my).a
    let s1 := s.note (.MaskAt mx my)
    if ma = 0 then s1
    else if ma = 0xFFFFFFFF then dst.Set (s1.note (.SrcAt sx sy)) x y (src.At s sx sy)
    else dst.Set (s1.note (.SrcAt sx sy)) x y (blend (s.pix x y) (src.At s sx sy) ma)

/-- Lines 37 to 45 of `DrawMask`: the width and height `(dx, dy)` available in the source
from `sp` and, if there is a mask, also in the mask from `mp`. -/
def extent (dst : Dst) (src : Source) (sp : Point) (mask : Option Source) (mp : Point) :
    Int × Int :=
  let dx := src.Width dst - sp.X
  let dy := src.Height dst - sp.Y
  match mask with
  | none => (dx, dy)
  | some m =>
    let dx := if dx > m.Width dst - mp.X then m.Width dst - mp.X else dx
    let dy := if dy > m.Height dst - mp.Y then m.Height dst - mp.Y else dy
    (dx, dy)

/-- Lines 46 to 51 of `DrawMask`: the far edges of `r` pulled in to width `dx` and
height `dy`. -/
def clipTo (r : Rectangle) (dx dy : Int) : Rectangle :=
  let r : Rectangle := if r.Dx > dx then ⟨r.Min, ⟨r.Min.X + dx, r.Max.Y⟩⟩ else r
  let r : Rectangle := if r.Dy > dy then ⟨r.Min, ⟨r.Max.X, r.Min.Y + dy⟩⟩ else r
  r

/-- Lines 37 to 51 of `DrawMask`: the rectangle `r` clipped to the extent available in the
source and the mask. -/
def clip (dst : Dst) (r : Rectangle) (src : Source) (sp : Point)
    (mask : Option Source) (mp : Point) : Rectangle :=
  clipTo r (extent dst src sp mask mp).1 (extent dst src sp mask mp).2

/-- The function `drawFill` (lines 134 to 153): the first row is filled pixel by pixel,
the later rows are copied from the first row's segment. -/
def drawFill (s : State) (r : Rectangle) (c : Color) : State :=
  if r.Dy < 1 then s
  else
    let color := RGBAColor (u8 (c.r >>> 24)) (u8 (c.g >>> 24)) (u8 (c.b >>> 24)) (u8 (c.a >>> 24))
    let dx0 := r.Min.X
    let dx1 := r.Max.X
    let dy0 := r.Min.Y
    let dy1 := r.Max.Y
    let s := (List.range (dx1 - dx0).toNat).foldl
      (fun s (k : Nat) => s.store (dx0 + (k : Int)) dy0 color) s
    (List.range (dy1 - (dy0 + 1)).toNat).foldl
      (fun s (j : Nat) => s.copyRow (dy0 + 1 + (j : Int)) dx0 dx1 (fun x => s.pix x dy0)) s

/-- The function `drawCopy` (lines 155 to 162): each destination row receives the
corresponding segment of a source row through the built-in `copy`. -/
def drawCopy (s : State) (r : Rectangle) (src : Source) (sp : Point) : State :=
  let dx0 := r.Min.X
  let dx1 := r.Max.X
  let dy0 := r.Min.Y
  let dy1 := r.Max.Y
  let sx0 := sp.X
  (List.range (dy1 - dy0).toNat).foldl
    (fun s (j : Nat) =>
      let y := dy0 + (j : Int)
      let sy := sp.Y + (j : Int)
      let s1 : State := { s with log := s.log ++
        (List.range (dx1 - dx0).toNat).map (fun (k : Nat) => Event.SrcAt (sx0 + (k : Int)) sy) }
      s1.copyRow y dx0 dx1 (fun x => src.At s (sx0 + (x - dx0)) sy)) s

/-- The condition of lines 77 to 79: the source is the destination itself, the source and
destination regions overlap, and the source offset lies above the rectangle's origin or
on its row to the left; the loops then run backward. -/
def backward (r : Rectangle) (src : Source) (sp : Point) : Bool :=
  (match src with | .self => true | _ => false) && r.Overlaps (r.Add (sp.Sub r.Min)) &&
    (decide (sp.Y < r.Min.Y) || (decide (sp.Y = r.Min.Y) && decide (sp.X < r.Min.X)))

/-- Lines 75 to 131 of `DrawMask`: the general per-pixel loops over the clipped
rectangle `r`, forward from `r.Min` or backward from the far corner. -/
def drawGeneric (fuel : Nat) (dst : Dst) (s : State) (r : Rectangle) (src : Source)
    (sp : Point) (mask : Option Source) (mp : Point) : Outcome State :=
  let back := backward r src sp
  let x0 := if back then r.Max.X - 1 else r.Min.X
  let x1 := if back then r.Min.X - 1 else r.Max.X
  let dx := if back then -1 else 1
  let y0 := if back then r.Max.Y - 1 else r.Min.Y
  let y1 := if back then r.Min.Y - 1 else r.Max.Y
  let dy := if back then -1 else 1
  let sy := sp.Y + y0 - r.Min.Y
  let my := mp.Y + y0 - r.Min.Y
  forNe (fun y sy my s =>
      let sx := sp.X + x0 - r.Min.X
      let mx := mp.X + x0 - r.Min.X
      forNe (fun x sx mx s => .finished (pixel dst src mask x y sx sy mx my s))
        fuel x0 x1 dx sx mx s)
    fuel y0 y1 dy sy my s

/-- The function `DrawMask` (lines 36 to 132): clip, try the fast paths, otherwise run
the general loops.  The source is a `*image.RGBA` when it is the destination itself and
the destination is one. -/
def DrawMask (fuel : Nat) (dst : Dst) (s : State) (r : Rectangle) (src : Source)
    (sp : Point) (mask : Option Source) (mp : Point) (op : Op) : Outcome State :=
  let r := clip dst r src sp mask mp
  match dst.kind, decide (op = SoverD), mask, src with
  | .RGBA, true, none, .ColorImage c _ _ => .finished (drawFill s r c)
  | .RGBA, true, none, .RGBA i => .finished (drawCopy s r (.RGBA i) sp)
  | .RGBA, true, none, .self =>
    if r.Overlaps (r.Add (sp.Sub r.Min)) then drawGeneric fuel dst s r src sp mask mp
    else .finished (drawCopy s r .self sp)
  | _, _, _, _ => drawGeneric fuel dst s r src sp mask mp

/-- The function `Draw` (lines 27 to 29). -/
def Draw (fuel : Nat) (dst : Dst) (s : State) (r : Rectangle) (src : Source)
    (sp : Point) : Outcome State :=
  DrawMask fuel dst s r src sp none ZP SoverD

/-- The rectangles and source offsets of the four `Draw` calls of `Border`
(lines 169 to 184), in order: top, left, right, bottom. -/
def borderCalls (r : Rectangle) (w : Int) (sp : Point) : List (Rectangle × Point) :=
  let i := w
  if i > 0 then
    [ (Rect r.Min.X r.Min.Y r.Max.X (r.Min.Y + i), sp),
      (Rect r.Min.X (r.Min.Y + i) (r.Min.X + i) (r.Max.Y - i), sp.Add (Pt 0 i)),
      (Rect (r.Max.X - i) (r.Min.Y + i) r.Max.X (r.Max.Y - i), sp.Add (Pt (r.Dx - i) i)),
      (Rect r.Min.X (r.Max.Y - i) r.Max.X r.Max.Y, sp.Add (Pt 0 (r.Dy - i))) ]
  else
    let i := -i
    [ (Rect (r.Min.X - i) (r.Min.Y - i) (r.Max.X + i) r.Min.Y, sp.Add (Pt (-i) (-i))),
      (Rect (r.Min.X - i) r.Min.Y r.Min.X r.Max.Y, sp.Add (Pt (-i) 0)),
      (Rect r.Max.X r.Min.Y (r.Max.X + i) r.Max.Y, sp.Add (Pt r.Dx 0)),
      (Rect (r.Min.X - i) r.Max.Y (r.Max.X + i) (r.Max.Y + i), sp.Add (Pt (-i) 0)) ]

/-- A sequence of `Draw` calls on the same destination and source. -/
def drawAll (fuel : Nat) (dst : Dst) (src : Source) :
    List (Rectangle × Point) → State → Outcome State
  | [], s => .finished s
  | (r, sp) :: cs, s => (Draw fuel dst s r src sp).andThen (drawAll fuel dst src cs)

/-- The function `Border` (lines 168 to 185): the four `Draw` calls in sequence. -/
def Border (fuel : Nat) (dst : Dst) (s : State) (r : Rectangle) (w : Int) (src : Source)
    (sp : Point) : Outcome State :=
  drawAll fuel dst src (borderCalls r w sp) s

/-! ## Auxiliary notions for the statements -/

/-- Whether the loop body stores into the destination pixel: always without a mask, and
with a mask when the alpha of the mask pixel read at `(mx, my)` is not `0`. -/
def writes (mask : Option Source) (s : State) (mx my : Int) : Prop :=
  match mask with
  | none => True
  | some m => (m.At s mx my).a ≠ 0

instance (mask : Option Source) (s : State) (mx my : Int) : Decidable (writes mask s mx my) := by
  unfold writes; cases mask <;> infer_instance

/-- A colour that is an `image.RGBAColor` value: the conversion to 8 bits per channel
gives it back. -/
def IsRGBAColor (c : Color) : Prop := toRGBAColor c = c

/-- Typing of an image argument: the pixels of a `*image.RGBA` are `image.RGBAColor`
values (`Pixel [][]RGBAColor`). -/
def Source.WellTyped (src : Source) : Prop :=
  match src with
  | .RGBA i => ∀ x y, IsRGBAColor (i.At x y)
  | _ => True

/-- Typing of the destination: when it is a `*image.RGBA`, its pixels are
`image.RGBAColor` values. -/
def Dst.WellTyped (dst : Dst) (s : State) : Prop :=
  match dst.kind with
  | .RGBA => ∀ x y, IsRGBAColor (s.pix x y)
  | .other _ => True

/-- The offset `p` lies within the extent of the image:
`0 <= p.X <= Width()` and `0 <= p.Y <= Height()`. -/
def Source.InExtent (src : Source) (dst : Dst) (p : Point) : Prop :=
  0 ≤ p.X ∧ p.X ≤ src.Width dst ∧ 0 ≤ p.Y ∧ p.Y ≤ src.Height dst

instance (src : Source) (dst : Dst) (p : Point) : Decidable (src.InExtent dst p) := by
  unfold Source.InExtent; infer_instance

/-- The general loops as nested iterations: `ny` rows of `nx` pixels each, starting at
`(x0, y0)` and moving by `d`, the source pixel at offset `(ox, oy)` and the mask pixel
at offset `(px, py)` from the destination pixel. -/
def sweep (dst : Dst) (src : Source) (mask : Option Source) (x0 y0 d ox oy px py : Int)
    (nx ny : Nat) (s : State) : State :=
  (List.range ny).foldl (fun s (j : Nat) =>
    (List.range nx).foldl (fun s (k : Nat) =>
      pixel dst src mask (x0 + d * (k : Int)) (y0 + d * (j : Int))
        (x0 + d * (k : Int) + ox) (y0 + d * (j : Int) + oy)
        (x0 + d * (k : Int) + px) (y0 + d * (j : Int) + py) s) s) s

/-- The pixels a sweep visits. -/
def InSweep (x0 y0 d : Int) (nx ny : Nat) (x y : Int) : Prop :=
  0 ≤ d * (x - x0) ∧ d * (x - x0) < nx ∧ 0 ≤ d * (y - y0) ∧ d * (y - y0) < ny

instance (x0 y0 d : Int) (nx ny : Nat) (x y : Int) : Decidable (InSweep x0 y0 d nx ny x y) := by
  unfold InSweep; infer_instance

/-! ## Notions of the specification -/

/-- The clipped rectangle in the words of the specification: corner `r.Min`, width
`min(r.Dx(), src.Width()-sp.X, mask.Width()-mp.X)` and height
`min(r.Dy(), src.Height()-sp.Y, mask.Height()-mp.Y)`, the mask terms omitted when there
is no mask. -/
def clippedRect (dst : Dst) (r : Rectangle) (src : Source) (sp : Point)
    (mask : Option Source) (mp : Point) : Rectangle :=
  let w := match mask with
    | none => min r.Dx (src.Width dst - sp.X)
    | some m => min r.Dx (min (src.Width dst - sp.X) (m.Width dst - mp.X))
  let h := match mask with
    | none => min r.Dy (src.Height dst - sp.Y)
    | some m => min r.Dy (min (src.Height dst - sp.Y) (m.Height dst - mp.Y))
  ⟨r.Min, ⟨r.Min.X + w, r.Min.Y + h⟩⟩

/-- The temporary buffer of the self-copy property: an image distinct from the
destination, of the destination's type and extent, holding the destination's pixels as
they are in state `s`. -/
def snapshot (dst : Dst) (s : State) : Source :=
  match dst.kind with
  | .RGBA => .RGBA ⟨dst.Width, dst.Height, s.pix⟩
  | .other _ => .other ⟨dst.Width, dst.Height, s.pix⟩

/-- A colour whose four channels are `uint32` values. -/
def Color.Valid (c : Color) : Prop :=
  c.r < 2 ^ 32 ∧ c.g < 2 ^ 32 ∧ c.b < 2 ^ 32 ∧ c.a < 2 ^ 32

instance (c : Color) : Decidable c.Valid := by
  unfold Color.Valid; infer_instance

/-- A premultiplied colour: no colour channel exceeds the alpha channel. -/
def Color.Premultiplied (c : Color) : Prop :=
  c.r ≤ c.a ∧ c.g ≤ c.a ∧ c.b ≤ c.a

instance (c : Color) : Decidable c.Premultiplied := by
  unfold Color.Premultiplied; infer_instance

/-- One channel of the blend in the words of the specification, for a channel maximum
`m`: `(destChannel * (m - a) + sourceChannel * maskAlpha) / m`, truncating, in exact
integer arithmetic. -/
def blendChannelSpec (m d s ma a : Nat) : Nat := (d * (m - a) + s * ma) / m

/-- The blend in the words of the specification: the channels of source, destination
and mask alpha extracted at 8-bit precision (the top byte), `a = sourceAlpha * maskAlpha
/ 255`, and each of R, G, B, A computed by `blendChannelSpec 255`. -/
def blendSpec8 (d sc : Color) (ma : Nat) : Color :=
  let m8 := ma >>> 24
  let a := (sc.a >>> 24) * m8 / 255
  RGBAColor (blendChannelSpec 255 (d.r >>> 24) (sc.r >>> 24) m8 a)
    (blendChannelSpec 255 (d.g >>> 24) (sc.g >>> 24) m8 a)
    (blendChannelSpec 255 (d.b >>> 24) (sc.b >>> 24) m8 a)
    (blendChannelSpec 255 (d.a >>> 24) (sc.a >>> 24) m8 a)

/-- The same blend at 16-bit precision: the channels are the top 16 bits,
`a = sourceAlpha * maskAlpha / 65535`, and each of R, G, B, A is computed by
`blendChannelSpec 65535`; the result is an `image.RGBA64Color`. -/
def blendSpec16 (d sc : Color) (ma : Nat) : Color :=
  let m16 := ma >>> 16
  let a := (sc.a >>> 16) * m16 / 65535
  RGBA64Color (blendChannelSpec 65535 (d.r >>> 16) (sc.r >>> 16) m16 a)
    (blendChannelSpec 65535 (d.g >>> 16) (sc.g >>> 16) m16 a)
    (blendChannelSpec 65535 (d.b >>> 16) (sc.b >>> 16) m16 a)
    (blendChannelSpec 65535 (d.a >>> 16) (sc.a >>> 16) m16 a)

/-- One channel of "src over dst" in the words of the claim: `s + d*(M - sa)/M` for
channel maximum `M`. -/
def overChannel (m d s sa : Nat) : Nat := s + d * (m - sa) / m

/-- The Porter-Duff "src over dst" of two premultiplied colours, on the 32-bit channels
with maximum `0xFFFFFFFF`, in the words of the claim. -/
def sourceOver (d sc : Color) : Color :=
  ⟨overChannel 0xFFFFFFFF d.r sc.r sc.a, overChannel 0xFFFFFFFF d.g sc.g sc.a,
    overChannel 0xFFFFFFFF d.b sc.b sc.a, overChannel 0xFFFFFFFF d.a sc.a sc.a⟩

/-- The ring of width `w` inside `r`: the pixels of `r` that are not in `r` shrunk by
`w` on every side. -/
def insideRing (r : Rectangle) (w : Int) (x y : Int) : Prop :=
  r.Contains x y ∧
    ¬ (Rect (r.Min.X + w) (r.Min.Y + w) (r.Max.X - w) (r.Max.Y - w)).Contains x y

instance (r : Rectangle) (w x y : Int) : Decidable (insideRing r w x y) := by
  unfold insideRing; infer_instance

/-- The ring of width `i` outside `r`: the pixels of `r` grown by `i` on every side
that are not in `r`. -/
def outsideRing (r : Rectangle) (i : Int) (x y : Int) : Prop :=
  (Rect (r.Min.X - i) (r.Min.Y - i) (r.Max.X + i) (r.Max.Y + i)).Contains x y ∧
    ¬ r.Contains x y

instance (r : Rectangle) (i x y : Int) : Decidable (outsideRing r i x y) := by
  unfold outsideRing; infer_instance

/-- The source covers the rectangle `q` when `q.Min` is aligned with `p`: the offset is
non-negative and the source extends at least `q.Dx()` by `q.Dy()` from it. -/
def Source.Covers (src : Source) (dst : Dst) (q : Rectangle) (p : Point) : Prop :=
  0 ≤ p.X ∧ p.X + q.Dx ≤ src.Width dst ∧ 0 ≤ p.Y ∧ p.Y + q.Dy ≤ src.Height dst

instance (src : Source) (dst : Dst) (q : Rectangle) (p : Point) :
    Decidable (src.Covers dst q p) := by
  unfold Source.Covers; infer_instance

/-- Two rectangles have no pixel in common. -/
def Rectangle.Disjoint (a b : Rectangle) : Prop :=
  ∀ x y, ¬ (a.Contains x y ∧ b.Contains x y)

/-- The access `e` stays within the image it reads: a source read `src.At(x, y)` has
`0 <= x < src.Width()` and `0 <= y < src.Height()`, a mask read `mask.At(x, y)` has
`0 <= x < mask.Width()` and `0 <= y < mask.Height()` (and there is a mask to read). -/
def Event.InBounds (dst : Dst) (src : Source) (mask : Option Source) (e : Event) : Prop :=
  match e, mask with
  | .SrcAt x y, _ => 0 ≤ x ∧ x < src.Width dst ∧ 0 ≤ y ∧ y < src.Height dst
  | .MaskAt x y, some m => 0 ≤ x ∧ x < m.Width dst ∧ 0 ≤ y ∧ y < m.Height dst
  | .MaskAt _ _, none => False
  | .Set _ _, _ => True

instance (dst : Dst) (src : Source) (mask : Option Source) (e : Event) :
    Decidable (e.InBounds dst src mask) := by
  unfold Event.InBounds
  split <;> infer_instance

/-- The accesses the drawing code makes for the destination pixel `(x, y)` when the
source pixel is at offset `(ox, oy)` and the mask pixel at offset `(px, py)` from it:
the read of the source pixel, the read of the mask pixel if there is a mask, and the
store to `(x, y)`. -/
def Event.At (mask : Option Source) (ox oy px py x y : Int) (e : Event) : Prop :=
  e = .SrcAt (x + ox) (y + oy) ∨ (mask ≠ none ∧ e = .MaskAt (x + px) (y + py)) ∨
    e = .Set x y

/-- The tests of lines 57 to 72 on the clipped rectangle `r`: whether `DrawMask` takes a
fast path (`drawFill` or `drawCopy`) instead of the general loops. -/
def fastPath (dst : Dst) (r : Rectangle) (src : Source) (sp : Point)
    (mask : Option Source) (op : Op) : Bool :=
  match dst.kind, decide (op = SoverD), mask, src with
  | .RGBA, true, none, .ColorImage _ _ _ => true
  | .RGBA, true, none, .RGBA _ => true
  | .RGBA, true, none, .self => !(r.Overlaps (r.Add (sp.Sub r.Min)))
  | _, _, _, _ => false

/-! ## The clipping in fixed-width arithmetic

Go's `int` has 32 or 64 bits and its additions and subtractions wrap around.  The
definitions above compute in unbounded integers; the ones below redo lines 37 to 51 in an
`int` of a given width, to compare the two. -/

/-- The value of Go's `int` of width `bits` that the exact result `n` of an addition or
subtraction wraps to (two's complement). -/
def wrapInt (bits : Nat) (n : Int) : Int :=
  (n + ((2 ^ (bits - 1) : Nat) : Int)) % ((2 ^ bits : Nat) : Int) - ((2 ^ (bits - 1) : Nat) : Int)

/-- Lines 37 to 45 of `DrawMask` in an `int` of width `bits`. -/
def extentWrapped (bits : Nat) (dst : Dst) (src : Source) (sp : Point)
    (mask : Option Source) (mp : Point) : Int × Int :=
  let dx := wrapInt bits (src.Width dst - sp.X)
  let dy := wrapInt bits (src.Height dst - sp.Y)
  match mask with
  | none => (dx, dy)
  | some m =>
    let dx := if dx > wrapInt bits (m.Width dst - mp.X) then wrapInt bits (m.Width dst - mp.X)
      else dx
    let dy := if dy > wrapInt bits (m.Height dst - mp.Y) then wrapInt bits (m.Height dst - mp.Y)
      else dy
    (dx, dy)

/-- Lines 46 to 51 of `DrawMask` in an `int` of width `bits`: `r.Dx()`, `r.Dy()` and the
new far edges wrap. -/
def clipToWrapped (bits : Nat) (r : Rectangle) (dx dy : Int) : Rectangle :=
  let r : Rectangle :=
    if wrapInt bits (r.Max.X - r.Min.X) > dx then ⟨r.Min, ⟨wrapInt bits (r.Min.X + dx), r.Max.Y⟩⟩
    else r
  let r : Rectangle :=
    if wrapInt bits (r.Max.Y - r.Min.Y) > dy then ⟨r.Min, ⟨r.Max.X, wrapInt bits (r.Min.Y + dy)⟩⟩
    else r
  r

/-- Lines 37 to 51 of `DrawMask` in an `int` of width `bits`. -/
def clipWrapped (bits : Nat) (dst : Dst) (r : Rectangle) (src : Source) (sp : Point)
    (mask : Option Source) (mp : Point) : Rectangle :=
  clipToWrapped bits r (extentWrapped bits dst src sp mask mp).1
    (extentWrapped bits dst src sp mask mp).2

/-- The function `DrawMask` with the clipping of lines 37 to 51 computed in an `int` of
width `bits`; the dispatch and the loops are those of `DrawMask`. -/
def DrawMaskWrapped (bits fuel : Nat) (dst : Dst) (s : State) (r : Rectangle) (src : Source)
    (sp : Point) (mask : Option Source) (mp : Point) (op : Op) : Outcome State :=
  let r := clipWrapped bits dst r src sp mask mp
  match dst.kind, decide (op = SoverD), mask, src with
  | .RGBA, true, none, .ColorImage c _ _ => .finished (drawFill s r c)
  | .RGBA, true, none, .RGBA i => .finished (drawCopy s r (.RGBA i) sp)
  | .RGBA, true, none, .self =>
    if r.Overlaps (r.Add (sp.Sub r.Min)) then drawGeneric fuel dst s r src sp mask mp
    else .finished (drawCopy s r .self sp)
  | _, _, _, _ => drawGeneric fuel dst s r src sp mask mp

/-- Every extent of the call is that of a Go image: it fits an `int` of width `bits`. -/
def FitsInt (bits : Nat) (dst : Dst) (src : Source) (mask : Option Source) : Prop :=
  0 < bits ∧ dst.Width < ((2 ^ (bits - 1) : Nat) : Int) ∧
  dst.Height < ((2 ^ (bits - 1) : Nat) : Int) ∧
  src.Width dst < ((2 ^ (bits - 1) : Nat) : Int) ∧
  src.Height dst < ((2 ^ (bits - 1) : Nat) : Int) ∧
  ∀ m, mask = some m → m.Width dst < ((2 ^ (bits - 1) : Nat) : Int) ∧
    m.Height dst < ((2 ^ (bits - 1) : Nat) : Int)

/-- The four channels of a colour. -/
inductive Channel where
  | R
  | G
  | B
  | A
deriving DecidableEq, Repr

/-- A channel of a colour at 16-bit precision: the top 16 bits of the 32-bit channel, as
the blend extracts them with `>>= 16`. -/
def Color.get16 (c : Color) (ch : Channel) : Nat :=
  match ch with
  | .R => c.r >>> 16
  | .G => c.g >>> 16
  | .B => c.b >>> 16
  | .A => c.a >>> 16

/-! ## Concrete inputs -/

/-- A 4 by 4 destination of a type other than `*image.RGBA` whose `Set` stores the colour
as given. -/
def plainDst : Dst := ⟨.other id, 4, 4⟩

/-- A 4 by 4 `*image.RGBA` destination. -/
def rgbaDst : Dst := ⟨.RGBA, 4, 4⟩

/-- Pixels of a flat grey, opaque destination, with an empty log. -/
def greyState : State := ⟨fun _ _ => RGBAColor 100 100 100 255, []⟩

/-- A 2 by 2 source image of a flat light grey, opaque. -/
def lightSrc : Source := .other ⟨2, 2, fun _ _ => RGBAColor 200 200 200 255⟩

/-- A 2 by 2 `*image.RGBA` source of a flat light grey, opaque. -/
def rgbaSrc : Source := .RGBA ⟨2, 2, fun _ _ => RGBAColor 200 200 200 255⟩

/-- A flat mask whose alpha is 50% of the maximum: `0xFFFFFFFF / 2`. -/
def halfMask : Source := .ColorImage ⟨0, 0, 0, 0x7FFFFFFF⟩ 1000000000 1000000000

/-- A 2 by 2 mask whose left column has alpha 0 and whose right column has the maximum
alpha. -/
def edgeMask : Source :=
  .other ⟨2, 2, fun x _ => if x = 0 then ⟨0, 0, 0, 0⟩ else ⟨0, 0, 0, 0xFFFFFFFF⟩⟩

/-- A fully transparent flat colour as an `image.ColorImage`. -/
def clearColor : Source := .ColorImage ⟨0, 0, 0, 0⟩ 1000000000 1000000000

/-- A 2 by 2 image of fully transparent pixels. -/
def clearSrc : Source := .other ⟨2, 2, fun _ _ => ⟨0, 0, 0, 0⟩⟩

/-- A 6 by 6 destination of a type other than `*image.RGBA` whose `Set` stores the
colour as given. -/
def sixDst : Dst := ⟨.other id, 6, 6⟩

/-- A 6 by 6 source image whose pixels encode their own coordinates. -/
def coordSrc : Source :=
  .other ⟨6, 6, fun x y => RGBAColor (x.toNat % 256) (y.toNat % 256) 0 255⟩

/-- A 4 by 5 destination of a type other than `*image.RGBA` whose `Set` stores the
colour as given. -/
def tallDst : Dst := ⟨.other id, 4, 5⟩

/-- A 14 by 14 `*image.RGBA` canvas. -/
def canvasDst : Dst := ⟨.RGBA, 14, 14⟩

/-- A flat opaque red as an `image.ColorImage`. -/
def redColor : Source := .ColorImage (RGBAColor 255 0 0 255) 1000000000 1000000000

/-- A 14 by 14 source image whose pixels encode their own coordinates. -/
def coordSrc14 : Source :=
  .other ⟨14, 14, fun x y => RGBAColor (x.toNat % 256) (y.toNat % 256) 0 255⟩

/-- A 10 by 10 `*image.RGBA` destination. -/
def tenDst : Dst := ⟨.RGBA, 10, 10⟩

/-- A 2 by 2 source image of a flat colour with 16 significant bits per channel. -/
def deepSrc : Source := .other ⟨2, 2, fun _ _ => RGBA64Color 0x1234 0x5678 0x9ABC 0xFFFF⟩

/-- A flat mask whose alpha is the maximum `0xFFFFFFFF`. -/
def fullMask : Source := .ColorImage ⟨0, 0, 0, 0xFFFFFFFF⟩ 1000000000 1000000000

/-- Pixels that encode their own coordinates, with an empty log. -/
def coordState : State := ⟨fun x y => RGBAColor (x.toNat % 256) (y.toNat % 256) 0 255, []⟩

/-! ## Loops -/

theorem foldl_range_inv {σ : Type} (f : σ → Nat → σ) (P : Nat → σ → Prop) (n : Nat) (s : σ)
    (h0 : P 0 s) (hstep : ∀ k t, k < n → P k t → P (k + 1) (f t k)) :
    P n ((List.range n).foldl f s) := by
  induction n with
  | zero => simpa using h0
  | succ n ih =>
    rw [List.range_succ, List.foldl_append]
    exact hstep n _ (Nat.lt_succ_self n)
      (ih (fun k t hk hP => hstep k t (Nat.lt_succ_of_lt hk) hP))

theorem forNe_finished {σ : Type} (body : Int → Int → Int → σ → Outcome σ)
    (f : Int → Int → Int → σ → σ) (hbody : ∀ v sv mv s, body v sv mv s = .finished (f v sv mv s))
    (d : Int) (hd : d ≠ 0) :
    ∀ (n fuel : Nat) (v sv mv : Int) (s : σ), n < fuel →
      forNe body fuel v (v + d * n) d sv mv s
        = .finished ((List.range n).foldl
            (fun s (k : Nat) => f (v + d * (k : Int)) (sv + d * (k : Int)) (mv + d * (k : Int)) s) s) := by
  intro n
  induction n with
  | zero =>
    intro fuel v sv mv s hf
    obtain ⟨fuel, rfl⟩ : ∃ m, fuel = m + 1 := ⟨fuel - 1, by omega⟩
    simp [forNe]
  | succ n ih =>
    intro fuel v sv mv s hf
    obtain ⟨fuel, rfl⟩ : ∃ m, fuel = m + 1 := ⟨fuel - 1, by omega⟩
    have hne : ¬ v = v + d * ((n + 1 : Nat) : Int) := by
      intro h
      have h2 : d * ((n + 1 : Nat) : Int) = 0 := by linarith
      rcases mul_eq_zero.mp h2 with h3 | h3
      · exact hd h3
      · have : ((n + 1 : Nat) : Int) ≠ 0 := by exact_mod_cast Nat.succ_ne_zero n
        exact this h3
    rw [forNe, if_neg hne, hbody]
    have e : v + d * ((n + 1 : Nat) : Int) = (v + d) + d * (n : Int) := by push_cast; ring
    simp only []
    rw [e, ih fuel (v + d) (sv + d) (mv + d) _ (by omega)]
    rw [List.range_succ_eq_map, List.foldl_cons, List.foldl_map]
    have hfun : (fun (t : σ) (k : Nat) =>
          f (v + d + d * (k : Int)) (sv + d + d * (k : Int)) (mv + d + d * (k : Int)) t)
        = (fun (t : σ) (k : Nat) => f (v + d * ((k.succ : Nat) : Int))
            (sv + d * ((k.succ : Nat) : Int)) (mv + d * ((k.succ : Nat) : Int)) t) := by
      funext t k
      have e1 : v + d + d * (k : Int) = v + d * ((k.succ : Nat) : Int) := by push_cast; ring
      have e2 : sv + d + d * (k : Int) = sv + d * ((k.succ : Nat) : Int) := by push_cast; ring
      have e3 : mv + d + d * (k : Int) = mv + d * ((k.succ : Nat) : Int) := by push_cast; ring
      rw [e1, e2, e3]
    rw [hfun]
    simp

/-! ## The loop body -/

theorem Source.At_of_ne_self (m : Source) (hm : m ≠ .self) (s t : State) (x y : Int) :
    m.At s x y = m.At t x y := by
  cases m <;> simp_all [Source.At]

theorem pixel_pix_ne (dst : Dst) (src : Source) (mask : Option Source)
    (x y sx sy mx my : Int) (s : State) (x1 y1 : Int) (h : ¬ (x1 = x ∧ y1 = y)) :
    (pixel dst src mask x y sx sy mx my s).pix x1 y1 = s.pix x1 y1 := by
  unfold pixel
  cases mask with
  | none => simp [Dst.Set, State.store, State.note, h]
  | some m =>
    simp only []
    split_ifs <;> simp [Dst.Set, State.store, State.note, h]

theorem pixel_pix_congr (dst : Dst) (src : Source) (mask : Option Source)
    (x y sx sy mx my : Int) (s t : State)
    (hd : s.pix x y = t.pix x y) (hs : src.At s sx sy = src.At t sx sy)
    (hm : ∀ m, mask = some m → m.At s mx my = m.At t mx my) :
    (pixel dst src mask x y sx sy mx my s).pix x y
      = (pixel dst src mask x y sx sy mx my t).pix x y := by
  unfold pixel
  cases mask with
  | none => simp [Dst.Set, State.store, State.note, hs]
  | some m =>
    have hm1 := hm m rfl
    simp only [hm1, hs, hd]
    split_ifs <;> simp [Dst.Set, State.store, State.note, hd]

theorem pixel_count (dst : Dst) (src : Source) (mask : Option Source)
    (x y sx sy mx my : Int) (s : State) (x1 y1 : Int) :
    List.count (Event.Set x1 y1) (pixel dst src mask x y sx sy mx my s).log
      = List.count (Event.Set x1 y1) s.log
        + (if x1 = x ∧ y1 = y ∧ writes mask s mx my then 1 else 0) := by
  unfold pixel writes
  cases mask with
  | none =>
    by_cases h : x1 = x ∧ y1 = y
    · obtain ⟨rfl, rfl⟩ := h
      simp [Dst.Set, State.store, State.note, List.count_append, List.count_cons]
    · have h2 : ¬ (x = x1 ∧ y = y1) := fun h3 => h ⟨h3.1.symm, h3.2.symm⟩
      simp [Dst.Set, State.store, State.note, List.count_append, List.count_cons, h, h2]
  | some m =>
    simp only []
    by_cases h : x1 = x ∧ y1 = y
    · obtain ⟨rfl, rfl⟩ := h
      split_ifs <;>
        simp_all [Dst.Set, State.store, State.note, List.count_append, List.count_cons]
    · have h2 : ¬ (x = x1 ∧ y = y1) := fun h3 => h ⟨h3.1.symm, h3.2.symm⟩
      split_ifs <;>
        simp_all [Dst.Set, State.store, State.note, List.count_append, List.count_cons]

/-! ## The general loops as a sweep -/

theorem sweep_pix (dst : Dst) (src : Source) (mask : Option Source)
    (x0 y0 d ox oy px py : Int) (nx ny : Nat) (s : State)
    (hd : d = 1 ∨ d = -1) (hmask : mask ≠ some .self)
    (hsafe : src = .self → (0 < d * oy ∨ (oy = 0 ∧ 0 ≤ d * ox) ∨
      ox ≤ -(nx : Int) ∨ (nx : Int) ≤ ox ∨ oy ≤ -(ny : Int) ∨ (ny : Int) ≤ oy))
    (x y : Int) :
    (sweep dst src mask x0 y0 d ox oy px py nx ny s).pix x y
      = if InSweep x0 y0 d nx ny x y
        then (pixel dst src mask x y (x + ox) (y + oy) (x + px) (y + py) s).pix x y
        else s.pix x y := by
  have hm : ∀ (u : State) (mx my : Int) (m : Source), mask = some m →
      m.At u mx my = m.At s mx my := by
    intro u mx my m hmm
    exact Source.At_of_ne_self m (fun h => hmask (by rw [hmm, h])) u s mx my
  have key : ∀ x y, (sweep dst src mask x0 y0 d ox oy px py nx ny s).pix x y
      = if (0 ≤ d * (x - x0) ∧ d * (x - x0) < nx ∧ 0 ≤ d * (y - y0) ∧ d * (y - y0) < ny)
        then (pixel dst src mask x y (x + ox) (y + oy) (x + px) (y + py) s).pix x y
        else s.pix x y := by
    unfold sweep
    refine foldl_range_inv _ (fun (j : Nat) (t : State) => ∀ x y, t.pix x y
      = if (0 ≤ d * (x - x0) ∧ d * (x - x0) < nx ∧ 0 ≤ d * (y - y0) ∧ d * (y - y0) < j)
        then (pixel dst src mask x y (x + ox) (y + oy) (x + px) (y + py) s).pix x y
        else s.pix x y) ny s ?_ ?_
    · intro x y
      rw [if_neg (by omega)]
    · intro j t hj hP
      have inner := foldl_range_inv
        (fun (u : State) (k : Nat) =>
          pixel dst src mask (x0 + d * (k : Int)) (y0 + d * (j : Int))
            (x0 + d * (k : Int) + ox) (y0 + d * (j : Int) + oy)
            (x0 + d * (k : Int) + px) (y0 + d * (j : Int) + py) u)
        (fun (k : Nat) (u : State) => ∀ x y, u.pix x y
          = if ((0 ≤ d * (x - x0) ∧ d * (x - x0) < nx ∧ 0 ≤ d * (y - y0) ∧ d * (y - y0) < j)
              ∨ (d * (y - y0) = j ∧ 0 ≤ d * (x - x0) ∧ d * (x - x0) < k))
            then (pixel dst src mask x y (x + ox) (y + oy) (x + px) (y + py) s).pix x y
            else s.pix x y) nx t ?_ ?_
      · intro x y
        rw [inner x y]
        refine if_congr ?_ rfl rfl
        rcases hd with rfl | rfl <;> omega
      · intro x y
        rw [hP x y]
        refine if_congr ?_ rfl rfl
        rcases hd with rfl | rfl <;> omega
      · intro k u hk hQ x y
        by_cases hxy : x = x0 + d * (k : Int) ∧ y = y0 + d * (j : Int)
        · obtain ⟨hx, hy⟩ := hxy
          rw [if_pos (by rcases hd with rfl | rfl <;> omega)]
          rw [hx, hy]
          apply pixel_pix_congr
          · rw [hQ, if_neg (by rcases hd with rfl | rfl <;> omega)]
          · cases src with
            | self =>
              have hs := hsafe rfl
              simp only [Source.At]
              rw [hQ, if_neg (by rcases hd with rfl | rfl <;> omega)]
            | ColorImage c W H => rfl
            | RGBA i => rfl
            | other i => rfl
          · intro m hmm
            exact hm u _ _ m hmm
        · rw [pixel_pix_ne _ _ _ _ _ _ _ _ _ _ _ _ hxy, hQ x y]
          refine if_congr ?_ rfl rfl
          rcases hd with rfl | rfl <;> omega
  rw [key x y]
  rfl

theorem writes_of_ne_self (mask : Option Source) (hmask : mask ≠ some .self)
    (s t : State) (mx my : Int) : writes mask s mx my ↔ writes mask t mx my := by
  cases mask with
  | none => simp [writes]
  | some m =>
    have hm : m ≠ .self := fun h => hmask (by rw [h])
    simp [writes, Source.At_of_ne_self m hm s t mx my]

theorem sweep_count (dst : Dst) (src : Source) (mask : Option Source)
    (x0 y0 d ox oy px py : Int) (nx ny : Nat) (s : State)
    (hd : d = 1 ∨ d = -1) (hmask : mask ≠ some .self) (x y : Int) :
    List.count (Event.Set x y) (sweep dst src mask x0 y0 d ox oy px py nx ny s).log
      = List.count (Event.Set x y) s.log
        + (if InSweep x0 y0 d nx ny x y ∧ writes mask s (x + px) (y + py) then 1 else 0) := by
  unfold InSweep
  by_cases hw : writes mask s (x + px) (y + py)
  · simp only [hw, and_true]
    unfold sweep
    refine foldl_range_inv _ (fun (j : Nat) (t : State) =>
      List.count (Event.Set x y) t.log = List.count (Event.Set x y) s.log
        + (if (0 ≤ d * (x - x0) ∧ d * (x - x0) < nx ∧ 0 ≤ d * (y - y0) ∧ d * (y - y0) < j)
          then 1 else 0)) ny s ?_ ?_
    · beta_reduce
      rw [if_neg (by omega)]; rfl
    · intro j t hj hP
      have inner := foldl_range_inv
        (fun (u : State) (k : Nat) =>
          pixel dst src mask (x0 + d * (k : Int)) (y0 + d * (j : Int))
            (x0 + d * (k : Int) + ox) (y0 + d * (j : Int) + oy)
            (x0 + d * (k : Int) + px) (y0 + d * (j : Int) + py) u)
        (fun (k : Nat) (u : State) =>
          List.count (Event.Set x y) u.log = List.count (Event.Set x y) s.log
          + (if ((0 ≤ d * (x - x0) ∧ d * (x - x0) < nx ∧ 0 ≤ d * (y - y0) ∧ d * (y - y0) < j)
              ∨ (d * (y - y0) = j ∧ 0 ≤ d * (x - x0) ∧ d * (x - x0) < k))
            then 1 else 0)) nx t ?_ ?_
      · simp only [] at inner ⊢
        rw [inner]
        congr 1
        refine if_congr ?_ rfl rfl
        rcases hd with rfl | rfl <;> omega
      · simp only []
        rw [hP]
        congr 1
        refine if_congr ?_ rfl rfl
        rcases hd with rfl | rfl <;> omega
      · intro k u hk hQ
        beta_reduce at hQ ⊢
        have hc := pixel_count dst src mask (x0 + d * (k : Int)) (y0 + d * (j : Int))
          (x0 + d * (k : Int) + ox) (y0 + d * (j : Int) + oy)
          (x0 + d * (k : Int) + px) (y0 + d * (j : Int) + py) u x y
        by_cases hxy : x = x0 + d * (k : Int) ∧ y = y0 + d * (j : Int)
        · have hw2 : writes mask u (x0 + d * (k : Int) + px) (y0 + d * (j : Int) + py) := by
            rw [← hxy.1, ← hxy.2]
            exact (writes_of_ne_self mask hmask s u _ _).mp hw
          rw [if_pos ⟨hxy.1, hxy.2, hw2⟩] at hc
          rw [hc, hQ]
          rcases hd with rfl | rfl <;> (split_ifs <;> omega)
        · rw [if_neg (fun h => hxy ⟨h.1, h.2.1⟩), Nat.add_zero] at hc
          rw [hc, hQ]
          congr 1
          refine if_congr ?_ rfl rfl
          rcases hd with rfl | rfl <;> omega
  · simp only [hw, and_false, if_false, Nat.add_zero]
    unfold sweep
    refine foldl_range_inv _ (fun (_ : Nat) (t : State) =>
      List.count (Event.Set x y) t.log = List.count (Event.Set x y) s.log) ny s rfl ?_
    intro j t hj hP
    refine foldl_range_inv _ (fun (_ : Nat) (u : State) =>
      List.count (Event.Set x y) u.log = List.count (Event.Set x y) s.log) nx t hP ?_
    intro k u hk hQ
    beta_reduce at hQ ⊢
    rw [pixel_count, hQ]
    by_cases hxy : x = x0 + d * (k : Int) ∧ y = y0 + d * (j : Int)
    · have hw2 : ¬ writes mask u (x0 + d * (k : Int) + px) (y0 + d * (j : Int) + py) := by
        rw [← hxy.1, ← hxy.2]
        exact fun h => hw ((writes_of_ne_self mask hmask s u _ _).mpr h)
      rw [if_neg (fun h => hw2 h.2.2), Nat.add_zero]
    · rw [if_neg (fun h => hxy ⟨h.1, h.2.1⟩), Nat.add_zero]

theorem sweep_frame (dst : Dst) (src : Source) (mask : Option Source)
    (x0 y0 d ox oy px py : Int) (nx ny : Nat) (s : State)
    (hd : d = 1 ∨ d = -1) (x y : Int) (hout : ¬ InSweep x0 y0 d nx ny x y) :
    (sweep dst src mask x0 y0 d ox oy px py nx ny s).pix x y = s.pix x y ∧
    List.count (Event.Set x y) (sweep dst src mask x0 y0 d ox oy px py nx ny s).log
      = List.count (Event.Set x y) s.log := by
  unfold InSweep at hout
  unfold sweep
  refine foldl_range_inv _ (fun (_ : Nat) (t : State) =>
    t.pix x y = s.pix x y ∧
      List.count (Event.Set x y) t.log = List.count (Event.Set x y) s.log) ny s ⟨rfl, rfl⟩ ?_
  intro j t hj hP
  refine foldl_range_inv _ (fun (_ : Nat) (u : State) =>
    u.pix x y = s.pix x y ∧
      List.count (Event.Set x y) u.log = List.count (Event.Set x y) s.log) nx t hP ?_
  intro k u hk hQ
  beta_reduce at hQ ⊢
  have hxy : ¬ (x = x0 + d * (k : Int) ∧ y = y0 + d * (j : Int)) := by
    rcases hd with rfl | rfl <;> omega
  rw [pixel_pix_ne _ _ _ _ _ _ _ _ _ _ _ _ hxy, pixel_count]
  refine ⟨hQ.1, ?_⟩
  rw [hQ.2, if_neg (fun h => hxy ⟨h.1, h.2.1⟩), Nat.add_zero]

theorem loops_eq_sweep (dst : Dst) (src : Source) (mask : Option Source)
    (x0 y0 d ox oy px py : Int) (nx ny fuel : Nat) (s : State)
    (hd : d ≠ 0) (hx : nx < fuel) (hy : ny < fuel) :
    forNe (fun y sy my s =>
        forNe (fun x sx mx s => .finished (pixel dst src mask x y sx sy mx my s))
          fuel x0 (x0 + d * (nx : Int)) d (x0 + ox) (x0 + px) s)
      fuel y0 (y0 + d * (ny : Int)) d (y0 + oy) (y0 + py) s
    = .finished (sweep dst src mask x0 y0 d ox oy px py nx ny s) := by
  have hrow : ∀ (y sy my : Int) (t : State),
      forNe (fun x sx mx s => Outcome.finished (pixel dst src mask x y sx sy mx my s))
          fuel x0 (x0 + d * (nx : Int)) d (x0 + ox) (x0 + px) t
        = .finished ((List.range nx).foldl (fun s (k : Nat) =>
            pixel dst src mask (x0 + d * (k : Int)) y (x0 + ox + d * (k : Int)) sy
              (x0 + px + d * (k : Int)) my s) t) := by
    intro y sy my t
    exact forNe_finished _ (fun x sx mx s => pixel dst src mask x y sx sy mx my s)
      (fun _ _ _ _ => rfl) d hd nx fuel x0 (x0 + ox) (x0 + px) t hx
  have houter := forNe_finished
    (fun y sy my s =>
      forNe (fun x sx mx s => Outcome.finished (pixel dst src mask x y sx sy mx my s))
        fuel x0 (x0 + d * (nx : Int)) d (x0 + ox) (x0 + px) s)
    (fun y sy my t => (List.range nx).foldl (fun s (k : Nat) =>
      pixel dst src mask (x0 + d * (k : Int)) y (x0 + ox + d * (k : Int)) sy
        (x0 + px + d * (k : Int)) my s) t)
    hrow d hd ny fuel y0 (y0 + oy) (y0 + py) s hy
  refine houter.trans ?_
  unfold sweep
  have e1 : ∀ k : Nat, x0 + ox + d * (k : Int) = x0 + d * (k : Int) + ox := fun k => by ring
  have e2 : ∀ k : Nat, x0 + px + d * (k : Int) = x0 + d * (k : Int) + px := fun k => by ring
  have e3 : ∀ j : Nat, y0 + oy + d * (j : Int) = y0 + d * (j : Int) + oy := fun j => by ring
  have e4 : ∀ j : Nat, y0 + py + d * (j : Int) = y0 + d * (j : Int) + py := fun j => by ring
  simp only [e1, e2, e3, e4]

theorem drawGeneric_eq_sweep (fuel : Nat) (dst : Dst) (s : State) (r : Rectangle)
    (src : Source) (sp : Point) (mask : Option Source) (mp : Point)
    (hwf : r.WellFormed) (hfx : r.Dx < fuel) (hfy : r.Dy < fuel) :
    drawGeneric fuel dst s r src sp mask mp
      = .finished (sweep dst src mask
          (if backward r src sp then r.Max.X - 1 else r.Min.X)
          (if backward r src sp then r.Max.Y - 1 else r.Min.Y)
          (if backward r src sp then -1 else 1)
          (sp.X - r.Min.X) (sp.Y - r.Min.Y) (mp.X - r.Min.X) (mp.Y - r.Min.Y)
          r.Dx.toNat r.Dy.toNat s) := by
  obtain ⟨hwx, hwy⟩ := hwf
  unfold Rectangle.Dx at hfx ⊢
  unfold Rectangle.Dy at hfy ⊢
  have hnx : ((r.Max.X - r.Min.X).toNat : Int) = r.Max.X - r.Min.X :=
    Int.toNat_of_nonneg (by omega)
  have hny : ((r.Max.Y - r.Min.Y).toNat : Int) = r.Max.Y - r.Min.Y :=
    Int.toNat_of_nonneg (by omega)
  have hx : (r.Max.X - r.Min.X).toNat < fuel := by omega
  have hy : (r.Max.Y - r.Min.Y).toNat < fuel := by omega
  unfold drawGeneric
  cases hb : backward r src sp
  · have := loops_eq_sweep dst src mask r.Min.X r.Min.Y 1 (sp.X - r.Min.X) (sp.Y - r.Min.Y)
      (mp.X - r.Min.X) (mp.Y - r.Min.Y) _ _ fuel s (by decide) hx hy
    simp only [Bool.false_eq_true, if_false]
    rw [← this]
    congr 1
    · funext y sy my t
      congr 1 <;> omega
    all_goals omega
  · have := loops_eq_sweep dst src mask (r.Max.X - 1) (r.Max.Y - 1) (-1) (sp.X - r.Min.X)
      (sp.Y - r.Min.Y) (mp.X - r.Min.X) (mp.Y - r.Min.Y) _ _ fuel s (by decide) hx hy
    simp only [if_true]
    rw [← this]
    congr 1
    · funext y sy my t
      congr 1 <;> omega
    all_goals omega

theorem inSweep_iff_contains (r : Rectangle) (b : Bool) (hwf : r.WellFormed) (x y : Int) :
    InSweep (if b then r.Max.X - 1 else r.Min.X) (if b then r.Max.Y - 1 else r.Min.Y)
      (if b then -1 else 1) r.Dx.toNat r.Dy.toNat x y ↔ r.Contains x y := by
  obtain ⟨hwx, hwy⟩ := hwf
  unfold InSweep Rectangle.Contains Rectangle.Dx Rectangle.Dy
  have hnx : ((r.Max.X - r.Min.X).toNat : Int) = r.Max.X - r.Min.X :=
    Int.toNat_of_nonneg (by omega)
  have hny : ((r.Max.Y - r.Min.Y).toNat : Int) = r.Max.Y - r.Min.Y :=
    Int.toNat_of_nonneg (by omega)
  rw [hnx, hny]
  cases b
  · simp only [Bool.false_eq_true, if_false]; omega
  · simp only [if_true]; omega

theorem backward_safe (r : Rectangle) (src : Source) (sp : Point) (hwf : r.WellFormed)
    (hself : src = .self) :
    0 < (if backward r src sp then -1 else 1) * (sp.Y - r.Min.Y) ∨
      (sp.Y - r.Min.Y = 0 ∧ 0 ≤ (if backward r src sp then -1 else 1) * (sp.X - r.Min.X)) ∨
      sp.X - r.Min.X ≤ -(r.Dx.toNat : Int) ∨ (r.Dx.toNat : Int) ≤ sp.X - r.Min.X ∨
      sp.Y - r.Min.Y ≤ -(r.Dy.toNat : Int) ∨ (r.Dy.toNat : Int) ≤ sp.Y - r.Min.Y := by
  obtain ⟨hwx, hwy⟩ := hwf
  subst hself
  unfold Rectangle.Dx Rectangle.Dy
  have hnx : ((r.Max.X - r.Min.X).toNat : Int) = r.Max.X - r.Min.X :=
    Int.toNat_of_nonneg (by omega)
  have hny : ((r.Max.Y - r.Min.Y).toNat : Int) = r.Max.Y - r.Min.Y :=
    Int.toNat_of_nonneg (by omega)
  rw [hnx, hny]
  cases hb : backward r .self sp
  · simp only [backward, Rectangle.Overlaps, Rectangle.Add, Point.Add, Point.Sub,
      Bool.true_and, Bool.and_eq_false_iff, Bool.or_eq_false_iff, decide_eq_false_iff_not,
      Bool.and_eq_true, Bool.or_eq_true, decide_eq_true_eq] at hb
    simp only [Bool.false_eq_true, if_false]
    omega
  · simp only [backward, Rectangle.Overlaps, Rectangle.Add, Point.Add, Point.Sub,
      Bool.true_and, Bool.and_eq_true, Bool.or_eq_true, decide_eq_true_eq] at hb
    simp only [if_true]
    omega

theorem drawGeneric_spec (fuel : Nat) (dst : Dst) (s : State) (r : Rectangle)
    (src : Source) (sp : Point) (mask : Option Source) (mp : Point)
    (hwf : r.WellFormed) (hfx : r.Dx < fuel) (hfy : r.Dy < fuel)
    (hmask : mask ≠ some .self) :
    ∃ s1, drawGeneric fuel dst s r src sp mask mp = .finished s1 ∧
      (∀ x y, s1.pix x y = if r.Contains x y
        then (pixel dst src mask x y (x + (sp.X - r.Min.X)) (y + (sp.Y - r.Min.Y))
          (x + (mp.X - r.Min.X)) (y + (mp.Y - r.Min.Y)) s).pix x y
        else s.pix x y) ∧
      (∀ x y, List.count (Event.Set x y) s1.log = List.count (Event.Set x y) s.log
        + (if r.Contains x y ∧
            writes mask s (x + (mp.X - r.Min.X)) (y + (mp.Y - r.Min.Y)) then 1 else 0)) := by
  refine ⟨_, drawGeneric_eq_sweep fuel dst s r src sp mask mp hwf hfx hfy, ?_, ?_⟩
  · intro x y
    rw [sweep_pix _ _ _ _ _ _ _ _ _ _ _ _ _
      (by cases backward r src sp <;> simp) hmask
      (fun hself => backward_safe r src sp hwf hself)]
    exact if_congr (inSweep_iff_contains r _ hwf x y) rfl rfl
  · intro x y
    rw [sweep_count _ _ _ _ _ _ _ _ _ _ _ _ _
      (by cases backward r src sp <;> simp) hmask]
    congr 1
    exact if_congr (and_congr (inSweep_iff_contains r _ hwf x y) Iff.rfl) rfl rfl

theorem drawGeneric_frame (fuel : Nat) (dst : Dst) (s : State) (r : Rectangle)
    (src : Source) (sp : Point) (mask : Option Source) (mp : Point)
    (hwf : r.WellFormed) (hfx : r.Dx < fuel) (hfy : r.Dy < fuel) :
    ∃ s1, drawGeneric fuel dst s r src sp mask mp = .finished s1 ∧
      ∀ x y, ¬ r.Contains x y → s1.pix x y = s.pix x y ∧
        List.count (Event.Set x y) s1.log = List.count (Event.Set x y) s.log := by
  refine ⟨_, drawGeneric_eq_sweep fuel dst s r src sp mask mp hwf hfx hfy, ?_⟩
  intro x y hout
  exact sweep_frame _ _ _ _ _ _ _ _ _ _ _ _ _
    (by cases backward r src sp <;> simp) x y
    (fun h => hout ((inSweep_iff_contains r _ hwf x y).mp h))

/-! ## The fast paths -/

theorem count_set_row (dx0 y : Int) (n : Nat) (x1 y1 : Int) :
    List.count (Event.Set x1 y1) ((List.range n).map (fun (k : Nat) => Event.Set (dx0 + k) y))
      = if y1 = y ∧ dx0 ≤ x1 ∧ x1 < dx0 + n then 1 else 0 := by
  induction n with
  | zero =>
    rw [if_neg (by omega)]
    rfl
  | succ n ih =>
    rw [List.range_succ, List.map_append, List.count_append, ih]
    simp only [List.map_cons, List.map_nil, List.count_cons, List.count_nil, beq_iff_eq,
      Event.Set.injEq]
    push_cast
    split_ifs <;> omega

theorem count_set_reads (sx0 sy : Int) (n : Nat) (x1 y1 : Int) :
    List.count (Event.Set x1 y1)
      ((List.range n).map (fun (k : Nat) => Event.SrcAt (sx0 + k) sy)) = 0 := by
  rw [List.count_eq_zero]
  intro h
  rw [List.mem_map] at h
  obtain ⟨k, _, hk⟩ := h
  cases hk

theorem copyRow_pix (s : State) (y dx0 dx1 : Int) (row : Int → Color) (x1 y1 : Int) :
    (s.copyRow y dx0 dx1 row).pix x1 y1
      = if y1 = y ∧ dx0 ≤ x1 ∧ x1 < dx1 then row x1 else s.pix x1 y1 := rfl

theorem copyRow_count (s : State) (y dx0 dx1 : Int) (row : Int → Color) (x1 y1 : Int) :
    List.count (Event.Set x1 y1) (s.copyRow y dx0 dx1 row).log
      = List.count (Event.Set x1 y1) s.log
        + (if y1 = y ∧ dx0 ≤ x1 ∧ x1 < dx1 then 1 else 0) := by
  unfold State.copyRow
  simp only [List.count_append, count_set_row]
  split_ifs <;> omega

theorem store_count (s : State) (x y : Int) (c : Color) (x1 y1 : Int) :
    List.count (Event.Set x1 y1) (s.store x y c).log
      = List.count (Event.Set x1 y1) s.log + (if x1 = x ∧ y1 = y then 1 else 0) := by
  unfold State.store
  simp only [List.count_append, List.count_cons, List.count_nil, beq_iff_eq, Event.Set.injEq]
  split_ifs <;> omega

theorem drawFill_spec (s : State) (r : Rectangle) (c : Color) (hwf : r.WellFormed)
    (x y : Int) :
    (drawFill s r c).pix x y = (if r.Contains x y then toRGBAColor c else s.pix x y) ∧
    List.count (Event.Set x y) (drawFill s r c).log
      = List.count (Event.Set x y) s.log + (if r.Contains x y then 1 else 0) := by
  obtain ⟨hwx, hwy⟩ := hwf
  unfold drawFill Rectangle.Contains
  by_cases hdy : r.Dy < 1
  · rw [if_pos hdy]
    unfold Rectangle.Dy at hdy
    rw [if_neg (by omega), if_neg (by omega)]
    exact ⟨rfl, rfl⟩
  · rw [if_neg hdy]
    unfold Rectangle.Dy at hdy
    have hnx : ((r.Max.X - r.Min.X).toNat : Int) = r.Max.X - r.Min.X :=
      Int.toNat_of_nonneg (by omega)
    have hny : ((r.Max.Y - (r.Min.Y + 1)).toNat : Int) = r.Max.Y - (r.Min.Y + 1) :=
      Int.toNat_of_nonneg (by omega)
    simp only []
    have first := foldl_range_inv
      (fun (s : State) (k : Nat) => s.store (r.Min.X + (k : Int)) r.Min.Y (toRGBAColor c))
      (fun (k : Nat) (t : State) => ∀ x y,
        t.pix x y = (if y = r.Min.Y ∧ r.Min.X ≤ x ∧ x < r.Min.X + k
          then toRGBAColor c else s.pix x y) ∧
        List.count (Event.Set x y) t.log = List.count (Event.Set x y) s.log
          + (if y = r.Min.Y ∧ r.Min.X ≤ x ∧ x < r.Min.X + k then 1 else 0))
      (r.Max.X - r.Min.X).toNat s ?_ ?_
    · rw [hnx] at first
      have second := foldl_range_inv
        (fun (s : State) (j : Nat) =>
          s.copyRow (r.Min.Y + 1 + (j : Int)) r.Min.X r.Max.X (fun x => s.pix x r.Min.Y))
        (fun (j : Nat) (t : State) => ∀ x y,
          t.pix x y = (if r.Min.X ≤ x ∧ x < r.Max.X ∧ r.Min.Y ≤ y ∧ y < r.Min.Y + 1 + j
            then toRGBAColor c else s.pix x y) ∧
          List.count (Event.Set x y) t.log = List.count (Event.Set x y) s.log
            + (if r.Min.X ≤ x ∧ x < r.Max.X ∧ r.Min.Y ≤ y ∧ y < r.Min.Y + 1 + j
              then 1 else 0))
        (r.Max.Y - (r.Min.Y + 1)).toNat
        ((List.range (r.Max.X - r.Min.X).toNat).foldl
          (fun (s : State) (k : Nat) =>
            s.store (r.Min.X + (k : Int)) r.Min.Y (toRGBAColor c)) s) ?_ ?_
      · rw [hny] at second
        have h := second x y
        refine ⟨h.1.trans (if_congr (by omega) rfl rfl), h.2.trans ?_⟩
        congr 1
        exact if_congr (by omega) rfl rfl
      · intro x y
        have h := first x y
        refine ⟨h.1.trans (if_congr (by omega) rfl rfl), h.2.trans ?_⟩
        congr 1
        exact if_congr (by omega) rfl rfl
      · intro j t hj hP x y
        have h := hP x y
        have h0 := (hP x r.Min.Y).1
        rw [copyRow_pix, copyRow_count, h.1, h.2]
        constructor
        · split_ifs <;> first | rfl | omega | (rw [h0]; split_ifs <;> first | rfl | omega)
        · split_ifs <;> omega
    · intro x y
      constructor
      · rw [if_neg (by omega)]
      · rw [if_neg (by omega)]; rfl
    · intro k t hk hP x y
      have h := hP x y
      rw [store_count, h.2]
      constructor
      · show (if x = r.Min.X + (k : Int) ∧ y = r.Min.Y then toRGBAColor c else t.pix x y) = _
        rw [h.1]
        push_cast
        split_ifs <;> first | rfl | omega
      · push_cast
        split_ifs <;> omega

theorem drawCopy_spec (s : State) (r : Rectangle) (src : Source) (sp : Point)
    (hwf : r.WellFormed)
    (hsafe : src = .self → r.Overlaps (r.Add (sp.Sub r.Min)) = false) (x y : Int) :
    (drawCopy s r src sp).pix x y
      = (if r.Contains x y then src.At s (x + (sp.X - r.Min.X)) (y + (sp.Y - r.Min.Y))
          else s.pix x y) ∧
    List.count (Event.Set x y) (drawCopy s r src sp).log
      = List.count (Event.Set x y) s.log + (if r.Contains x y then 1 else 0) := by
  obtain ⟨hwx, hwy⟩ := hwf
  unfold drawCopy Rectangle.Contains
  have hny : ((r.Max.Y - r.Min.Y).toNat : Int) = r.Max.Y - r.Min.Y :=
    Int.toNat_of_nonneg (by omega)
  simp only []
  have main := foldl_range_inv
    (fun (s : State) (j : Nat) =>
      State.copyRow ⟨s.pix, s.log ++
          List.map (fun (k : Nat) => Event.SrcAt (sp.X + (k : Int)) (sp.Y + (j : Int)))
            (List.range (r.Max.X - r.Min.X).toNat)⟩
        (r.Min.Y + (j : Int)) r.Min.X r.Max.X
        (fun x => src.At s (sp.X + (x - r.Min.X)) (sp.Y + (j : Int))))
    (fun (j : Nat) (t : State) => ∀ x y,
      t.pix x y = (if r.Min.X ≤ x ∧ x < r.Max.X ∧ r.Min.Y ≤ y ∧ y < r.Min.Y + j
        then src.At s (x + (sp.X - r.Min.X)) (y + (sp.Y - r.Min.Y)) else s.pix x y) ∧
      List.count (Event.Set x y) t.log = List.count (Event.Set x y) s.log
        + (if r.Min.X ≤ x ∧ x < r.Max.X ∧ r.Min.Y ≤ y ∧ y < r.Min.Y + j then 1 else 0))
    (r.Max.Y - r.Min.Y).toNat s ?_ ?_
  · rw [hny] at main
    have h := main x y
    refine ⟨h.1.trans (if_congr (by omega) rfl rfl), h.2.trans ?_⟩
    split_ifs <;> omega
  · intro x y
    constructor
    · rw [if_neg (by omega)]
    · rw [if_neg (by omega)]; rfl
  · intro j t hj hP x y
    have h := hP x y
    rw [copyRow_pix, copyRow_count]
    simp only [List.count_append, count_set_reads, Nat.add_zero]
    rw [h.1, h.2]
    constructor
    · by_cases hrow : y = r.Min.Y + (j : Int) ∧ r.Min.X ≤ x ∧ x < r.Max.X
      · rw [if_pos hrow, if_pos (by omega)]
        have e1 : sp.X + (x - r.Min.X) = x + (sp.X - r.Min.X) := by ring
        have e2 : sp.Y + (j : Int) = y + (sp.Y - r.Min.Y) := by rw [hrow.1]; ring
        rw [e1, e2]
        cases src with
        | self =>
          have hno := hsafe rfl
          simp only [Rectangle.Overlaps, Rectangle.Add, Point.Add, Point.Sub,
            Bool.and_eq_false_iff, decide_eq_false_iff_not] at hno
          simp only [Source.At]
          rw [(hP _ _).1, if_neg (by omega)]
        | ColorImage c W H => rfl
        | RGBA i => rfl
        | other i => rfl
      · rw [if_neg hrow]
        exact if_congr (by omega) rfl rfl
    · split_ifs <;> omega

/-! ## DrawMask -/

theorem clipTo_facts (r : Rectangle) (dx dy : Int) (hwf : r.WellFormed)
    (hdx : 0 ≤ dx) (hdy : 0 ≤ dy) :
    (clipTo r dx dy).Min = r.Min ∧ (clipTo r dx dy).WellFormed ∧
    (clipTo r dx dy).Dx ≤ r.Dx ∧ (clipTo r dx dy).Dy ≤ r.Dy := by
  obtain ⟨hwx, hwy⟩ := hwf
  unfold clipTo Rectangle.WellFormed Rectangle.Dx Rectangle.Dy
  by_cases h1 : r.Max.X - r.Min.X > dx <;> by_cases h2 : r.Max.Y - r.Min.Y > dy <;>
    simp only [h1, h2, if_true, if_false, Rectangle.Dy, true_and] <;>
    refine ⟨⟨?_, ?_⟩, ?_, ?_⟩ <;> omega

theorem extent_nonneg (dst : Dst) (src : Source) (sp : Point)
    (mask : Option Source) (mp : Point)
    (hsp : src.InExtent dst sp) (hmp : ∀ m, mask = some m → m.InExtent dst mp) :
    0 ≤ (extent dst src sp mask mp).1 ∧ 0 ≤ (extent dst src sp mask mp).2 := by
  obtain ⟨h1, h2, h3, h4⟩ := hsp
  unfold extent
  cases mask with
  | none => simp only []; omega
  | some m =>
    obtain ⟨h5, h6, h7, h8⟩ := hmp m rfl
    simp only []
    constructor <;> split_ifs <;> omega

theorem clip_facts (dst : Dst) (r : Rectangle) (src : Source) (sp : Point)
    (mask : Option Source) (mp : Point) (hwf : r.WellFormed)
    (hsp : src.InExtent dst sp) (hmp : ∀ m, mask = some m → m.InExtent dst mp) :
    (clip dst r src sp mask mp).Min = r.Min ∧
    (clip dst r src sp mask mp).WellFormed ∧
    (clip dst r src sp mask mp).Dx ≤ r.Dx ∧ (clip dst r src sp mask mp).Dy ≤ r.Dy := by
  have h := extent_nonneg dst src sp mask mp hsp hmp
  exact clipTo_facts r _ _ hwf h.1 h.2

theorem pixel_nil_pix (dst : Dst) (src : Source) (x y sx sy mx my : Int) (s : State) :
    (pixel dst src none x y sx sy mx my s).pix x y = dst.conv (src.At s sx sy) := by
  simp [pixel, Dst.Set, State.store]

theorem DrawMask_masked (fuel : Nat) (dst : Dst) (s : State) (r : Rectangle) (src : Source)
    (sp : Point) (m : Source) (mp : Point) (op : Op) :
    DrawMask fuel dst s r src sp (some m) mp op
      = drawGeneric fuel dst s (clip dst r src sp (some m) mp) src sp (some m) mp := by
  unfold DrawMask
  cases dst.kind <;> cases decide (op = SoverD) <;> cases src <;> rfl

theorem DrawMask_nil_spec (fuel : Nat) (dst : Dst) (s : State) (r : Rectangle)
    (src : Source) (sp mp : Point) (op : Op)
    (hwf : r.WellFormed) (hsp : src.InExtent dst sp)
    (hfx : r.Dx < fuel) (hfy : r.Dy < fuel) :
    ∃ s1, DrawMask fuel dst s r src sp none mp op = .finished s1 ∧
      ∀ x y,
        List.count (Event.Set x y) s1.log = List.count (Event.Set x y) s.log
          + (if (clip dst r src sp none mp).Contains x y then 1 else 0) ∧
        (¬ (clip dst r src sp none mp).Contains x y → s1.pix x y = s.pix x y) ∧
        (src.WellTyped → dst.WellTyped s → (clip dst r src sp none mp).Contains x y →
          s1.pix x y = dst.conv (src.At s (x + (sp.X - r.Min.X)) (y + (sp.Y - r.Min.Y)))) := by
  obtain ⟨hmin, hcwf, hcx, hcy⟩ :=
    clip_facts dst r src sp none mp hwf hsp (fun m h => by cases h)
  have generic : ∃ s1, drawGeneric fuel dst s (clip dst r src sp none mp) src sp none mp
        = .finished s1 ∧
      ∀ x y,
        List.count (Event.Set x y) s1.log = List.count (Event.Set x y) s.log
          + (if (clip dst r src sp none mp).Contains x y then 1 else 0) ∧
        (¬ (clip dst r src sp none mp).Contains x y → s1.pix x y = s.pix x y) ∧
        (src.WellTyped → dst.WellTyped s → (clip dst r src sp none mp).Contains x y →
          s1.pix x y
            = dst.conv (src.At s (x + (sp.X - r.Min.X)) (y + (sp.Y - r.Min.Y)))) := by
    obtain ⟨s1, h1, h2, h3⟩ := drawGeneric_spec fuel dst s (clip dst r src sp none mp) src sp
      none mp hcwf (by omega) (by omega) (by simp)
    refine ⟨s1, h1, fun x y => ⟨?_, ?_, ?_⟩⟩
    · rw [h3 x y]
      simp [writes]
    · intro hout
      rw [h2 x y, if_neg hout]
    · intro _ _ hin
      rw [h2 x y, if_pos hin, pixel_nil_pix, hmin]
  unfold DrawMask
  cases hk : dst.kind with
  | other f => cases decide (op = SoverD) <;> cases src <;> exact generic
  | RGBA =>
    have hconv : ∀ c, dst.conv c = toRGBAColor c := by
      intro c; simp [Dst.conv, hk]
    cases decide (op = SoverD) with
    | false => cases src <;> exact generic
    | true =>
      cases src with
      | other i => exact generic
      | ColorImage c W H =>
        refine ⟨_, rfl, fun x y => ?_⟩
        have h := drawFill_spec s (clip dst r (.ColorImage c W H) sp none mp) c hcwf x y
        refine ⟨h.2, fun hout => ?_, fun _ _ hin => ?_⟩
        · rw [h.1, if_neg hout]
        · rw [h.1, if_pos hin]
          simp only [hconv, Source.At]
      | RGBA i =>
        refine ⟨_, rfl, fun x y => ?_⟩
        have h := drawCopy_spec s (clip dst r (.RGBA i) sp none mp) (.RGBA i) sp hcwf
          (fun h => by cases h) x y
        refine ⟨h.2, fun hout => ?_, fun hts _ hin => ?_⟩
        · rw [h.1, if_neg hout]
        · rw [h.1, if_pos hin, hmin]
          simp only [hconv, Source.At]
          have ht : ∀ x y, toRGBAColor (i.At x y) = i.At x y := hts
          simp only [ht]
      | self =>
        simp only []
        by_cases hov : (clip dst r .self sp none mp).Overlaps
            ((clip dst r .self sp none mp).Add (sp.Sub (clip dst r .self sp none mp).Min)) = true
        · rw [if_pos hov]
          exact generic
        · rw [if_neg hov]
          refine ⟨_, rfl, fun x y => ?_⟩
          have h := drawCopy_spec s (clip dst r .self sp none mp) .self sp hcwf
            (fun _ => by simpa using hov) x y
          refine ⟨h.2, fun hout => ?_, fun _ htd hin => ?_⟩
          · rw [h.1, if_neg hout]
          · rw [h.1, if_pos hin, hmin]
            simp only [hconv, Source.At]
            have ht : ∀ x y, toRGBAColor (s.pix x y) = s.pix x y := by
              have := htd
              simp only [Dst.WellTyped, hk] at this
              exact this
            simp only [ht]

theorem DrawMask_mask_spec (fuel : Nat) (dst : Dst) (s : State) (r : Rectangle)
    (src : Source) (sp : Point) (m : Source) (mp : Point) (op : Op)
    (hwf : r.WellFormed) (hsp : src.InExtent dst sp) (hmp : m.InExtent dst mp)
    (hfx : r.Dx < fuel) (hfy : r.Dy < fuel) (hm : m ≠ .self) :
    ∃ s1, DrawMask fuel dst s r src sp (some m) mp op = .finished s1 ∧
      ∀ x y,
        List.count (Event.Set x y) s1.log = List.count (Event.Set x y) s.log
          + (if (clip dst r src sp (some m) mp).Contains x y ∧
              (m.At s (x + (mp.X - r.Min.X)) (y + (mp.Y - r.Min.Y))).a ≠ 0 then 1 else 0) ∧
        s1.pix x y = (if (clip dst r src sp (some m) mp).Contains x y
          then (pixel dst src (some m) x y (x + (sp.X - r.Min.X)) (y + (sp.Y - r.Min.Y))
            (x + (mp.X - r.Min.X)) (y + (mp.Y - r.Min.Y)) s).pix x y
          else s.pix x y) := by
  obtain ⟨hmin, hcwf, hcx, hcy⟩ :=
    clip_facts dst r src sp (some m) mp hwf hsp (fun m1 h => by cases h; exact hmp)
  rw [DrawMask_masked]
  obtain ⟨s1, h1, h2, h3⟩ := drawGeneric_spec fuel dst s (clip dst r src sp (some m) mp) src
    sp (some m) mp hcwf (by omega) (by omega) (fun h => hm (by cases h; rfl))
  refine ⟨s1, h1, fun x y => ⟨?_, ?_⟩⟩
  · rw [h3 x y, hmin]
    rfl
  · rw [h2 x y, hmin]

theorem DrawMask_frame (fuel : Nat) (dst : Dst) (s : State) (r : Rectangle)
    (src : Source) (sp : Point) (mask : Option Source) (mp : Point) (op : Op)
    (hwf : r.WellFormed) (hsp : src.InExtent dst sp)
    (hmp : ∀ m, mask = some m → m.InExtent dst mp)
    (hfx : r.Dx < fuel) (hfy : r.Dy < fuel) :
    ∃ s1, DrawMask fuel dst s r src sp mask mp op = .finished s1 ∧
      ∀ x y, ¬ (clip dst r src sp mask mp).Contains x y →
        s1.pix x y = s.pix x y ∧
        List.count (Event.Set x y) s1.log = List.count (Event.Set x y) s.log := by
  cases mask with
  | none =>
    obtain ⟨s1, h1, h2⟩ := DrawMask_nil_spec fuel dst s r src sp mp op hwf hsp hfx hfy
    refine ⟨s1, h1, fun x y hout => ⟨(h2 x y).2.1 hout, ?_⟩⟩
    rw [(h2 x y).1, if_neg hout, Nat.add_zero]
  | some m =>
    obtain ⟨hmin, hcwf, hcx, hcy⟩ := clip_facts dst r src sp (some m) mp hwf hsp hmp
    rw [DrawMask_masked]
    exact drawGeneric_frame fuel dst s _ src sp (some m) mp hcwf (by omega) (by omega)

/-! ## Clipping (claim C1) -/

theorem clipTo_eq (r : Rectangle) (dx dy : Int) :
    clipTo r dx dy = ⟨r.Min, ⟨r.Min.X + min r.Dx dx, r.Min.Y + min r.Dy dy⟩⟩ := by
  unfold clipTo Rectangle.Dx Rectangle.Dy
  obtain ⟨⟨a, b⟩, ⟨c, d⟩⟩ := r
  have e1 : a + min (c - a) dx = if c - a > dx then a + dx else c := by
    split_ifs <;> omega
  have e2 : b + min (d - b) dy = if d - b > dy then b + dy else d := by
    split_ifs <;> omega
  simp only [e1, e2]
  by_cases h1 : c - a > dx <;> by_cases h2 : d - b > dy <;>
    simp only [h1, h2, if_true, if_false, Rectangle.Dy]

theorem clip_eq_clippedRect (dst : Dst) (r : Rectangle) (src : Source) (sp : Point)
    (mask : Option Source) (mp : Point) :
    clip dst r src sp mask mp = clippedRect dst r src sp mask mp := by
  unfold clip clippedRect
  rw [clipTo_eq]
  cases mask with
  | none => rfl
  | some m =>
    have e1 : (extent dst src sp (some m) mp).1
        = min (src.Width dst - sp.X) (m.Width dst - mp.X) := by
      simp only [extent]
      split_ifs <;> omega
    have e2 : (extent dst src sp (some m) mp).2
        = min (src.Height dst - sp.Y) (m.Height dst - mp.Y) := by
      simp only [extent]
      split_ifs <;> omega
    rw [e1, e2]

/-- C1, clip-to-source. For a well-formed rectangle inside the destination and offsets
within the extents of the source and of the mask, the rectangle `DrawMask` works on is the
one with corner `r.Min` and size the minimum of the requested and the available extents;
the call runs to its end, every pixel outside that rectangle keeps its value and is never
stored to, and (for a mask that is not the destination itself) every pixel inside it is
stored to exactly once, unless the mask alpha there is 0, in which case not at all. -/
theorem drawMask_clip_to_source (fuel : Nat) (dst : Dst) (s : State) (r : Rectangle)
    (src : Source) (sp : Point) (mask : Option Source) (mp : Point) (op : Op)
    (hwf : r.WellFormed) (_hin : r.Inside dst.Width dst.Height)
    (hsp : src.InExtent dst sp) (hmp : ∀ m, mask = some m → m.InExtent dst mp)
    (hfx : r.Dx < fuel) (hfy : r.Dy < fuel) :
    clip dst r src sp mask mp = clippedRect dst r src sp mask mp ∧
    ∃ s1, DrawMask fuel dst s r src sp mask mp op = .finished s1 ∧
      (∀ x y, ¬ (clippedRect dst r src sp mask mp).Contains x y →
        s1.pix x y = s.pix x y ∧
        List.count (Event.Set x y) s1.log = List.count (Event.Set x y) s.log) ∧
      (mask ≠ some .self → ∀ x y, (clippedRect dst r src sp mask mp).Contains x y →
        List.count (Event.Set x y) s1.log = List.count (Event.Set x y) s.log
          + (if writes mask s (x + (mp.X - r.Min.X)) (y + (mp.Y - r.Min.Y))
              then 1 else 0)) := by
  refine ⟨clip_eq_clippedRect dst r src sp mask mp, ?_⟩
  rw [← clip_eq_clippedRect]
  obtain ⟨s1, h1, h2⟩ := DrawMask_frame fuel dst s r src sp mask mp op hwf hsp hmp hfx hfy
  refine ⟨s1, h1, h2, ?_⟩
  intro hmask x y hin
  cases mask with
  | none =>
    obtain ⟨s2, h3, h4⟩ := DrawMask_nil_spec fuel dst s r src sp mp op hwf hsp hfx hfy
    rw [h1] at h3
    cases h3
    rw [(h4 x y).1, if_pos hin]
    simp [writes]
  | some m =>
    obtain ⟨s2, h3, h4⟩ := DrawMask_mask_spec fuel dst s r src sp m mp op hwf hsp
      (hmp m rfl) hfx hfy (fun h => hmask (by rw [h]))
    rw [h1] at h3
    cases h3
    rw [(h4 x y).1]
    simp only [writes, hin, true_and]

/-- Witness for C1: a 3 by 3 request at `(1, 1)` of a 4 by 4 destination from a 2 by 2
source. -/
theorem drawMask_clip_to_source_witness :
    (Rect 1 1 4 4).WellFormed ∧ lightSrc.InExtent plainDst ZP ∧
    (clip plainDst (Rect 1 1 4 4) lightSrc ZP none ZP
        = clippedRect plainDst (Rect 1 1 4 4) lightSrc ZP none ZP ∧
      ∃ s1, DrawMask 4 plainDst greyState (Rect 1 1 4 4) lightSrc ZP none ZP SoverD
          = .finished s1 ∧
        (∀ x y, ¬ (clippedRect plainDst (Rect 1 1 4 4) lightSrc ZP none ZP).Contains x y →
          s1.pix x y = greyState.pix x y ∧
          List.count (Event.Set x y) s1.log = List.count (Event.Set x y) greyState.log) ∧
        (none ≠ some Source.self →
          ∀ x y, (clippedRect plainDst (Rect 1 1 4 4) lightSrc ZP none ZP).Contains x y →
          List.count (Event.Set x y) s1.log = List.count (Event.Set x y) greyState.log
            + (if writes none greyState (x + (ZP.X - (Rect 1 1 4 4).Min.X))
                (y + (ZP.Y - (Rect 1 1 4 4).Min.Y)) then 1 else 0))) :=
  ⟨by decide, by decide,
    drawMask_clip_to_source 4 plainDst greyState (Rect 1 1 4 4) lightSrc ZP none ZP SoverD
      (by decide) (by decide) (by decide) (fun m h => by cases h) (by decide) (by decide)⟩

/-! ## Colours -/

theorem byte_replicate_top (R : Nat) (hR : R < 256) :
    R * 16843009 / 16777216 % 256 = R := by
  have e : R * 16843009 = 16777216 * R + R * 65793 := by ring
  rw [e, Nat.mul_add_div (by norm_num), Nat.div_eq_of_lt (by omega), add_zero,
    Nat.mod_eq_of_lt hR]

theorem isRGBAColor_RGBAColor (R G B A : Nat) (hR : R < 256) (hG : G < 256) (hB : B < 256)
    (hA : A < 256) : IsRGBAColor (RGBAColor R G B A) := by
  have h24 : (2 : Nat) ^ 24 = 16777216 := by norm_num
  have h8 : (2 : Nat) ^ 8 = 256 := by norm_num
  simp only [IsRGBAColor, toRGBAColor, RGBAColor, u8, Nat.shiftRight_eq_div_pow,
    Color.mk.injEq, h24, h8, byte_replicate_top R hR, byte_replicate_top G hG,
    byte_replicate_top B hB, byte_replicate_top A hA, and_self]

theorem isRGBAColor_toRGBAColor (c : Color) : IsRGBAColor (toRGBAColor c) := by
  unfold toRGBAColor
  have h8 : (2 : Nat) ^ 8 = 256 := by norm_num
  apply isRGBAColor_RGBAColor <;> (unfold u8; rw [h8]; omega)

theorem clip_eq_self (dst : Dst) (r : Rectangle) (src : Source) (sp mp : Point)
    (hx : r.Dx ≤ src.Width dst - sp.X) (hy : r.Dy ≤ src.Height dst - sp.Y) :
    clip dst r src sp none mp = r := by
  unfold clip
  rw [clipTo_eq]
  have e1 : (extent dst src sp none mp).1 = src.Width dst - sp.X := rfl
  have e2 : (extent dst src sp none mp).2 = src.Height dst - sp.Y := rfl
  rw [e1, e2, min_eq_left hx, min_eq_left hy]
  obtain ⟨⟨a, b⟩, ⟨c, d⟩⟩ := r
  simp only [Rectangle.Dx, Rectangle.Dy, Rectangle.mk.injEq, Point.mk.injEq, true_and]
  constructor <;> omega

/-! ## Unmasked drawing (claims C2 and C5) -/

/-- C2, unmasked copy. For a well-formed rectangle inside the destination and a source
offset within the source, `Draw` runs to its end and every pixel `(x, y)` of the clipped
rectangle then holds the colour the source had at `(sp.X + x - r.Min.X, sp.Y + y -
r.Min.Y)`, as converted by the destination; when that colour is one the destination
stores unchanged, reading the pixel back yields the source value itself.  The statement
covers the fast fill (flat-colour source), the fast copy (`*image.RGBA` source) and the
general loops alike, as `Draw` dispatches among them. -/
theorem draw_unmasked_copy (fuel : Nat) (dst : Dst) (s : State) (r : Rectangle)
    (src : Source) (sp : Point)
    (hwf : r.WellFormed) (_hin : r.Inside dst.Width dst.Height)
    (hsp : src.InExtent dst sp) (hts : src.WellTyped) (htd : dst.WellTyped s)
    (hfx : r.Dx < fuel) (hfy : r.Dy < fuel) :
    ∃ s1, Draw fuel dst s r src sp = .finished s1 ∧
      ∀ x y, (clippedRect dst r src sp none ZP).Contains x y →
        s1.pix x y = dst.conv (src.At s (sp.X + x - r.Min.X) (sp.Y + y - r.Min.Y)) ∧
        (dst.conv (src.At s (sp.X + x - r.Min.X) (sp.Y + y - r.Min.Y))
            = src.At s (sp.X + x - r.Min.X) (sp.Y + y - r.Min.Y) →
          s1.pix x y = src.At s (sp.X + x - r.Min.X) (sp.Y + y - r.Min.Y)) := by
  obtain ⟨s1, h1, h2⟩ := DrawMask_nil_spec fuel dst s r src sp ZP SoverD hwf hsp hfx hfy
  refine ⟨s1, h1, fun x y hin => ?_⟩
  rw [← clip_eq_clippedRect] at hin
  have h := (h2 x y).2.2 hts htd hin
  have e1 : x + (sp.X - r.Min.X) = sp.X + x - r.Min.X := by ring
  have e2 : y + (sp.Y - r.Min.Y) = sp.Y + y - r.Min.Y := by ring
  rw [e1, e2] at h
  exact ⟨h, fun hc => h.trans hc⟩

/-- Witness for C2: a fast copy from a 2 by 2 `*image.RGBA` into a 4 by 4 one. -/
theorem draw_unmasked_copy_witness :
    (Rect 1 1 4 4).WellFormed ∧ (Rect 1 1 4 4).Inside rgbaDst.Width rgbaDst.Height ∧
    ∃ s1, Draw 4 rgbaDst greyState (Rect 1 1 4 4) rgbaSrc ZP = .finished s1 ∧
      ∀ x y, (clippedRect rgbaDst (Rect 1 1 4 4) rgbaSrc ZP none ZP).Contains x y →
        s1.pix x y = rgbaDst.conv
          (rgbaSrc.At greyState (ZP.X + x - (Rect 1 1 4 4).Min.X)
            (ZP.Y + y - (Rect 1 1 4 4).Min.Y)) ∧
        (rgbaDst.conv (rgbaSrc.At greyState (ZP.X + x - (Rect 1 1 4 4).Min.X)
              (ZP.Y + y - (Rect 1 1 4 4).Min.Y))
            = rgbaSrc.At greyState (ZP.X + x - (Rect 1 1 4 4).Min.X)
              (ZP.Y + y - (Rect 1 1 4 4).Min.Y) →
          s1.pix x y = rgbaSrc.At greyState (ZP.X + x - (Rect 1 1 4 4).Min.X)
            (ZP.Y + y - (Rect 1 1 4 4).Min.Y)) :=
  ⟨by decide, by decide,
    draw_unmasked_copy 4 rgbaDst greyState (Rect 1 1 4 4) rgbaSrc ZP (by decide) (by decide)
      (by decide)
      (fun _ _ => isRGBAColor_RGBAColor _ _ _ _ (by decide) (by decide) (by decide)
        (by decide))
      (fun _ _ => isRGBAColor_RGBAColor _ _ _ _ (by decide) (by decide) (by decide)
        (by decide))
      (by decide) (by decide)⟩

theorem snapshot_At (dst : Dst) (s t : State) (x y : Int) :
    (snapshot dst s).At t x y = s.pix x y := by
  unfold snapshot
  cases dst.kind <;> rfl

theorem snapshot_extent (dst : Dst) (s : State) :
    (snapshot dst s).Width dst = dst.Width ∧ (snapshot dst s).Height dst = dst.Height := by
  unfold snapshot
  cases dst.kind <;> exact ⟨rfl, rfl⟩

theorem snapshot_wellTyped (dst : Dst) (s : State) (htd : dst.WellTyped s) :
    (snapshot dst s).WellTyped := by
  unfold snapshot
  unfold Dst.WellTyped at htd
  cases hk : dst.kind with
  | RGBA =>
    rw [hk] at htd
    exact htd
  | other f => trivial

/-- C5, self-copy safety. For a well-formed rectangle `r` inside an image and a
non-negative offset `sp` whose source region (`r` moved so that its `Min` is `sp`) lies
inside the image, `Draw(img, r, img, sp)` runs to its end and leaves the pixels that the
copy from a snapshot of the image leaves: every pixel of `r` receives the value its
source pixel had before the call (as the image stores it; that very value for an
`*image.RGBA`), every other pixel is unchanged.  This holds for every direction of the shift, whether or not the regions
overlap. -/
theorem draw_self_copy_safe (fuel : Nat) (dst : Dst) (s : State) (r : Rectangle)
    (sp : Point)
    (hwf : r.WellFormed) (_hin : r.Inside dst.Width dst.Height)
    (hsp0 : 0 ≤ sp.X ∧ 0 ≤ sp.Y)
    (hsrc : (r.Add (sp.Sub r.Min)).Inside dst.Width dst.Height)
    (htd : dst.WellTyped s) (hfx : r.Dx < fuel) (hfy : r.Dy < fuel) :
    ∃ s1 s2, Draw fuel dst s r .self sp = .finished s1 ∧
      Draw fuel dst s r (snapshot dst s) sp = .finished s2 ∧
      ∀ x y, s1.pix x y = s2.pix x y ∧
        (r.Contains x y →
          s1.pix x y = dst.conv (s.pix (sp.X + x - r.Min.X) (sp.Y + y - r.Min.Y)) ∧
          (dst.kind = .RGBA →
            s1.pix x y = s.pix (sp.X + x - r.Min.X) (sp.Y + y - r.Min.Y))) ∧
        (¬ r.Contains x y → s1.pix x y = s.pix x y) := by
  obtain ⟨hwx, hwy⟩ := hwf
  have hwf : r.WellFormed := ⟨hwx, hwy⟩
  simp only [Rectangle.Inside, Rectangle.Add, Point.Add, Point.Sub] at hsrc
  obtain ⟨hs1, hs2, hs3, hs4⟩ := hsrc
  have hext := snapshot_extent dst s
  have hspA : Source.self.InExtent dst sp := by
    simp only [Source.InExtent, Source.Width, Source.Height]; omega
  have hspB : (snapshot dst s).InExtent dst sp := by
    simp only [Source.InExtent, hext.1, hext.2]; omega
  have hcA : clip dst r .self sp none ZP = r :=
    clip_eq_self dst r .self sp ZP
      (by simp only [Rectangle.Dx, Source.Width]; omega)
      (by simp only [Rectangle.Dy, Source.Height]; omega)
  have hcB : clip dst r (snapshot dst s) sp none ZP = r :=
    clip_eq_self dst r _ sp ZP
      (by simp only [Rectangle.Dx, hext.1]; omega)
      (by simp only [Rectangle.Dy, hext.2]; omega)
  obtain ⟨s1, h1, h2⟩ := DrawMask_nil_spec fuel dst s r .self sp ZP SoverD hwf hspA hfx hfy
  obtain ⟨s2, h3, h4⟩ :=
    DrawMask_nil_spec fuel dst s r (snapshot dst s) sp ZP SoverD hwf hspB hfx hfy
  rw [hcA] at h2
  rw [hcB] at h4
  refine ⟨s1, s2, h1, h3, fun x y => ?_⟩
  have e1 : x + (sp.X - r.Min.X) = sp.X + x - r.Min.X := by ring
  have e2 : y + (sp.Y - r.Min.Y) = sp.Y + y - r.Min.Y := by ring
  have hA : r.Contains x y →
      s1.pix x y = dst.conv (s.pix (sp.X + x - r.Min.X) (sp.Y + y - r.Min.Y)) := by
    intro hin
    have h := (h2 x y).2.2 trivial htd hin
    rw [e1, e2] at h
    exact h
  have hB : r.Contains x y →
      s2.pix x y = dst.conv (s.pix (sp.X + x - r.Min.X) (sp.Y + y - r.Min.Y)) := by
    intro hin
    have h := (h4 x y).2.2 (snapshot_wellTyped dst s htd) htd hin
    rw [e1, e2, snapshot_At] at h
    exact h
  refine ⟨?_, fun hin => ⟨hA hin, fun hk => ?_⟩, (h2 x y).2.1⟩
  swap
  · rw [hA hin]
    have ht := htd
    simp only [Dst.WellTyped, hk] at ht
    simp only [Dst.conv, hk]
    exact ht _ _
  by_cases hin : r.Contains x y
  · rw [hA hin, hB hin]
  · rw [(h2 x y).2.1 hin, (h4 x y).2.1 hin]

/-- Witness for C5: the 10 by 10 image of the specification, `sp = (0, 0)` and
`r = (2, 2)-(10, 10)`, a shift down and to the right by 2, for which the loops run
backward; pixel `(4, 4)`, whose source pixel `(2, 2)` is itself overwritten by the call,
receives the original value of `(2, 2)`. -/
theorem draw_self_copy_safe_witness :
    (Rect 2 2 10 10).Overlaps ((Rect 2 2 10 10).Add (ZP.Sub (Rect 2 2 10 10).Min)) = true ∧
    backward (Rect 2 2 10 10) .self ZP = true ∧
    (Draw 9 tenDst coordState (Rect 2 2 10 10) .self ZP).state.pix 9 9 = coordState.pix 7 7 ∧
    (Draw 9 tenDst coordState (Rect 2 2 10 10) .self ZP).state.pix 4 4 = coordState.pix 2 2 ∧
    ∃ s1 s2, Draw 9 tenDst coordState (Rect 2 2 10 10) .self ZP = .finished s1 ∧
      Draw 9 tenDst coordState (Rect 2 2 10 10) (snapshot tenDst coordState) ZP
        = .finished s2 ∧
      ∀ x y, s1.pix x y = s2.pix x y ∧
        ((Rect 2 2 10 10).Contains x y →
          s1.pix x y = tenDst.conv (coordState.pix (ZP.X + x - (Rect 2 2 10 10).Min.X)
            (ZP.Y + y - (Rect 2 2 10 10).Min.Y)) ∧
          (tenDst.kind = .RGBA →
            s1.pix x y = coordState.pix (ZP.X + x - (Rect 2 2 10 10).Min.X)
              (ZP.Y + y - (Rect 2 2 10 10).Min.Y))) ∧
        (¬ (Rect 2 2 10 10).Contains x y → s1.pix x y = coordState.pix x y) :=
  ⟨by decide, by decide, by decide, by decide,
    draw_self_copy_safe 9 tenDst coordState (Rect 2 2 10 10) ZP (by decide) (by decide)
      (by decide) (by decide)
      (fun x y => isRGBAColor_RGBAColor _ _ _ _ (Nat.mod_lt _ (by decide))
        (Nat.mod_lt _ (by decide)) (by decide) (by decide))
      (by decide) (by decide)⟩

/-! ## Masked drawing (claims C3 and C4) -/

theorem pixel_mask_zero (dst : Dst) (src : Source) (m : Source)
    (x y sx sy mx my : Int) (t : State) (h0 : (m.At t mx my).a = 0) (x1 y1 : Int) :
    (pixel dst src (some m) x y sx sy mx my t).pix x1 y1 = t.pix x1 y1 := by
  simp [pixel, h0, State.note]

theorem pixel_mask_max (dst : Dst) (src : Source) (m : Source)
    (x y sx sy mx my : Int) (t : State) (h1 : (m.At t mx my).a = 0xFFFFFFFF) :
    (pixel dst src (some m) x y sx sy mx my t).pix x y = dst.conv (src.At t sx sy) := by
  simp [pixel, h1, State.note, Dst.Set, State.store]

theorem pixel_mask_blend (dst : Dst) (src : Source) (m : Source)
    (x y sx sy mx my : Int) (t : State) (h0 : (m.At t mx my).a ≠ 0)
    (h1 : (m.At t mx my).a ≠ 0xFFFFFFFF) :
    (pixel dst src (some m) x y sx sy mx my t).pix x y
      = dst.conv (blend (t.pix x y) (src.At t sx sy) (m.At t mx my).a) := by
  simp [pixel, h0, h1, State.note, Dst.Set, State.store]

/-- C3 as stated fails at the maximum alpha for a destination that converts what it
stores.  With a 4 by 4 `*image.RGBA` destination, a source pixel of the 16-bit colour
`S = (0x1234, 0x5678, 0x9ABC, 0xFFFF)` and a mask alpha of `0xFFFFFFFF`, the pixel becomes
the 8-bit colour `(0x12, 0x56, 0x9A, 0xFF)` that `dst.Set` stores, which is not `S`. -/
theorem drawMask_alpha_max_counterexample :
    (Rect 0 0 1 1).WellFormed ∧ (Rect 0 0 1 1).Inside rgbaDst.Width rgbaDst.Height ∧
    deepSrc.InExtent rgbaDst ZP ∧ fullMask.InExtent rgbaDst ZP ∧
    (clippedRect rgbaDst (Rect 0 0 1 1) deepSrc ZP (some fullMask) ZP).Contains 0 0 ∧
    (fullMask.At greyState 0 0).a = 0xFFFFFFFF ∧
    deepSrc.At greyState 0 0 = RGBA64Color 0x1234 0x5678 0x9ABC 0xFFFF ∧
    (DrawMask 2 rgbaDst greyState (Rect 0 0 1 1) deepSrc ZP (some fullMask) ZP
      SoverD).isFinished = true ∧
    (DrawMask 2 rgbaDst greyState (Rect 0 0 1 1) deepSrc ZP (some fullMask) ZP
      SoverD).state.pix 0 0 = RGBAColor 0x12 0x56 0x9A 0xFF ∧
    (DrawMask 2 rgbaDst greyState (Rect 0 0 1 1) deepSrc ZP (some fullMask) ZP
      SoverD).state.pix 0 0 ≠ deepSrc.At greyState 0 0 := by
  decide

/-- C3 as amended, mask alpha boundaries. When the loop body reads a mask alpha of
exactly 0 it leaves every destination pixel as it is, and when it reads the maximum
`0xFFFFFFFF` the destination pixel becomes the source pixel's colour as converted by the
destination's `Set`.  For a masked `DrawMask` call with well-formed in-bounds arguments,
whose mask is not the destination itself, this gives for every pixel of the clipped
rectangle: mask alpha 0 leaves it equal to its prior value and never stored to; mask
alpha at the maximum makes it the converted colour of the corresponding source pixel,
which is exactly the source pixel's colour when the conversion leaves that colour as it
is. -/
theorem drawMask_alpha_boundaries (fuel : Nat) (dst : Dst) (s : State) (r : Rectangle)
    (src : Source) (sp : Point) (m : Source) (mp : Point) (op : Op)
    (hwf : r.WellFormed) (_hin : r.Inside dst.Width dst.Height)
    (hsp : src.InExtent dst sp) (hmp : m.InExtent dst mp)
    (hfx : r.Dx < fuel) (hfy : r.Dy < fuel) :
    (∀ (t : State) (x y sx sy mx my : Int),
      ((m.At t mx my).a = 0 → ∀ x1 y1,
        (pixel dst src (some m) x y sx sy mx my t).pix x1 y1 = t.pix x1 y1) ∧
      ((m.At t mx my).a = 0xFFFFFFFF →
        (pixel dst src (some m) x y sx sy mx my t).pix x y = dst.conv (src.At t sx sy))) ∧
    ∃ s1, DrawMask fuel dst s r src sp (some m) mp op = .finished s1 ∧
      (m ≠ .self → ∀ x y, (clippedRect dst r src sp (some m) mp).Contains x y →
        ((m.At s (mp.X + x - r.Min.X) (mp.Y + y - r.Min.Y)).a = 0 →
          s1.pix x y = s.pix x y ∧
          List.count (Event.Set x y) s1.log = List.count (Event.Set x y) s.log) ∧
        ((m.At s (mp.X + x - r.Min.X) (mp.Y + y - r.Min.Y)).a = 0xFFFFFFFF →
          s1.pix x y
            = dst.conv (src.At s (sp.X + x - r.Min.X) (sp.Y + y - r.Min.Y)) ∧
          (dst.conv (src.At s (sp.X + x - r.Min.X) (sp.Y + y - r.Min.Y))
              = src.At s (sp.X + x - r.Min.X) (sp.Y + y - r.Min.Y) →
            s1.pix x y = src.At s (sp.X + x - r.Min.X) (sp.Y + y - r.Min.Y)))) := by
  refine ⟨fun t x y sx sy mx my =>
    ⟨fun h0 x1 y1 => pixel_mask_zero dst src m x y sx sy mx my t h0 x1 y1,
      fun h1 => pixel_mask_max dst src m x y sx sy mx my t h1⟩, ?_⟩
  obtain ⟨s1, h1, _⟩ := DrawMask_frame fuel dst s r src sp (some m) mp op hwf hsp
    (fun m1 h => by cases h; exact hmp) hfx hfy
  refine ⟨s1, h1, fun hm x y hin => ?_⟩
  obtain ⟨s2, h3, h4⟩ := DrawMask_mask_spec fuel dst s r src sp m mp op hwf hsp hmp hfx hfy hm
  rw [h1] at h3
  cases h3
  rw [← clip_eq_clippedRect] at hin
  have e1 : x + (sp.X - r.Min.X) = sp.X + x - r.Min.X := by ring
  have e2 : y + (sp.Y - r.Min.Y) = sp.Y + y - r.Min.Y := by ring
  have e3 : x + (mp.X - r.Min.X) = mp.X + x - r.Min.X := by ring
  have e4 : y + (mp.Y - r.Min.Y) = mp.Y + y - r.Min.Y := by ring
  have h := h4 x y
  rw [e1, e2, e3, e4, if_pos hin] at h
  constructor
  · intro h0
    refine ⟨?_, ?_⟩
    · rw [h.2, pixel_mask_zero _ _ _ _ _ _ _ _ _ _ h0]
    · rw [h.1, if_neg (fun hc => hc.2 h0), Nat.add_zero]
  · intro hmax
    have hp : s1.pix x y
        = dst.conv (src.At s (sp.X + x - r.Min.X) (sp.Y + y - r.Min.Y)) := by
      rw [h.2, pixel_mask_max _ _ _ _ _ _ _ _ _ _ hmax]
    exact ⟨hp, fun hc => hp.trans hc⟩

/-- Witness for C3 as amended: the grey destination, the light source and a mask whose
left column has alpha 0 and whose right column has the maximum alpha; pixel `(1, 1)`
stays grey and pixel `(2, 1)` becomes the source colour. -/
theorem drawMask_alpha_boundaries_witness :
    (edgeMask.At greyState 0 0).a = 0 ∧ (edgeMask.At greyState 1 0).a = 0xFFFFFFFF ∧
    (DrawMask 4 plainDst greyState (Rect 1 1 4 4) lightSrc ZP (some edgeMask) ZP
      SoverD).state.pix 1 1 = RGBAColor 100 100 100 255 ∧
    (DrawMask 4 plainDst greyState (Rect 1 1 4 4) lightSrc ZP (some edgeMask) ZP
      SoverD).state.pix 2 1 = RGBAColor 200 200 200 255 ∧
    ((∀ (t : State) (x y sx sy mx my : Int),
      ((edgeMask.At t mx my).a = 0 → ∀ x1 y1,
        (pixel plainDst lightSrc (some edgeMask) x y sx sy mx my t).pix x1 y1 = t.pix x1 y1) ∧
      ((edgeMask.At t mx my).a = 0xFFFFFFFF →
        (pixel plainDst lightSrc (some edgeMask) x y sx sy mx my t).pix x y
          = plainDst.conv (lightSrc.At t sx sy))) ∧
    ∃ s1, DrawMask 4 plainDst greyState (Rect 1 1 4 4) lightSrc ZP (some edgeMask) ZP SoverD
        = .finished s1 ∧
      (edgeMask ≠ .self →
        ∀ x y, (clippedRect plainDst (Rect 1 1 4 4) lightSrc ZP (some edgeMask) ZP).Contains
          x y →
        ((edgeMask.At greyState (ZP.X + x - (Rect 1 1 4 4).Min.X)
            (ZP.Y + y - (Rect 1 1 4 4).Min.Y)).a = 0 →
          s1.pix x y = greyState.pix x y ∧
          List.count (Event.Set x y) s1.log = List.count (Event.Set x y) greyState.log) ∧
        ((edgeMask.At greyState (ZP.X + x - (Rect 1 1 4 4).Min.X)
            (ZP.Y + y - (Rect 1 1 4 4).Min.Y)).a = 0xFFFFFFFF →
          s1.pix x y = plainDst.conv (lightSrc.At greyState (ZP.X + x - (Rect 1 1 4 4).Min.X)
            (ZP.Y + y - (Rect 1 1 4 4).Min.Y)) ∧
          (plainDst.conv (lightSrc.At greyState (ZP.X + x - (Rect 1 1 4 4).Min.X)
              (ZP.Y + y - (Rect 1 1 4 4).Min.Y))
              = lightSrc.At greyState (ZP.X + x - (Rect 1 1 4 4).Min.X)
                (ZP.Y + y - (Rect 1 1 4 4).Min.Y) →
            s1.pix x y = lightSrc.At greyState (ZP.X + x - (Rect 1 1 4 4).Min.X)
              (ZP.Y + y - (Rect 1 1 4 4).Min.Y))))) :=
  ⟨by decide, by decide, by decide, by decide,
    drawMask_alpha_boundaries 4 plainDst greyState (Rect 1 1 4 4) lightSrc ZP edgeMask ZP
      SoverD (by decide) (by decide) (by decide) (by decide) (by decide) (by decide)⟩

theorem blendChannel_exact (d s sa ma : Nat) (hd : d ≤ 65535) (hs : s ≤ sa)
    (hsa : sa ≤ 65535) (hma : ma ≤ 65535) :
    u32 (sa * ma) = sa * ma ∧
    u16 (blendChannel d s ma (sa * ma / 65535))
      = blendChannelSpec 65535 d s ma (sa * ma / 65535) := by
  have hP : sa * ma ≤ 65535 * 65535 := Nat.mul_le_mul hsa hma
  have hY : s * ma ≤ sa * ma := Nat.mul_le_mul_right ma hs
  have hX : d * (65535 - sa * ma / 65535) ≤ 65535 * (65535 - sa * ma / 65535) :=
    Nat.mul_le_mul_right _ hd
  have h32 : (2 : Nat) ^ 32 = 4294967296 := by norm_num
  have h16 : (2 : Nat) ^ 16 = 65536 := by norm_num
  have hM : M = 65535 := by norm_num [M]
  simp only [blendChannel, blendChannelSpec, u32, u16, hM, h32, h16]
  generalize sa * ma = P at *
  generalize hXv : d * (65535 - P / 65535) = X at *
  generalize s * ma = Y at *
  have hXY : X + Y < 4294901760 := by omega
  have e1 : X % 4294967296 = X := Nat.mod_eq_of_lt (by omega)
  have e2 : Y % 4294967296 = Y := Nat.mod_eq_of_lt (by omega)
  have e3 : (X + Y) % 4294967296 = X + Y := Nat.mod_eq_of_lt (by omega)
  have e4 : (X + Y) / 65535 % 65536 = (X + Y) / 65535 := Nat.mod_eq_of_lt (by omega)
  rw [e1, e2, e3, e4]
  exact ⟨Nat.mod_eq_of_lt (by omega), rfl⟩

theorem blend_eq_blendSpec16 (d sc : Color) (ma : Nat) (hd : d.Valid) (hs : sc.Valid)
    (hp : sc.Premultiplied) (hma : ma < 2 ^ 32) :
    blend d sc ma = blendSpec16 d sc ma := by
  obtain ⟨hd1, hd2, hd3, hd4⟩ := hd
  obtain ⟨hs1, hs2, hs3, hs4⟩ := hs
  obtain ⟨hp1, hp2, hp3⟩ := hp
  have h32 : (2 : Nat) ^ 32 = 4294967296 := by norm_num
  have h16 : (2 : Nat) ^ 16 = 65536 := by norm_num
  rw [h32] at hd1 hd2 hd3 hd4 hs1 hs2 hs3 hs4 hma
  have hM : M = 65535 := by norm_num [M]
  have ha := (blendChannel_exact (d.a >>> 16) (sc.a >>> 16) (sc.a >>> 16) (ma >>> 16)
    (by rw [Nat.shiftRight_eq_div_pow, h16]; omega) (le_refl _)
    (by rw [Nat.shiftRight_eq_div_pow, h16]; omega)
    (by rw [Nat.shiftRight_eq_div_pow, h16]; omega))
  have hr := (blendChannel_exact (d.r >>> 16) (sc.r >>> 16) (sc.a >>> 16) (ma >>> 16)
    (by rw [Nat.shiftRight_eq_div_pow, h16]; omega)
    (by simp only [Nat.shiftRight_eq_div_pow, h16]; omega)
    (by rw [Nat.shiftRight_eq_div_pow, h16]; omega)
    (by rw [Nat.shiftRight_eq_div_pow, h16]; omega)).2
  have hg := (blendChannel_exact (d.g >>> 16) (sc.g >>> 16) (sc.a >>> 16) (ma >>> 16)
    (by rw [Nat.shiftRight_eq_div_pow, h16]; omega)
    (by simp only [Nat.shiftRight_eq_div_pow, h16]; omega)
    (by rw [Nat.shiftRight_eq_div_pow, h16]; omega)
    (by rw [Nat.shiftRight_eq_div_pow, h16]; omega)).2
  have hb := (blendChannel_exact (d.b >>> 16) (sc.b >>> 16) (sc.a >>> 16) (ma >>> 16)
    (by rw [Nat.shiftRight_eq_div_pow, h16]; omega)
    (by simp only [Nat.shiftRight_eq_div_pow, h16]; omega)
    (by rw [Nat.shiftRight_eq_div_pow, h16]; omega)
    (by rw [Nat.shiftRight_eq_div_pow, h16]; omega)).2
  simp only [blend, blendSpec16, hM, ha.1, ha.2, hr, hg, hb]

/-- C4 as stated fails: on the specification's own example (destination
`(100,100,100,255)`, source `(200,200,200,255)`, mask alpha at 50% of the maximum) the
8-bit formula of the claim gives 149 per colour channel, whereas `DrawMask` blends at
16-bit precision and writes 38549, which an `*image.RGBA` destination stores as 150. -/
theorem blend_formula_8bit_counterexample :
    (DrawMask 2 rgbaDst greyState (Rect 0 0 1 1) lightSrc ZP (some halfMask) ZP SoverD).isFinished
      = true ∧
    greyState.pix 0 0 = RGBAColor 100 100 100 255 ∧
    lightSrc.At greyState 0 0 = RGBAColor 200 200 200 255 ∧
    (halfMask.At greyState 0 0).a = 0xFFFFFFFF / 2 ∧
    blendSpec8 (greyState.pix 0 0) (lightSrc.At greyState 0 0) (halfMask.At greyState 0 0).a
      = RGBAColor 149 149 149 255 ∧
    (DrawMask 2 rgbaDst greyState (Rect 0 0 1 1) lightSrc ZP (some halfMask) ZP SoverD).state.pix
      0 0 = RGBAColor 150 150 150 255 ∧
    (DrawMask 2 plainDst greyState (Rect 0 0 1 1) lightSrc ZP (some halfMask) ZP SoverD).state.pix
      0 0 = RGBA64Color 38549 38549 38549 65535 ∧
    (DrawMask 2 rgbaDst greyState (Rect 0 0 1 1) lightSrc ZP (some halfMask) ZP SoverD).state.pix
      0 0 ≠ blendSpec8 (greyState.pix 0 0) (lightSrc.At greyState 0 0)
        (halfMask.At greyState 0 0).a := by
  decide

/-- C4 as amended, blend formula. Whenever the loop body reads a mask alpha strictly
between 0 and the maximum it passes to `dst.Set` the blend of the destination pixel's
colour with the source pixel's colour.  The blend works on the top 16 bits of each
channel in `uint32` arithmetic; when the colours are `uint32` values and the source pixel
is premultiplied it is exactly `a = sourceAlpha * maskAlpha / 65535` and, for each of R,
G, B, A, `(destChannel * (65535 - a) + sourceChannel * maskAlpha) / 65535`, truncating,
with no wrap-around.  For a masked `DrawMask` call with well-formed in-bounds arguments
on an `*image.RGBA` destination, which stores the top byte of each channel by value, and
a mask that is not the destination itself, every such pixel of the clipped rectangle
ends with that blend of the colours before the call, as the destination stores it. -/
theorem drawMask_blend_formula (fuel : Nat) (dst : Dst) (s : State) (r : Rectangle)
    (src : Source) (sp : Point) (m : Source) (mp : Point) (op : Op)
    (hwf : r.WellFormed) (_hin : r.Inside dst.Width dst.Height)
    (hsp : src.InExtent dst sp) (hmp : m.InExtent dst mp)
    (hfx : r.Dx < fuel) (hfy : r.Dy < fuel) :
    (∀ (t : State) (x y sx sy mx my : Int),
      0 < (m.At t mx my).a → (m.At t mx my).a < 0xFFFFFFFF →
        (pixel dst src (some m) x y sx sy mx my t).pix x y
          = dst.conv (blend (t.pix x y) (src.At t sx sy) (m.At t mx my).a) ∧
        ((t.pix x y).Valid → (src.At t sx sy).Valid → (src.At t sx sy).Premultiplied →
          (pixel dst src (some m) x y sx sy mx my t).pix x y
            = dst.conv (blendSpec16 (t.pix x y) (src.At t sx sy) (m.At t mx my).a))) ∧
    ∃ s1, DrawMask fuel dst s r src sp (some m) mp op = .finished s1 ∧
      (dst.kind = .RGBA → m ≠ .self →
        ∀ x y, (clippedRect dst r src sp (some m) mp).Contains x y →
        0 < (m.At s (mp.X + x - r.Min.X) (mp.Y + y - r.Min.Y)).a →
        (m.At s (mp.X + x - r.Min.X) (mp.Y + y - r.Min.Y)).a < 0xFFFFFFFF →
        s1.pix x y = toRGBAColor (blend (s.pix x y)
          (src.At s (sp.X + x - r.Min.X) (sp.Y + y - r.Min.Y))
          (m.At s (mp.X + x - r.Min.X) (mp.Y + y - r.Min.Y)).a) ∧
        ((s.pix x y).Valid →
          (src.At s (sp.X + x - r.Min.X) (sp.Y + y - r.Min.Y)).Valid →
          (src.At s (sp.X + x - r.Min.X) (sp.Y + y - r.Min.Y)).Premultiplied →
          s1.pix x y = toRGBAColor (blendSpec16 (s.pix x y)
            (src.At s (sp.X + x - r.Min.X) (sp.Y + y - r.Min.Y))
            (m.At s (mp.X + x - r.Min.X) (mp.Y + y - r.Min.Y)).a))) := by
  have body : ∀ (t : State) (x y sx sy mx my : Int),
      0 < (m.At t mx my).a → (m.At t mx my).a < 0xFFFFFFFF →
        (pixel dst src (some m) x y sx sy mx my t).pix x y
          = dst.conv (blend (t.pix x y) (src.At t sx sy) (m.At t mx my).a) ∧
        ((t.pix x y).Valid → (src.At t sx sy).Valid → (src.At t sx sy).Premultiplied →
          (pixel dst src (some m) x y sx sy mx my t).pix x y
            = dst.conv (blendSpec16 (t.pix x y) (src.At t sx sy) (m.At t mx my).a)) := by
    intro t x y sx sy mx my hlo hhi
    have h := pixel_mask_blend dst src m x y sx sy mx my t (by omega) (by omega)
    refine ⟨h, fun hv1 hv2 hp => ?_⟩
    rw [h, blend_eq_blendSpec16 _ _ _ hv1 hv2 hp (by norm_num; omega)]
  refine ⟨body, ?_⟩
  obtain ⟨s1, h1, _⟩ := DrawMask_frame fuel dst s r src sp (some m) mp op hwf hsp
    (fun m1 h => by cases h; exact hmp) hfx hfy
  refine ⟨s1, h1, fun hk hm x y hin hlo hhi => ?_⟩
  have hconv : ∀ c, dst.conv c = toRGBAColor c := by
    intro c
    unfold Dst.conv
    rw [hk]
  obtain ⟨s2, h3, h4⟩ := DrawMask_mask_spec fuel dst s r src sp m mp op hwf hsp hmp hfx hfy hm
  rw [h1] at h3
  cases h3
  rw [← clip_eq_clippedRect] at hin
  have e1 : x + (sp.X - r.Min.X) = sp.X + x - r.Min.X := by ring
  have e2 : y + (sp.Y - r.Min.Y) = sp.Y + y - r.Min.Y := by ring
  have e3 : x + (mp.X - r.Min.X) = mp.X + x - r.Min.X := by ring
  have e4 : y + (mp.Y - r.Min.Y) = mp.Y + y - r.Min.Y := by ring
  have h := (h4 x y).2
  rw [e1, e2, e3, e4, if_pos hin] at h
  have hb := body s x y (sp.X + x - r.Min.X) (sp.Y + y - r.Min.Y)
    (mp.X + x - r.Min.X) (mp.Y + y - r.Min.Y) hlo hhi
  refine ⟨?_, fun hv1 hv2 hp => ?_⟩
  · rw [← hconv]
    exact h.trans hb.1
  · rw [← hconv]
    exact h.trans (hb.2 hv1 hv2 hp)

/-- Witness for C4 as amended: the grey `*image.RGBA` destination, the light source and
the flat mask at 50% of the maximum; the blend has 38549 of 65535 in each colour channel
and pixel `(1, 1)` ends with its top byte, 150. -/
theorem drawMask_blend_formula_witness :
    (Rect 1 1 4 4).WellFormed ∧ halfMask.InExtent rgbaDst ZP ∧ rgbaDst.kind = .RGBA ∧
    (DrawMask 4 rgbaDst greyState (Rect 1 1 4 4) lightSrc ZP (some halfMask) ZP
      SoverD).state.pix 1 1 = RGBAColor 150 150 150 255 ∧
    blendSpec16 (greyState.pix 1 1) (lightSrc.At greyState 0 0) (halfMask.At greyState 0 0).a
      = RGBA64Color 38549 38549 38549 65535 ∧
    toRGBAColor (RGBA64Color 38549 38549 38549 65535) = RGBAColor 150 150 150 255 ∧
    ((∀ (t : State) (x y sx sy mx my : Int),
      0 < (halfMask.At t mx my).a → (halfMask.At t mx my).a < 0xFFFFFFFF →
        (pixel rgbaDst lightSrc (some halfMask) x y sx sy mx my t).pix x y
          = rgbaDst.conv (blend (t.pix x y) (lightSrc.At t sx sy) (halfMask.At t mx my).a) ∧
        ((t.pix x y).Valid → (lightSrc.At t sx sy).Valid →
          (lightSrc.At t sx sy).Premultiplied →
          (pixel rgbaDst lightSrc (some halfMask) x y sx sy mx my t).pix x y
            = rgbaDst.conv (blendSpec16 (t.pix x y) (lightSrc.At t sx sy)
              (halfMask.At t mx my).a))) ∧
    ∃ s1, DrawMask 4 rgbaDst greyState (Rect 1 1 4 4) lightSrc ZP (some halfMask) ZP SoverD
        = .finished s1 ∧
      (rgbaDst.kind = .RGBA → halfMask ≠ .self →
        ∀ x y, (clippedRect rgbaDst (Rect 1 1 4 4) lightSrc ZP (some halfMask) ZP).Contains
          x y →
        0 < (halfMask.At greyState (ZP.X + x - (Rect 1 1 4 4).Min.X)
          (ZP.Y + y - (Rect 1 1 4 4).Min.Y)).a →
        (halfMask.At greyState (ZP.X + x - (Rect 1 1 4 4).Min.X)
          (ZP.Y + y - (Rect 1 1 4 4).Min.Y)).a < 0xFFFFFFFF →
        s1.pix x y = toRGBAColor (blend (greyState.pix x y)
          (lightSrc.At greyState (ZP.X + x - (Rect 1 1 4 4).Min.X)
            (ZP.Y + y - (Rect 1 1 4 4).Min.Y))
          (halfMask.At greyState (ZP.X + x - (Rect 1 1 4 4).Min.X)
            (ZP.Y + y - (Rect 1 1 4 4).Min.Y)).a) ∧
        ((greyState.pix x y).Valid →
          (lightSrc.At greyState (ZP.X + x - (Rect 1 1 4 4).Min.X)
            (ZP.Y + y - (Rect 1 1 4 4).Min.Y)).Valid →
          (lightSrc.At greyState (ZP.X + x - (Rect 1 1 4 4).Min.X)
            (ZP.Y + y - (Rect 1 1 4 4).Min.Y)).Premultiplied →
          s1.pix x y = toRGBAColor (blendSpec16 (greyState.pix x y)
            (lightSrc.At greyState (ZP.X + x - (Rect 1 1 4 4).Min.X)
              (ZP.Y + y - (Rect 1 1 4 4).Min.Y))
            (halfMask.At greyState (ZP.X + x - (Rect 1 1 4 4).Min.X)
              (ZP.Y + y - (Rect 1 1 4 4).Min.Y)).a)))) :=
  ⟨by decide, by decide, rfl, by decide, by decide, by decide,
    drawMask_blend_formula 4 rgbaDst greyState (Rect 1 1 4 4) lightSrc ZP halfMask ZP
      SoverD (by decide) (by decide) (by decide) (by decide) (by decide) (by decide)⟩

/-! ## Sequences of Draw calls -/

theorem Draw_wellTyped (fuel : Nat) (dst : Dst) (s s1 : State) (r : Rectangle)
    (src : Source) (sp : Point)
    (hwf : r.WellFormed) (hsp : src.InExtent dst sp)
    (hfx : r.Dx < fuel) (hfy : r.Dy < fuel)
    (hts : src.WellTyped) (htd : dst.WellTyped s)
    (h : Draw fuel dst s r src sp = .finished s1) : dst.WellTyped s1 := by
  obtain ⟨s2, h1, h2⟩ := DrawMask_nil_spec fuel dst s r src sp ZP SoverD hwf hsp hfx hfy
  unfold Draw at h
  rw [h] at h1
  cases h1
  unfold Dst.WellTyped at htd ⊢
  cases hk : dst.kind with
  | other f => trivial
  | RGBA =>
    rw [hk] at htd
    intro x y
    by_cases hin : (clip dst r src sp none ZP).Contains x y
    · have hv := (h2 x y).2.2 hts (by unfold Dst.WellTyped; rw [hk]; exact htd) hin
      rw [hv]
      simp only [Dst.conv, hk]
      exact isRGBAColor_toRGBAColor _
    · rw [(h2 x y).2.1 hin]
      exact htd x y

theorem drawAll_spec (fuel : Nat) (dst : Dst) (src : Source) :
    ∀ (cs : List (Rectangle × Point)) (s : State),
      (∀ c ∈ cs, c.1.WellFormed ∧ src.InExtent dst c.2 ∧ c.1.Dx < fuel ∧ c.1.Dy < fuel) →
      ∃ s1, drawAll fuel dst src cs s = .finished s1 ∧
        ∀ x y,
          List.count (Event.Set x y) s1.log = List.count (Event.Set x y) s.log
            + cs.countP (fun c => decide ((clip dst c.1 src c.2 none ZP).Contains x y)) ∧
          ((∀ c ∈ cs, ¬ (clip dst c.1 src c.2 none ZP).Contains x y) →
            s1.pix x y = s.pix x y) := by
  intro cs
  induction cs with
  | nil =>
    intro s _
    exact ⟨s, rfl, fun x y => ⟨by simp, fun _ => rfl⟩⟩
  | cons c cs ih =>
    intro s hok
    obtain ⟨r, sp⟩ := c
    obtain ⟨hwf, hsp, hfx, hfy⟩ := hok (r, sp) (List.mem_cons_self _ _)
    obtain ⟨s0, h1, h2⟩ := DrawMask_nil_spec fuel dst s r src sp ZP SoverD hwf hsp hfx hfy
    obtain ⟨s1, h3, h4⟩ := ih s0 (fun c hc => hok c (List.mem_cons_of_mem _ hc))
    refine ⟨s1, ?_, fun x y => ⟨?_, ?_⟩⟩
    · simp only [drawAll, Draw, h1, Outcome.andThen]
      exact h3
    · rw [(h4 x y).1, (h2 x y).1, List.countP_cons]
      simp only [decide_eq_true_eq]
      omega
    · intro hout
      rw [(h4 x y).2 (fun c hc => hout c (List.mem_cons_of_mem _ hc)),
        (h2 x y).2.1 (hout (r, sp) (List.mem_cons_self _ _))]

theorem drawAll_value (fuel : Nat) (dst : Dst) (src : Source) (hsrc : src ≠ .self)
    (hts : src.WellTyped) :
    ∀ (cs : List (Rectangle × Point)) (s : State),
      (∀ c ∈ cs, c.1.WellFormed ∧ src.InExtent dst c.2 ∧ c.1.Dx < fuel ∧ c.1.Dy < fuel) →
      dst.WellTyped s →
      ∃ s1, drawAll fuel dst src cs s = .finished s1 ∧
        ∀ x y, (∃ c ∈ cs, (clip dst c.1 src c.2 none ZP).Contains x y) →
          ∃ c ∈ cs, (clip dst c.1 src c.2 none ZP).Contains x y ∧
            s1.pix x y = dst.conv
              (src.At s (x + (c.2.X - c.1.Min.X)) (y + (c.2.Y - c.1.Min.Y))) := by
  intro cs
  induction cs with
  | nil =>
    intro s _ _
    exact ⟨s, rfl, fun x y h => by obtain ⟨c, hc, _⟩ := h; cases hc⟩
  | cons c cs ih =>
    intro s hok htd
    obtain ⟨r, sp⟩ := c
    obtain ⟨hwf, hsp, hfx, hfy⟩ := hok (r, sp) (List.mem_cons_self _ _)
    obtain ⟨s0, h1, h2⟩ := DrawMask_nil_spec fuel dst s r src sp ZP SoverD hwf hsp hfx hfy
    have htd0 : dst.WellTyped s0 :=
      Draw_wellTyped fuel dst s s0 r src sp hwf hsp hfx hfy hts htd h1
    have hok1 : ∀ c ∈ cs,
        c.1.WellFormed ∧ src.InExtent dst c.2 ∧ c.1.Dx < fuel ∧ c.1.Dy < fuel :=
      fun c hc => hok c (List.mem_cons_of_mem _ hc)
    obtain ⟨s1, h3, h4⟩ := ih s0 hok1 htd0
    obtain ⟨s2, h5, h6⟩ := drawAll_spec fuel dst src cs s0 hok1
    rw [h3] at h5
    cases h5
    refine ⟨s1, ?_, fun x y hex => ?_⟩
    · simp only [drawAll, Draw, h1, Outcome.andThen]
      exact h3
    · by_cases hlater : ∃ c ∈ cs, (clip dst c.1 src c.2 none ZP).Contains x y
      · obtain ⟨c, hc, hin, hv⟩ := h4 x y hlater
        refine ⟨c, List.mem_cons_of_mem _ hc, hin, ?_⟩
        rw [hv, Source.At_of_ne_self src hsrc s0 s]
      · have hnone : ∀ c ∈ cs, ¬ (clip dst c.1 src c.2 none ZP).Contains x y :=
          fun c hc hin => hlater ⟨c, hc, hin⟩
        obtain ⟨c, hc, hin⟩ := hex
        rcases List.mem_cons.mp hc with rfl | hc1
        · refine ⟨(r, sp), List.mem_cons_self _ _, hin, ?_⟩
          rw [(h6 x y).2 hnone]
          exact (h2 x y).2.2 hts htd hin
        · exact absurd hin (hnone c hc1)

/-! ## Source alpha (claim C6) -/

/-- C6, the code at the failing input: an unmasked draw of a fully transparent source
pixel onto an opaque grey destination pixel.  "src over dst" leaves the destination as it
is; `Draw` stores the transparent colour instead, on the general loops and on the fast
fill alike. -/
theorem draw_ignores_source_alpha :
    (Draw 2 plainDst greyState (Rect 0 0 1 1) clearSrc ZP).isFinished = true ∧
    clearSrc.At greyState 0 0 = ⟨0, 0, 0, 0⟩ ∧
    sourceOver (greyState.pix 0 0) (clearSrc.At greyState 0 0) = greyState.pix 0 0 ∧
    (Draw 2 plainDst greyState (Rect 0 0 1 1) clearSrc ZP).state.pix 0 0 = ⟨0, 0, 0, 0⟩ ∧
    (Draw 2 rgbaDst greyState (Rect 0 0 1 1) clearColor ZP).state.pix 0 0 = ⟨0, 0, 0, 0⟩ ∧
    (Draw 2 plainDst greyState (Rect 0 0 1 1) clearSrc ZP).state.pix 0 0
      ≠ greyState.pix 0 0 := by
  decide

/-! ## Border (claims C7 to C10) -/

theorem border_inside_calls (fuel : Nat) (dst : Dst) (r : Rectangle) (w : Int)
    (src : Source) (sp : Point)
    (hwf : r.WellFormed) (hw : 0 < w) (hwx : 2 * w ≤ r.Dx) (hwy : 2 * w ≤ r.Dy)
    (hcov : src.Covers dst r sp) (hfx : r.Dx < fuel) (hfy : r.Dy < fuel) :
    (∀ c ∈ borderCalls r w sp,
      c.1.WellFormed ∧ src.InExtent dst c.2 ∧ c.1.Dx < fuel ∧ c.1.Dy < fuel) ∧
    (∀ c ∈ borderCalls r w sp, clip dst c.1 src c.2 none ZP = c.1) ∧
    (∀ c ∈ borderCalls r w sp, c.2.Sub c.1.Min = sp.Sub r.Min) ∧
    (∀ x y, (borderCalls r w sp).countP (fun c => decide (c.1.Contains x y))
      = if insideRing r w x y then 1 else 0) := by
  obtain ⟨hwfx, hwfy⟩ := hwf
  obtain ⟨hc1, hc2, hc3, hc4⟩ := hcov
  unfold Rectangle.Dx at hwx hfx hc2
  unfold Rectangle.Dy at hwy hfy hc4
  have hcalls : borderCalls r w sp =
      [ (Rect r.Min.X r.Min.Y r.Max.X (r.Min.Y + w), sp),
        (Rect r.Min.X (r.Min.Y + w) (r.Min.X + w) (r.Max.Y - w), sp.Add (Pt 0 w)),
        (Rect (r.Max.X - w) (r.Min.Y + w) r.Max.X (r.Max.Y - w),
          sp.Add (Pt (r.Dx - w) w)),
        (Rect r.Min.X (r.Max.Y - w) r.Max.X r.Max.Y, sp.Add (Pt 0 (r.Dy - w))) ] := by
    simp only [borderCalls, gt_iff_lt, hw, if_true]
  rw [hcalls]
  have hok : ∀ c ∈ [ (Rect r.Min.X r.Min.Y r.Max.X (r.Min.Y + w), sp),
        (Rect r.Min.X (r.Min.Y + w) (r.Min.X + w) (r.Max.Y - w), sp.Add (Pt 0 w)),
        (Rect (r.Max.X - w) (r.Min.Y + w) r.Max.X (r.Max.Y - w),
          sp.Add (Pt (r.Dx - w) w)),
        (Rect r.Min.X (r.Max.Y - w) r.Max.X r.Max.Y, sp.Add (Pt 0 (r.Dy - w))) ],
      (c.1.WellFormed ∧ src.InExtent dst c.2 ∧ c.1.Dx < fuel ∧ c.1.Dy < fuel) ∧
      (c.1.Dx ≤ src.Width dst - c.2.X ∧ c.1.Dy ≤ src.Height dst - c.2.Y) ∧
      c.2.Sub c.1.Min = sp.Sub r.Min := by
    simp only [List.forall_mem_cons, List.not_mem_nil, false_imp_iff, imp_true_iff,
      implies_true, and_true, Rectangle.WellFormed, Source.InExtent, Rectangle.Dx,
      Rectangle.Dy, Rect, Pt, Point.Add, Point.Sub, Point.mk.injEq]
    refine ⟨?_, ?_, ?_, ?_⟩ <;> omega
  refine ⟨fun c hc => (hok c hc).1, fun c hc => ?_, fun c hc => (hok c hc).2.2, ?_⟩
  · exact clip_eq_self dst c.1 src c.2 ZP (hok c hc).2.1.1 (hok c hc).2.1.2
  · intro x y
    simp only [List.countP_cons, List.countP_nil, decide_eq_true_eq, insideRing,
      Rectangle.Contains, Rect]
    split_ifs <;> omega

theorem border_outside_calls (fuel : Nat) (dst : Dst) (r : Rectangle) (w : Int)
    (src : Source) (sp : Point)
    (hwf : r.WellFormed) (hw : w < 0)
    (hcov : src.Covers dst (Rect (r.Min.X + w) (r.Min.Y + w) (r.Max.X - w) (r.Max.Y - w))
      (sp.Add (Pt w w)))
    (hfx : r.Dx - 2 * w < fuel) (hfy : r.Dy - 2 * w < fuel) :
    (∀ c ∈ borderCalls r w sp,
      c.1.WellFormed ∧ src.InExtent dst c.2 ∧ c.1.Dx < fuel ∧ c.1.Dy < fuel) ∧
    (∀ c ∈ borderCalls r w sp, clip dst c.1 src c.2 none ZP = c.1) ∧
    (∀ x y, (borderCalls r w sp).countP (fun c => decide (c.1.Contains x y))
      = if outsideRing r (-w) x y then 1 else 0) := by
  obtain ⟨hwfx, hwfy⟩ := hwf
  simp only [Source.Covers, Rectangle.Dx, Rectangle.Dy, Rect, Pt, Point.Add] at hcov
  obtain ⟨hc1, hc2, hc3, hc4⟩ := hcov
  unfold Rectangle.Dx at hfx
  unfold Rectangle.Dy at hfy
  have hcalls : borderCalls r w sp =
      [ (Rect (r.Min.X - -w) (r.Min.Y - -w) (r.Max.X + -w) r.Min.Y,
          sp.Add (Pt (- -w) (- -w))),
        (Rect (r.Min.X - -w) r.Min.Y r.Min.X r.Max.Y, sp.Add (Pt (- -w) 0)),
        (Rect r.Max.X r.Min.Y (r.Max.X + -w) r.Max.Y, sp.Add (Pt r.Dx 0)),
        (Rect (r.Min.X - -w) r.Max.Y (r.Max.X + -w) (r.Max.Y + -w),
          sp.Add (Pt (- -w) 0)) ] := by
    simp only [borderCalls, gt_iff_lt]
    rw [if_neg (by omega)]
  rw [hcalls]
  have hok : ∀ c ∈ [ (Rect (r.Min.X - -w) (r.Min.Y - -w) (r.Max.X + -w) r.Min.Y,
          sp.Add (Pt (- -w) (- -w))),
        (Rect (r.Min.X - -w) r.Min.Y r.Min.X r.Max.Y, sp.Add (Pt (- -w) 0)),
        (Rect r.Max.X r.Min.Y (r.Max.X + -w) r.Max.Y, sp.Add (Pt r.Dx 0)),
        (Rect (r.Min.X - -w) r.Max.Y (r.Max.X + -w) (r.Max.Y + -w),
          sp.Add (Pt (- -w) 0)) ],
      (c.1.WellFormed ∧ src.InExtent dst c.2 ∧ c.1.Dx < fuel ∧ c.1.Dy < fuel) ∧
      (c.1.Dx ≤ src.Width dst - c.2.X ∧ c.1.Dy ≤ src.Height dst - c.2.Y) := by
    simp only [List.forall_mem_cons, List.not_mem_nil, false_imp_iff, imp_true_iff,
      implies_true, and_true, Rectangle.WellFormed, Source.InExtent, Rectangle.Dx,
      Rectangle.Dy, Rect, Pt, Point.Add]
    refine ⟨?_, ?_, ?_, ?_⟩ <;> omega
  refine ⟨fun c hc => (hok c hc).1, fun c hc => ?_, ?_⟩
  · exact clip_eq_self dst c.1 src c.2 ZP (hok c hc).2.1 (hok c hc).2.2
  · intro x y
    simp only [List.countP_cons, List.countP_nil, decide_eq_true_eq, outsideRing,
      Rectangle.Contains, Rect]
    split_ifs <;> omega

theorem border_ring_spec (fuel : Nat) (dst : Dst) (s : State) (r : Rectangle) (w : Int)
    (src : Source) (sp : Point) (ring : Int → Int → Prop) [∀ x y, Decidable (ring x y)]
    (hok : ∀ c ∈ borderCalls r w sp,
      c.1.WellFormed ∧ src.InExtent dst c.2 ∧ c.1.Dx < fuel ∧ c.1.Dy < fuel)
    (hclip : ∀ c ∈ borderCalls r w sp, clip dst c.1 src c.2 none ZP = c.1)
    (hcount : ∀ x y, (borderCalls r w sp).countP (fun c => decide (c.1.Contains x y))
      = if ring x y then 1 else 0) :
    ∃ s1, Border fuel dst s r w src sp = .finished s1 ∧
      ∀ x y,
        List.count (Event.Set x y) s1.log = List.count (Event.Set x y) s.log
          + (if ring x y then 1 else 0) ∧
        (¬ ring x y → s1.pix x y = s.pix x y) := by
  obtain ⟨s1, h1, h2⟩ := drawAll_spec fuel dst src (borderCalls r w sp) s hok
  have hP : ∀ x y, (borderCalls r w sp).countP
        (fun c => decide ((clip dst c.1 src c.2 none ZP).Contains x y))
      = (borderCalls r w sp).countP (fun c => decide (c.1.Contains x y)) := by
    intro x y
    apply List.countP_congr
    intro c hc
    rw [hclip c hc]
  refine ⟨s1, h1, fun x y => ⟨?_, fun hout => ?_⟩⟩
  · rw [(h2 x y).1, hP, hcount]
  · apply (h2 x y).2
    intro c hc hin
    rw [hclip c hc] at hin
    have hpos : 0 < (borderCalls r w sp).countP (fun c => decide (c.1.Contains x y)) :=
      List.countP_pos_iff.mpr ⟨c, hc, by simpa using hin⟩
    rw [hcount, if_neg hout] at hpos
    exact absurd hpos (by decide)

theorem pairwise_disjoint_of_countP (cs : List Rectangle)
    (h : ∀ x y, cs.countP (fun c => decide (c.Contains x y)) ≤ 1) :
    cs.Pairwise Rectangle.Disjoint := by
  induction cs with
  | nil => exact List.Pairwise.nil
  | cons a cs ih =>
    refine List.Pairwise.cons ?_ (ih ?_)
    · intro b hb x y hab
      have h1 := h x y
      rw [List.countP_cons] at h1
      have hpos : 0 < cs.countP (fun c => decide (c.Contains x y)) :=
        List.countP_pos_iff.mpr ⟨b, hb, by simpa using hab.2⟩
      have ha : decide (a.Contains x y) = true := by simpa using hab.1
      rw [ha] at h1
      simp only [if_true] at h1
      omega
    · intro x y
      have h1 := h x y
      rw [List.countP_cons] at h1
      omega

theorem countP_map_fst (cs : List (Rectangle × Point)) (x y : Int) :
    (cs.map Prod.fst).countP (fun c => decide (c.Contains x y))
      = cs.countP (fun c => decide (c.1.Contains x y)) := by
  rw [List.countP_map]
  rfl

/-- C7, border inside. For a well-formed rectangle inside the destination, a width
`w > 0` with `2*w <= r.Dx()` and `2*w <= r.Dy()` and a source that covers `r` from `sp`,
the four strips of `Border` are pairwise disjoint, the call runs to its end, it stores
exactly once to every pixel of the ring of width `w` inside `r` and never to any other
pixel, and every pixel outside the ring (the interior and everything outside `r`) keeps
its value. -/
theorem border_inside_ring (fuel : Nat) (dst : Dst) (s : State) (r : Rectangle) (w : Int)
    (src : Source) (sp : Point)
    (hwf : r.WellFormed) (_hin : r.Inside dst.Width dst.Height)
    (hw : 0 < w) (hwx : 2 * w ≤ r.Dx) (hwy : 2 * w ≤ r.Dy)
    (hcov : src.Covers dst r sp) (hfx : r.Dx < fuel) (hfy : r.Dy < fuel) :
    ((borderCalls r w sp).map Prod.fst).Pairwise Rectangle.Disjoint ∧
    ∃ s1, Border fuel dst s r w src sp = .finished s1 ∧
      ∀ x y,
        List.count (Event.Set x y) s1.log = List.count (Event.Set x y) s.log
          + (if insideRing r w x y then 1 else 0) ∧
        (¬ insideRing r w x y → s1.pix x y = s.pix x y) := by
  obtain ⟨hok, hclip, _, hcount⟩ :=
    border_inside_calls fuel dst r w src sp hwf hw hwx hwy hcov hfx hfy
  refine ⟨?_, border_ring_spec fuel dst s r w src sp (insideRing r w) hok hclip hcount⟩
  apply pairwise_disjoint_of_countP
  intro x y
  rw [countP_map_fst, hcount]
  split_ifs <;> omega

/-- Witness for C7: `w = 2` on the 10 by 10 rectangle `(2, 2)-(12, 12)` of a 14 by 14
canvas. -/
theorem border_inside_ring_witness :
    (Rect 2 2 12 12).Inside canvasDst.Width canvasDst.Height ∧
    (((borderCalls (Rect 2 2 12 12) 2 (Pt 2 2)).map Prod.fst).Pairwise Rectangle.Disjoint ∧
    ∃ s1, Border 11 canvasDst greyState (Rect 2 2 12 12) 2 redColor (Pt 2 2) = .finished s1 ∧
      ∀ x y,
        List.count (Event.Set x y) s1.log = List.count (Event.Set x y) greyState.log
          + (if insideRing (Rect 2 2 12 12) 2 x y then 1 else 0) ∧
        (¬ insideRing (Rect 2 2 12 12) 2 x y → s1.pix x y = greyState.pix x y)) :=
  ⟨by decide,
    border_inside_ring 11 canvasDst greyState (Rect 2 2 12 12) 2 redColor (Pt 2 2)
      (by decide) (by decide) (by decide) (by decide) (by decide) (by decide) (by decide)
      (by decide)⟩

/-- C8, border outside. For a well-formed rectangle `r` and a width `w < 0` such that
`r` grown by `|w|` lies inside the destination, a source that covers the grown rectangle
when `r.Min` is aligned with `sp` (so `sp.X >= |w|` and `sp.Y >= |w|`), the four strips
of `Border` are pairwise disjoint, the call runs to its end, it stores exactly once to
every pixel of the ring of width `|w|` outside `r` and never to any other pixel, and
every pixel outside the ring (`r` itself and everything beyond the grown rectangle)
keeps its value. -/
theorem border_outside_ring (fuel : Nat) (dst : Dst) (s : State) (r : Rectangle) (w : Int)
    (src : Source) (sp : Point)
    (hwf : r.WellFormed) (hw : w < 0)
    (_hin : (Rect (r.Min.X + w) (r.Min.Y + w) (r.Max.X - w) (r.Max.Y - w)).Inside
      dst.Width dst.Height)
    (hcov : src.Covers dst (Rect (r.Min.X + w) (r.Min.Y + w) (r.Max.X - w) (r.Max.Y - w))
      (sp.Add (Pt w w)))
    (hfx : r.Dx - 2 * w < fuel) (hfy : r.Dy - 2 * w < fuel) :
    ((borderCalls r w sp).map Prod.fst).Pairwise Rectangle.Disjoint ∧
    ∃ s1, Border fuel dst s r w src sp = .finished s1 ∧
      ∀ x y,
        List.count (Event.Set x y) s1.log = List.count (Event.Set x y) s.log
          + (if outsideRing r (-w) x y then 1 else 0) ∧
        (¬ outsideRing r (-w) x y → s1.pix x y = s.pix x y) := by
  obtain ⟨hok, hclip, hcount⟩ :=
    border_outside_calls fuel dst r w src sp hwf hw hcov hfx hfy
  refine ⟨?_, border_ring_spec fuel dst s r w src sp (outsideRing r (-w)) hok hclip hcount⟩
  apply pairwise_disjoint_of_countP
  intro x y
  rw [countP_map_fst, hcount]
  split_ifs <;> omega

/-- Witness for C8: `w = -2` on the 10 by 10 rectangle `(2, 2)-(12, 12)` of a 14 by 14
canvas. -/
theorem border_outside_ring_witness :
    (Rect 2 2 12 12).WellFormed ∧
    (((borderCalls (Rect 2 2 12 12) (-2) (Pt 2 2)).map Prod.fst).Pairwise
      Rectangle.Disjoint ∧
    ∃ s1, Border 15 canvasDst greyState (Rect 2 2 12 12) (-2) redColor (Pt 2 2)
        = .finished s1 ∧
      ∀ x y,
        List.count (Event.Set x y) s1.log = List.count (Event.Set x y) greyState.log
          + (if outsideRing (Rect 2 2 12 12) (- -2) x y then 1 else 0) ∧
        (¬ outsideRing (Rect 2 2 12 12) (- -2) x y → s1.pix x y = greyState.pix x y)) :=
  ⟨by decide,
    border_outside_ring 15 canvasDst greyState (Rect 2 2 12 12) (-2) redColor (Pt 2 2)
      (by decide) (by decide) (by decide) (by decide) (by decide) (by decide)⟩

/-- C9 as stated fails when the source is the destination itself: on a 4 by 5 image
with `r = (0, 1)-(4, 5)`, `w = 1` and `sp = (0, 0)`, the top strip overwrites row 1
before the left strip reads it, so pixel `(0, 2)` of the ring receives the value that
was at `(0, 0)`, not the value of its source pixel `(0, 1)` that a single
`Draw(img, r, img, sp)` puts there. -/
theorem border_inside_alignment_counterexample :
    (Rect 0 1 4 5).WellFormed ∧ (Rect 0 1 4 5).Inside tallDst.Width tallDst.Height ∧
    2 * 1 ≤ (Rect 0 1 4 5).Dx ∧ 2 * 1 ≤ (Rect 0 1 4 5).Dy ∧
    Source.self.Covers tallDst (Rect 0 1 4 5) ZP ∧
    insideRing (Rect 0 1 4 5) 1 0 2 ∧
    (Border 5 tallDst coordState (Rect 0 1 4 5) 1 .self ZP).isFinished = true ∧
    (Border 5 tallDst coordState (Rect 0 1 4 5) 1 .self ZP).state.pix 0 2
      = RGBAColor 0 0 0 255 ∧
    coordState.pix (ZP.X + 0 - (Rect 0 1 4 5).Min.X) (ZP.Y + 2 - (Rect 0 1 4 5).Min.Y)
      = RGBAColor 0 1 0 255 ∧
    (Draw 5 tallDst coordState (Rect 0 1 4 5) .self ZP).state.pix 0 2
      = RGBAColor 0 1 0 255 := by
  decide

/-- C9 as amended, border source alignment, inside case. For `w > 0` with `2*w <=
r.Dx()`, `2*w <= r.Dy()` and a source covering `r` from `sp`, each of the four `Draw`
calls of `Border` (top, left, right, bottom) gets the source offset
`sp + (strip.Min - r.Min)`, so that the pixel `p` of a strip is read from the source
pixel at `sp + (p - r.Min)`; `Border` and a single `Draw(dst, r, src, sp)` both run to
their end, and when the source is not the destination itself every pixel `p` of the ring
ends as the source pixel at `sp + (p - r.Min)` (as stored by the destination), which is
the value the single `Draw` over the whole of `r` puts there. -/
theorem border_inside_alignment (fuel : Nat) (dst : Dst) (s : State) (r : Rectangle)
    (w : Int) (src : Source) (sp : Point)
    (hwf : r.WellFormed) (_hin : r.Inside dst.Width dst.Height)
    (hw : 0 < w) (hwx : 2 * w ≤ r.Dx) (hwy : 2 * w ≤ r.Dy)
    (hcov : src.Covers dst r sp) (hfx : r.Dx < fuel) (hfy : r.Dy < fuel) :
    (∀ c ∈ borderCalls r w sp, c.2 = sp.Add (c.1.Min.Sub r.Min)) ∧
    ∃ s1 s2, Border fuel dst s r w src sp = .finished s1 ∧
      Draw fuel dst s r src sp = .finished s2 ∧
      (src ≠ .self → src.WellTyped → dst.WellTyped s →
        ∀ x y, insideRing r w x y →
          s1.pix x y = dst.conv (src.At s (sp.X + x - r.Min.X) (sp.Y + y - r.Min.Y)) ∧
          s1.pix x y = s2.pix x y) := by
  obtain ⟨hok, hclip, halign, hcount⟩ :=
    border_inside_calls fuel dst r w src sp hwf hw hwx hwy hcov hfx hfy
  have halign2 : ∀ c ∈ borderCalls r w sp, c.2 = sp.Add (c.1.Min.Sub r.Min) := by
    intro c hc
    have ha := halign c hc
    simp only [Point.Sub, Point.mk.injEq] at ha
    obtain ⟨⟨⟨a1, a2⟩, a3⟩, ⟨b1, b2⟩⟩ := c
    simp only [Point.Add, Point.Sub, Point.mk.injEq] at ha ⊢
    constructor <;> omega
  refine ⟨halign2, ?_⟩
  obtain ⟨s1, h1, _⟩ := drawAll_spec fuel dst src (borderCalls r w sp) s hok
  have hcov2 := hcov
  obtain ⟨hc1, hc2, hc3, hc4⟩ := hcov2
  have hsp : src.InExtent dst sp := by
    obtain ⟨hwfx, hwfy⟩ := hwf
    unfold Rectangle.Dx at hc2
    unfold Rectangle.Dy at hc4
    unfold Source.InExtent
    omega
  obtain ⟨s2, h3, h4⟩ := DrawMask_nil_spec fuel dst s r src sp ZP SoverD hwf hsp hfx hfy
  rw [clip_eq_self dst r src sp ZP (by omega) (by omega)] at h4
  refine ⟨s1, s2, h1, h3, fun hsrc hts htd x y hring => ?_⟩
  obtain ⟨s3, h5, h2⟩ :=
    drawAll_value fuel dst src hsrc hts (borderCalls r w sp) s hok htd
  rw [h1] at h5
  cases h5
  have hex : ∃ c ∈ borderCalls r w sp, (clip dst c.1 src c.2 none ZP).Contains x y := by
    have hpos : 0 < (borderCalls r w sp).countP (fun c => decide (c.1.Contains x y)) := by
      rw [hcount, if_pos hring]
      exact Nat.one_pos
    obtain ⟨c, hc, hin⟩ := List.countP_pos_iff.mp hpos
    exact ⟨c, hc, by rw [hclip c hc]; simpa using hin⟩
  obtain ⟨c, hc, _, hv⟩ := h2 x y hex
  have ha := halign c hc
  simp only [Point.Sub, Point.mk.injEq] at ha
  have e1 : x + (c.2.X - c.1.Min.X) = sp.X + x - r.Min.X := by omega
  have e2 : y + (c.2.Y - c.1.Min.Y) = sp.Y + y - r.Min.Y := by omega
  rw [e1, e2] at hv
  refine ⟨hv, ?_⟩
  have hv2 := (h4 x y).2.2 hts htd hring.1
  have e3 : x + (sp.X - r.Min.X) = sp.X + x - r.Min.X := by ring
  have e4 : y + (sp.Y - r.Min.Y) = sp.Y + y - r.Min.Y := by ring
  rw [e3, e4] at hv2
  rw [hv, hv2]

/-- Witness for C9 as amended: `w = 2` on the 10 by 10 rectangle `(2, 2)-(12, 12)` of a
14 by 14 canvas, from a 14 by 14 source; pixel `(3, 11)` of the bottom strip ends as the
source pixel `(3, 11)`. -/
theorem border_inside_alignment_witness :
    coordSrc14.Covers canvasDst (Rect 2 2 12 12) (Pt 2 2) ∧
    (Border 11 canvasDst greyState (Rect 2 2 12 12) 2 coordSrc14 (Pt 2 2)).state.pix 3 11
      = RGBAColor 3 11 0 255 ∧
    ((∀ c ∈ borderCalls (Rect 2 2 12 12) 2 (Pt 2 2),
        c.2 = (Pt 2 2).Add (c.1.Min.Sub (Rect 2 2 12 12).Min)) ∧
    ∃ s1 s2, Border 11 canvasDst greyState (Rect 2 2 12 12) 2 coordSrc14 (Pt 2 2)
        = .finished s1 ∧
      Draw 11 canvasDst greyState (Rect 2 2 12 12) coordSrc14 (Pt 2 2) = .finished s2 ∧
      (coordSrc14 ≠ .self → coordSrc14.WellTyped → canvasDst.WellTyped greyState →
        ∀ x y, insideRing (Rect 2 2 12 12) 2 x y →
          s1.pix x y = canvasDst.conv (coordSrc14.At greyState
            ((Pt 2 2).X + x - (Rect 2 2 12 12).Min.X)
            ((Pt 2 2).Y + y - (Rect 2 2 12 12).Min.Y)) ∧
          s1.pix x y = s2.pix x y)) :=
  ⟨by decide, by decide,
    border_inside_alignment 11 canvasDst greyState (Rect 2 2 12 12) 2 coordSrc14 (Pt 2 2)
      (by decide) (by decide) (by decide) (by decide) (by decide) (by decide)
      (by decide) (by decide)⟩

/-- C10, the code at the failing input: `w = -1` around `r = (2, 2)-(4, 4)` with
`sp = (2, 2)`, so that aligning `r.Min` with `sp` maps every destination pixel to the
source pixel of the same coordinates.  The bottom strip is drawn with source offset
`sp + (-1, 0)` instead of `sp + (-1, r.Dy())`: its pixel `(1, 4)` receives the source
pixel `(1, 2)`, not `(1, 4)`; the top, left and right strips are aligned. -/
theorem border_outside_bottom_misaligned :
    (borderCalls (Rect 2 2 4 4) (-1) (Pt 2 2)).map Prod.fst
      = [Rect 1 1 5 2, Rect 1 2 2 4, Rect 4 2 5 4, Rect 1 4 5 5] ∧
    (borderCalls (Rect 2 2 4 4) (-1) (Pt 2 2)).map Prod.snd
      = [Pt 1 1, Pt 1 2, Pt 4 2, Pt 1 2] ∧
    (Border 7 sixDst greyState (Rect 2 2 4 4) (-1) coordSrc (Pt 2 2)).isFinished = true ∧
    outsideRing (Rect 2 2 4 4) 1 1 4 ∧
    (Border 7 sixDst greyState (Rect 2 2 4 4) (-1) coordSrc (Pt 2 2)).state.pix 1 4
      = coordSrc.At greyState 1 2 ∧
    coordSrc.At greyState ((Pt 2 2).X + 1 - (Rect 2 2 4 4).Min.X)
        ((Pt 2 2).Y + 4 - (Rect 2 2 4 4).Min.Y) = RGBAColor 1 4 0 255 ∧
    (Border 7 sixDst greyState (Rect 2 2 4 4) (-1) coordSrc (Pt 2 2)).state.pix 1 4
      = RGBAColor 1 2 0 255 ∧
    (Border 7 sixDst greyState (Rect 2 2 4 4) (-1) coordSrc (Pt 2 2)).state.pix 1 1
      = RGBAColor 1 1 0 255 ∧
    (Border 7 sixDst greyState (Rect 2 2 4 4) (-1) coordSrc (Pt 2 2)).state.pix 1 3
      = RGBAColor 1 3 0 255 ∧
    (Border 7 sixDst greyState (Rect 2 2 4 4) (-1) coordSrc (Pt 2 2)).state.pix 4 3
      = RGBAColor 4 3 0 255 := by
  decide

/-! ## Fixed-width arithmetic agrees with the unbounded one on images -/

theorem wrapInt_eq (bits : Nat) (n : Int) (hb : 0 < bits)
    (hlo : -((2 ^ (bits - 1) : Nat) : Int) ≤ n) (hhi : n < ((2 ^ (bits - 1) : Nat) : Int)) :
    wrapInt bits n = n := by
  unfold wrapInt
  have hN : 2 ^ bits = 2 * 2 ^ (bits - 1) := by
    obtain ⟨k, rfl⟩ := Nat.exists_eq_succ_of_ne_zero (by omega : bits ≠ 0)
    rw [Nat.succ_sub_one, Nat.pow_succ, Nat.mul_comm]
  rw [hN]
  generalize 2 ^ (bits - 1) = B at *
  rw [Nat.cast_mul, Int.emod_eq_of_lt (by omega) (by push_cast; omega)]
  omega

theorem extentWrapped_eq (bits : Nat) (dst : Dst) (src : Source) (sp : Point)
    (mask : Option Source) (mp : Point) (hfit : FitsInt bits dst src mask)
    (hsp : src.InExtent dst sp) (hmp : ∀ m, mask = some m → m.InExtent dst mp) :
    extentWrapped bits dst src sp mask mp = extent dst src sp mask mp := by
  obtain ⟨hb, _, _, hw, hh, hm⟩ := hfit
  obtain ⟨h1, h2, h3, h4⟩ := hsp
  have hB : (0 : Int) ≤ ((2 ^ (bits - 1) : Nat) : Int) := Int.ofNat_nonneg _
  have e1 : wrapInt bits (src.Width dst - sp.X) = src.Width dst - sp.X :=
    wrapInt_eq bits _ hb (by omega) (by omega)
  have e2 : wrapInt bits (src.Height dst - sp.Y) = src.Height dst - sp.Y :=
    wrapInt_eq bits _ hb (by omega) (by omega)
  cases mask with
  | none => simp only [extentWrapped, extent, e1, e2]
  | some m =>
    obtain ⟨h5, h6, h7, h8⟩ := hmp m rfl
    obtain ⟨hmw, hmh⟩ := hm m rfl
    have e3 : wrapInt bits (m.Width dst - mp.X) = m.Width dst - mp.X :=
      wrapInt_eq bits _ hb (by omega) (by omega)
    have e4 : wrapInt bits (m.Height dst - mp.Y) = m.Height dst - mp.Y :=
      wrapInt_eq bits _ hb (by omega) (by omega)
    simp only [extentWrapped, extent, e1, e2, e3, e4]

theorem clipToWrapped_eq (bits : Nat) (r : Rectangle) (dx dy w h : Int) (hb : 0 < bits)
    (hwf : r.WellFormed) (hin : r.Inside w h)
    (hw : w < ((2 ^ (bits - 1) : Nat) : Int)) (hh : h < ((2 ^ (bits - 1) : Nat) : Int))
    (hdx : 0 ≤ dx) (hdy : 0 ≤ dy) :
    clipToWrapped bits r dx dy = clipTo r dx dy := by
  obtain ⟨hwx, hwy⟩ := hwf
  obtain ⟨i1, i2, i3, i4⟩ := hin
  have hB : (0 : Int) ≤ ((2 ^ (bits - 1) : Nat) : Int) := Int.ofNat_nonneg _
  obtain ⟨⟨a, b⟩, ⟨c, d⟩⟩ := r
  simp only [] at hwx hwy i1 i2 i3 i4
  have e1 : wrapInt bits (c - a) = c - a := wrapInt_eq bits _ hb (by omega) (by omega)
  have e2 : wrapInt bits (d - b) = d - b := wrapInt_eq bits _ hb (by omega) (by omega)
  unfold clipToWrapped clipTo Rectangle.Dx Rectangle.Dy
  by_cases h1 : c - a > dx
  · have e3 : wrapInt bits (a + dx) = a + dx := wrapInt_eq bits _ hb (by omega) (by omega)
    by_cases h2 : d - b > dy
    · have e4 : wrapInt bits (b + dy) = b + dy := wrapInt_eq bits _ hb (by omega) (by omega)
      simp only [e1, e2, e3, e4, h1, h2, if_true]
    · simp only [e1, e2, e3, h1, h2, if_true, if_false]
  · by_cases h2 : d - b > dy
    · have e4 : wrapInt bits (b + dy) = b + dy := wrapInt_eq bits _ hb (by omega) (by omega)
      simp only [e1, e2, e4, h1, h2, if_true, if_false]
    · simp only [e1, e2, h1, h2, if_false]

theorem clipWrapped_eq_clip (bits : Nat) (dst : Dst) (r : Rectangle) (src : Source)
    (sp : Point) (mask : Option Source) (mp : Point) (hfit : FitsInt bits dst src mask)
    (hwf : r.WellFormed) (hin : r.Inside dst.Width dst.Height)
    (hsp : src.InExtent dst sp) (hmp : ∀ m, mask = some m → m.InExtent dst mp) :
    clipWrapped bits dst r src sp mask mp = clip dst r src sp mask mp := by
  unfold clipWrapped clip
  rw [extentWrapped_eq bits dst src sp mask mp hfit hsp hmp]
  obtain ⟨h1, h2⟩ := extent_nonneg dst src sp mask mp hsp hmp
  exact clipToWrapped_eq bits r _ _ dst.Width dst.Height hfit.1 hwf hin hfit.2.1 hfit.2.2.1
    h1 h2

theorem DrawMaskWrapped_eq (bits fuel : Nat) (dst : Dst) (s : State) (r : Rectangle)
    (src : Source) (sp : Point) (mask : Option Source) (mp : Point) (op : Op)
    (hfit : FitsInt bits dst src mask)
    (hwf : r.WellFormed) (hin : r.Inside dst.Width dst.Height)
    (hsp : src.InExtent dst sp) (hmp : ∀ m, mask = some m → m.InExtent dst mp) :
    DrawMaskWrapped bits fuel dst s r src sp mask mp op
      = DrawMask fuel dst s r src sp mask mp op := by
  unfold DrawMaskWrapped DrawMask
  rw [clipWrapped_eq_clip bits dst r src sp mask mp hfit hwf hin hsp hmp]

theorem DrawMask_generic (fuel : Nat) (dst : Dst) (s : State) (r : Rectangle) (src : Source)
    (sp : Point) (mask : Option Source) (mp : Point) (op : Op)
    (hgen : fastPath dst (clip dst r src sp mask mp) src sp mask op = false) :
    DrawMask fuel dst s r src sp mask mp op
      = drawGeneric fuel dst s (clip dst r src sp mask mp) src sp mask mp := by
  unfold fastPath at hgen
  unfold DrawMask
  cases hk : dst.kind <;> cases ho : decide (op = SoverD) <;> cases mask <;> cases src <;>
    simp only [hk, ho] at hgen ⊢ <;> first | rfl | simp_all

/-! ## The accesses of a call (claim C11) -/

theorem pixel_log (dst : Dst) (src : Source) (mask : Option Source)
    (x y ox oy px py : Int) (s : State) :
    ∃ new, (pixel dst src mask x y (x + ox) (y + oy) (x + px) (y + py) s).log
        = s.log ++ new ∧
      ∀ e ∈ new, Event.At mask ox oy px py x y e := by
  unfold pixel Event.At
  cases mask with
  | none =>
    refine ⟨[.SrcAt (x + ox) (y + oy), .Set x y], ?_, ?_⟩
    · simp [Dst.Set, State.store, State.note]
    · intro e he
      simp only [List.mem_cons, List.mem_singleton, List.not_mem_nil, or_false] at he
      rcases he with rfl | rfl
      · exact Or.inl rfl
      · exact Or.inr (Or.inr rfl)
  | some m =>
    simp only []
    by_cases h0 : (m.At s (x + px) (y + py)).a = 0
    · rw [if_pos h0]
      refine ⟨[.MaskAt (x + px) (y + py)], rfl, ?_⟩
      intro e he
      simp only [List.mem_singleton] at he
      exact Or.inr (Or.inl ⟨by simp, he⟩)
    · rw [if_neg h0]
      refine ⟨[.MaskAt (x + px) (y + py), .SrcAt (x + ox) (y + oy), .Set x y], ?_, ?_⟩
      · split_ifs <;> simp [Dst.Set, State.store, State.note]
      · intro e he
        simp only [List.mem_cons, List.mem_singleton, List.not_mem_nil, or_false] at he
        rcases he with rfl | rfl | rfl
        · exact Or.inr (Or.inl ⟨by simp, rfl⟩)
        · exact Or.inl rfl
        · exact Or.inr (Or.inr rfl)

theorem sweep_log (dst : Dst) (src : Source) (mask : Option Source)
    (x0 y0 d ox oy px py : Int) (nx ny : Nat) (s : State) (Q : Event → Prop)
    (hQ : ∀ (j k : Nat), j < ny → k < nx → ∀ e,
      Event.At mask ox oy px py (x0 + d * (k : Int)) (y0 + d * (j : Int)) e → Q e) :
    ∃ new, (sweep dst src mask x0 y0 d ox oy px py nx ny s).log = s.log ++ new ∧
      ∀ e ∈ new, Q e := by
  unfold sweep
  refine foldl_range_inv _ (fun (_ : Nat) (t : State) =>
    ∃ new, t.log = s.log ++ new ∧ ∀ e ∈ new, Q e) ny s ⟨[], by simp, by simp⟩ ?_
  intro j t hj hP
  refine foldl_range_inv _ (fun (_ : Nat) (u : State) =>
    ∃ new, u.log = s.log ++ new ∧ ∀ e ∈ new, Q e) nx t hP ?_
  intro k u hk hU
  beta_reduce at hU ⊢
  obtain ⟨new, h1, h2⟩ := hU
  obtain ⟨add, h3, h4⟩ := pixel_log dst src mask (x0 + d * (k : Int)) (y0 + d * (j : Int))
    ox oy px py u
  refine ⟨new ++ add, ?_, ?_⟩
  · rw [h3, h1, List.append_assoc]
  · intro e he
    rcases List.mem_append.mp he with h | h
    · exact h2 e h
    · exact hQ j k hj hk e (h4 e h)

theorem drawGeneric_log (fuel : Nat) (dst : Dst) (s : State) (r : Rectangle)
    (src : Source) (sp : Point) (mask : Option Source) (mp : Point)
    (hwf : r.WellFormed) (hfx : r.Dx < fuel) (hfy : r.Dy < fuel) (Q : Event → Prop)
    (hQ : ∀ x y, r.Contains x y → ∀ e,
      Event.At mask (sp.X - r.Min.X) (sp.Y - r.Min.Y) (mp.X - r.Min.X) (mp.Y - r.Min.Y)
        x y e → Q e) :
    ∃ s1 new, drawGeneric fuel dst s r src sp mask mp = .finished s1 ∧
      s1.log = s.log ++ new ∧ ∀ e ∈ new, Q e := by
  have hd : (if backward r src sp then (-1 : Int) else 1) = 1 ∨
      (if backward r src sp then (-1 : Int) else 1) = -1 := by
    cases backward r src sp <;> simp
  obtain ⟨new, h1, h2⟩ := sweep_log dst src mask
    (if backward r src sp then r.Max.X - 1 else r.Min.X)
    (if backward r src sp then r.Max.Y - 1 else r.Min.Y)
    (if backward r src sp then -1 else 1)
    (sp.X - r.Min.X) (sp.Y - r.Min.Y) (mp.X - r.Min.X) (mp.Y - r.Min.Y)
    r.Dx.toNat r.Dy.toNat s Q (by
      intro j k hj hk e he
      refine hQ _ _ ?_ e he
      apply (inSweep_iff_contains r (backward r src sp) hwf _ _).mp
      unfold InSweep
      rcases hd with h | h <;> rw [h] <;> omega)
  exact ⟨_, new, drawGeneric_eq_sweep fuel dst s r src sp mask mp hwf hfx hfy, h1, h2⟩

theorem drawFill_log (s : State) (r : Rectangle) (c : Color) (Q : Event → Prop)
    (hQ : ∀ x y, r.Contains x y → Q (.Set x y)) :
    ∃ new, (drawFill s r c).log = s.log ++ new ∧ ∀ e ∈ new, Q e := by
  unfold drawFill
  by_cases hdy : r.Dy < 1
  · rw [if_pos hdy]
    exact ⟨[], by simp, by simp⟩
  · rw [if_neg hdy]
    unfold Rectangle.Dy at hdy
    simp only []
    refine foldl_range_inv _ (fun (_ : Nat) (t : State) =>
      ∃ new, t.log = s.log ++ new ∧ ∀ e ∈ new, Q e) _ _ ?_ ?_
    · refine foldl_range_inv _ (fun (_ : Nat) (t : State) =>
        ∃ new, t.log = s.log ++ new ∧ ∀ e ∈ new, Q e) _ s ⟨[], by simp, by simp⟩ ?_
      intro k t hk hP
      obtain ⟨new, h1, h2⟩ := hP
      refine ⟨new ++ [.Set (r.Min.X + (k : Int)) r.Min.Y], ?_, ?_⟩
      · simp only [State.store, h1, List.append_assoc]
      · intro e he
        rcases List.mem_append.mp he with h | h
        · exact h2 e h
        · simp only [List.mem_singleton] at h
          rw [h]
          apply hQ
          unfold Rectangle.Contains
          omega
    · intro j t hj hP
      obtain ⟨new, h1, h2⟩ := hP
      refine ⟨new ++ (List.range (r.Max.X - r.Min.X).toNat).map
        (fun (k : Nat) => Event.Set (r.Min.X + (k : Int)) (r.Min.Y + 1 + (j : Int))), ?_, ?_⟩
      · simp only [State.copyRow, h1, List.append_assoc]
      · intro e he
        rcases List.mem_append.mp he with h | h
        · exact h2 e h
        · obtain ⟨k, hk, rfl⟩ := List.mem_map.mp h
          rw [List.mem_range] at hk
          apply hQ
          unfold Rectangle.Contains
          omega

theorem drawCopy_log (s : State) (r : Rectangle) (src : Source) (sp : Point)
    (Q : Event → Prop)
    (hQ : ∀ x y, r.Contains x y →
      Q (.SrcAt (x + (sp.X - r.Min.X)) (y + (sp.Y - r.Min.Y))) ∧ Q (.Set x y)) :
    ∃ new, (drawCopy s r src sp).log = s.log ++ new ∧ ∀ e ∈ new, Q e := by
  unfold drawCopy
  simp only []
  refine foldl_range_inv _ (fun (_ : Nat) (t : State) =>
    ∃ new, t.log = s.log ++ new ∧ ∀ e ∈ new, Q e) _ s ⟨[], by simp, by simp⟩ ?_
  intro j t hj hP
  obtain ⟨new, h1, h2⟩ := hP
  refine ⟨new ++ ((List.range (r.Max.X - r.Min.X).toNat).map
      (fun (k : Nat) => Event.SrcAt (sp.X + (k : Int)) (sp.Y + (j : Int)))
    ++ (List.range (r.Max.X - r.Min.X).toNat).map
      (fun (k : Nat) => Event.Set (r.Min.X + (k : Int)) (r.Min.Y + (j : Int)))), ?_, ?_⟩
  · simp only [State.copyRow, h1, List.append_assoc]
  · intro e he
    rcases List.mem_append.mp he with h | h
    · exact h2 e h
    · rcases List.mem_append.mp h with h | h
      · obtain ⟨k, hk, rfl⟩ := List.mem_map.mp h
        rw [List.mem_range] at hk
        have hc : r.Contains (r.Min.X + (k : Int)) (r.Min.Y + (j : Int)) := by
          unfold Rectangle.Contains
          omega
        have e1 : sp.X + (k : Int) = r.Min.X + (k : Int) + (sp.X - r.Min.X) := by ring
        have e2 : sp.Y + (j : Int) = r.Min.Y + (j : Int) + (sp.Y - r.Min.Y) := by ring
        rw [e1, e2]
        exact (hQ _ _ hc).1
      · obtain ⟨k, hk, rfl⟩ := List.mem_map.mp h
        rw [List.mem_range] at hk
        apply (hQ _ _ ?_).2
        unfold Rectangle.Contains
        omega

theorem DrawMask_log (fuel : Nat) (dst : Dst) (s : State) (r : Rectangle)
    (src : Source) (sp : Point) (mask : Option Source) (mp : Point) (op : Op)
    (hwf : r.WellFormed) (hsp : src.InExtent dst sp)
    (hmp : ∀ m, mask = some m → m.InExtent dst mp)
    (hfx : r.Dx < fuel) (hfy : r.Dy < fuel) (Q : Event → Prop)
    (hQ : ∀ x y, (clip dst r src sp mask mp).Contains x y → ∀ e,
      Event.At mask (sp.X - r.Min.X) (sp.Y - r.Min.Y) (mp.X - r.Min.X) (mp.Y - r.Min.Y)
        x y e → Q e) :
    ∃ s1 new, DrawMask fuel dst s r src sp mask mp op = .finished s1 ∧
      s1.log = s.log ++ new ∧ ∀ e ∈ new, Q e := by
  obtain ⟨hmin, hcwf, hcx, hcy⟩ := clip_facts dst r src sp mask mp hwf hsp hmp
  have generic : ∃ s1 new, drawGeneric fuel dst s (clip dst r src sp mask mp) src sp mask mp
      = .finished s1 ∧ s1.log = s.log ++ new ∧ ∀ e ∈ new, Q e := by
    apply drawGeneric_log fuel dst s _ src sp mask mp hcwf (by omega) (by omega) Q
    rw [hmin]
    exact hQ
  cases mask with
  | some m =>
    rw [DrawMask_masked]
    exact generic
  | none =>
    unfold DrawMask
    cases hk : dst.kind with
    | other f => cases decide (op = SoverD) <;> cases src <;> exact generic
    | RGBA =>
      cases decide (op = SoverD) with
      | false => cases src <;> exact generic
      | true =>
        cases src with
        | other i => exact generic
        | ColorImage c W H =>
          obtain ⟨new, h1, h2⟩ := drawFill_log s (clip dst r (.ColorImage c W H) sp none mp) c Q
            (fun x y hc => hQ x y hc _ (Or.inr (Or.inr rfl)))
          exact ⟨_, new, rfl, h1, h2⟩
        | RGBA i =>
          obtain ⟨new, h1, h2⟩ := drawCopy_log s (clip dst r (.RGBA i) sp none mp) (.RGBA i) sp Q
            (fun x y hc => by
              rw [hmin]
              exact ⟨hQ x y hc _ (Or.inl rfl), hQ x y hc _ (Or.inr (Or.inr rfl))⟩)
          exact ⟨_, new, rfl, h1, h2⟩
        | self =>
          simp only []
          by_cases hov : (clip dst r .self sp none mp).Overlaps
              ((clip dst r .self sp none mp).Add
                (sp.Sub (clip dst r .self sp none mp).Min)) = true
          · rw [if_pos hov]
            exact generic
          · rw [if_neg hov]
            obtain ⟨new, h1, h2⟩ := drawCopy_log s (clip dst r .self sp none mp) .self sp Q
              (fun x y hc => by
                rw [hmin]
                exact ⟨hQ x y hc _ (Or.inl rfl), hQ x y hc _ (Or.inr (Or.inr rfl))⟩)
            exact ⟨_, new, rfl, h1, h2⟩

theorem clip_contains_extent (dst : Dst) (r : Rectangle) (src : Source) (sp : Point)
    (mask : Option Source) (mp : Point) (x y : Int)
    (h : (clip dst r src sp mask mp).Contains x y) :
    r.Contains x y ∧
    x - r.Min.X < src.Width dst - sp.X ∧ y - r.Min.Y < src.Height dst - sp.Y ∧
    (∀ m, mask = some m →
      x - r.Min.X < m.Width dst - mp.X ∧ y - r.Min.Y < m.Height dst - mp.Y) := by
  rw [clip_eq_clippedRect] at h
  unfold clippedRect Rectangle.Contains at h
  unfold Rectangle.Contains
  unfold Rectangle.Dx Rectangle.Dy at h
  cases mask with
  | none =>
    simp only [] at h
    refine ⟨by omega, by omega, by omega, fun m hm => by cases hm⟩
  | some m =>
    simp only [] at h
    refine ⟨by omega, by omega, by omega, fun m1 hm => ?_⟩
    cases hm
    constructor <;> omega

/-- C11 as stated fails for a rectangle outside the range of the destination. Go's `int`
wraps around: for the well-formed `r = (MinInt, 0)-(0, 1)` the width `r.Dx()` is `MinInt`,
which is negative, so line 46 does not clip, although the source offset `sp = (2, 0)` is
at the edge of the 2 by 2 source and no source pixel is available.  The first iteration
of the general loops then reads `src.At(2, 0)`, outside the source.  Shown for an `int`
of 32 and of 64 bits. -/
theorem drawMask_reads_wrapped_counterexample :
    (Rect (-2147483648) 0 0 1).WellFormed ∧ lightSrc.InExtent plainDst (Pt 2 0) ∧
    wrapInt 32 ((Rect (-2147483648) 0 0 1).Max.X - (Rect (-2147483648) 0 0 1).Min.X)
      = -2147483648 ∧
    clipWrapped 32 plainDst (Rect (-2147483648) 0 0 1) lightSrc (Pt 2 0) none ZP
      = Rect (-2147483648) 0 0 1 ∧
    (DrawMaskWrapped 32 1 plainDst greyState (Rect (-2147483648) 0 0 1) lightSrc (Pt 2 0)
      none ZP SoverD).state.log = [.SrcAt 2 0, .Set (-2147483648) 0] ∧
    (Rect (-9223372036854775808) 0 0 1).WellFormed ∧
    wrapInt 64 ((Rect (-9223372036854775808) 0 0 1).Max.X
      - (Rect (-9223372036854775808) 0 0 1).Min.X) = -9223372036854775808 ∧
    clipWrapped 64 plainDst (Rect (-9223372036854775808) 0 0 1) lightSrc (Pt 2 0) none ZP
      = Rect (-9223372036854775808) 0 0 1 ∧
    (DrawMaskWrapped 64 1 plainDst greyState (Rect (-9223372036854775808) 0 0 1) lightSrc
      (Pt 2 0) none ZP SoverD).state.log = [.SrcAt 2 0, .Set (-9223372036854775808) 0] ∧
    lightSrc.Width plainDst = 2 ∧
    ¬ (Event.SrcAt 2 0).InBounds plainDst lightSrc none := by
  decide

/-- C11 as amended, reads stay in bounds. For a well-formed rectangle inside the
destination and offsets within the extents of the source and of the mask, `DrawMask`
runs to its end and every access it adds to the log is in bounds: each source read
`src.At(sx, sy)` has `0 <= sx < src.Width()` and `0 <= sy < src.Height()`, each mask read
`mask.At(mx, my)` has `0 <= mx < mask.Width()` and `0 <= my < mask.Height()`.  The
statement covers the general loops, the fast copy (whose row copies read the source
buffer) and the fast fill (which reads no source pixel), as `DrawMask` dispatches among
them, for every operator.  Under these hypotheses the clipping computed in an `int` of
any width that holds the extents of the images is the one computed here. -/
theorem drawMask_reads_in_bounds (fuel : Nat) (dst : Dst) (s : State) (r : Rectangle)
    (src : Source) (sp : Point) (mask : Option Source) (mp : Point) (op : Op)
    (hwf : r.WellFormed) (hin : r.Inside dst.Width dst.Height)
    (hsp : src.InExtent dst sp)
    (hmp : ∀ m, mask = some m → m.InExtent dst mp)
    (hfx : r.Dx < fuel) (hfy : r.Dy < fuel) :
    (∀ bits, FitsInt bits dst src mask →
      DrawMaskWrapped bits fuel dst s r src sp mask mp op
        = DrawMask fuel dst s r src sp mask mp op) ∧
    ∃ s1 new, DrawMask fuel dst s r src sp mask mp op = .finished s1 ∧
      s1.log = s.log ++ new ∧ ∀ e ∈ new, e.InBounds dst src mask := by
  refine ⟨fun bits hfit =>
    DrawMaskWrapped_eq bits fuel dst s r src sp mask mp op hfit hwf hin hsp hmp, ?_⟩
  apply DrawMask_log fuel dst s r src sp mask mp op hwf hsp hmp hfx hfy
  intro x y hc e he
  obtain ⟨hr, hx, hy, hm⟩ := clip_contains_extent dst r src sp mask mp x y hc
  obtain ⟨h1, h2, h3, h4⟩ := hsp
  unfold Rectangle.Contains at hr
  rcases he with rfl | ⟨hne, rfl⟩ | rfl
  · cases mask <;> (simp only [Event.InBounds]; omega)
  · cases mask with
    | none => exact absurd rfl hne
    | some m =>
      obtain ⟨h5, h6, h7, h8⟩ := hmp m rfl
      obtain ⟨h9, h10⟩ := hm m rfl
      simp only [Event.InBounds]
      omega
  · cases mask <;> simp only [Event.InBounds]

/-- Witness for C11 as amended: a masked draw of the 2 by 2 light source into the 4 by 4
destination; the log shows the four mask reads and the two source reads, all inside the
2 by 2 extents. -/
theorem drawMask_reads_in_bounds_witness :
    (Rect 1 1 4 4).WellFormed ∧ (Rect 1 1 4 4).Inside plainDst.Width plainDst.Height ∧
    lightSrc.InExtent plainDst ZP ∧ edgeMask.InExtent plainDst ZP ∧
    FitsInt 32 plainDst lightSrc (some edgeMask) ∧
    (DrawMask 4 plainDst greyState (Rect 1 1 4 4) lightSrc ZP (some edgeMask) ZP
      SoverD).state.log
      = [.MaskAt 0 0, .MaskAt 1 0, .SrcAt 1 0, .Set 2 1,
         .MaskAt 0 1, .MaskAt 1 1, .SrcAt 1 1, .Set 2 2] ∧
    ((∀ bits, FitsInt bits plainDst lightSrc (some edgeMask) →
      DrawMaskWrapped bits 4 plainDst greyState (Rect 1 1 4 4) lightSrc ZP (some edgeMask) ZP
        SoverD
        = DrawMask 4 plainDst greyState (Rect 1 1 4 4) lightSrc ZP (some edgeMask) ZP
          SoverD) ∧
    ∃ s1 new, DrawMask 4 plainDst greyState (Rect 1 1 4 4) lightSrc ZP (some edgeMask) ZP
        SoverD = .finished s1 ∧
      s1.log = greyState.log ++ new ∧
      ∀ e ∈ new, e.InBounds plainDst lightSrc (some edgeMask)) :=
  ⟨by decide, by decide, by decide, by decide,
    ⟨by decide, by decide, by decide, by decide, by decide,
      fun m h => by cases h; exact ⟨by decide, by decide⟩⟩,
    by decide,
    drawMask_reads_in_bounds 4 plainDst greyState (Rect 1 1 4 4) lightSrc ZP (some edgeMask)
      ZP SoverD (by decide) (by decide) (by decide) (fun m h => by cases h; decide)
      (by decide) (by decide)⟩

/-! ## Empty and malformed rectangles (claims C12, C13 and C17) -/

theorem forNe_runaway {σ : Type} (body : Int → Int → Int → σ → Outcome σ) :
    ∀ (fuel : Nat) (v v1 sv mv : Int) (s : σ), v1 < v →
      (forNe body fuel v v1 1 sv mv s).isFinished = false := by
  intro fuel
  induction fuel with
  | zero => intro v v1 sv mv s _; rfl
  | succ fuel ih =>
    intro v v1 sv mv s h
    rw [forNe, if_neg (by omega)]
    cases hb : body v sv mv s with
    | finished s1 => exact ih (v + 1) v1 (sv + 1) (mv + 1) s1 (by omega)
    | exhausted s1 => rfl

theorem DrawMask_empty (fuel : Nat) (dst : Dst) (s : State) (r : Rectangle)
    (src : Source) (sp : Point) (mask : Option Source) (mp : Point) (op : Op)
    (hwf : r.WellFormed) (hsp : src.InExtent dst sp)
    (hmp : ∀ m, mask = some m → m.InExtent dst mp)
    (hfx : r.Dx < fuel) (hfy : r.Dy < fuel)
    (hempty : ∀ x y, ¬ (clip dst r src sp mask mp).Contains x y) :
    ∃ s1, DrawMask fuel dst s r src sp mask mp op = .finished s1 ∧
      s1.log = s.log ∧ ∀ x y, s1.pix x y = s.pix x y := by
  obtain ⟨s1, new, h1, h2, h3⟩ := DrawMask_log fuel dst s r src sp mask mp op hwf hsp hmp
    hfx hfy (fun _ => False) (fun x y hc _ _ => hempty x y hc)
  obtain ⟨s2, h4, h5⟩ := DrawMask_frame fuel dst s r src sp mask mp op hwf hsp hmp hfx hfy
  rw [h1] at h4
  cases h4
  have hnil : new = [] := List.eq_nil_iff_forall_not_mem.mpr (fun e he => h3 e he)
  refine ⟨s1, h1, ?_, fun x y => (h5 x y (hempty x y)).1⟩
  rw [h2, hnil, List.append_nil]

theorem drawAll_empty (fuel : Nat) (dst : Dst) (src : Source) :
    ∀ (cs : List (Rectangle × Point)) (s : State),
      (∀ c ∈ cs, c.1.WellFormed ∧ src.InExtent dst c.2 ∧ c.1.Dx < fuel ∧ c.1.Dy < fuel ∧
        ∀ x y, ¬ (clip dst c.1 src c.2 none ZP).Contains x y) →
      ∃ s1, drawAll fuel dst src cs s = .finished s1 ∧
        s1.log = s.log ∧ ∀ x y, s1.pix x y = s.pix x y := by
  intro cs
  induction cs with
  | nil =>
    intro s _
    exact ⟨s, rfl, rfl, fun _ _ => rfl⟩
  | cons c cs ih =>
    intro s hok
    obtain ⟨r, sp⟩ := c
    obtain ⟨hwf, hsp, hfx, hfy, hempty⟩ := hok (r, sp) (List.mem_cons_self _ _)
    obtain ⟨s0, h1, h2, h3⟩ := DrawMask_empty fuel dst s r src sp none ZP SoverD hwf hsp
      (fun m h => by cases h) hfx hfy hempty
    obtain ⟨s1, h4, h5, h6⟩ := ih s0 (fun c hc => hok c (List.mem_cons_of_mem _ hc))
    refine ⟨s1, ?_, h5.trans h2, fun x y => (h6 x y).trans (h3 x y)⟩
    simp only [drawAll, Draw, h1, Outcome.andThen]
    exact h4

/-- C17 as stated fails beyond the extent: with a flat-colour source of extent `10^9`,
`sp = (10^9 + 1, 0)` and a destination that is not an `*image.RGBA` (so the call is on the
general loops), the available width is `-1`, the clipped rectangle is malformed and the
row loop, which tests `x != x1`, starts at `0` above its bound `-1`: within ten tests
`DrawMask` has stored to pixel `(0, 0)` and has not reached the end of the loop.  It also
fails exactly at the edge for a rectangle outside the range of the destination: for
`r = (MinInt, 0)-(0, 1)` and `sp = (2, 0)` on the 2 by 2 source, `r.Dx()` wraps to a
negative value in Go's 32-bit `int`, line 46 does not clip and the first iteration stores
to pixel `(MinInt, 0)`. -/
theorem drawMask_beyond_extent_counterexample :
    (Rect 0 0 2 2).WellFormed ∧ 0 ≤ (Pt 1000000001 0).X ∧ 0 ≤ (Pt 1000000001 0).Y ∧
    (Pt 1000000001 0).X ≥ redColor.Width sixDst ∧
    clip sixDst (Rect 0 0 2 2) redColor (Pt 1000000001 0) none ZP = Rect 0 0 (-1) 2 ∧
    fastPath sixDst (clip sixDst (Rect 0 0 2 2) redColor (Pt 1000000001 0) none ZP) redColor
      (Pt 1000000001 0) none SoverD = false ∧
    (DrawMask 10 sixDst greyState (Rect 0 0 2 2) redColor (Pt 1000000001 0) none ZP
      SoverD).isFinished = false ∧
    List.count (Event.Set 0 0)
      (DrawMask 10 sixDst greyState (Rect 0 0 2 2) redColor (Pt 1000000001 0) none ZP
        SoverD).state.log = 1 ∧
    (DrawMask 10 sixDst greyState (Rect 0 0 2 2) redColor (Pt 1000000001 0) none ZP
      SoverD).state.pix 0 0 = RGBAColor 255 0 0 255 ∧
    greyState.pix 0 0 = RGBAColor 100 100 100 255 ∧
    (Rect (-2147483648) 0 0 1).WellFormed ∧ lightSrc.InExtent plainDst (Pt 2 0) ∧
    (Pt 2 0).X = lightSrc.Width plainDst ∧
    clipWrapped 32 plainDst (Rect (-2147483648) 0 0 1) lightSrc (Pt 2 0) none ZP
      = Rect (-2147483648) 0 0 1 ∧
    List.count (Event.Set (-2147483648) 0)
      (DrawMaskWrapped 32 1 plainDst greyState (Rect (-2147483648) 0 0 1) lightSrc (Pt 2 0)
        none ZP SoverD).state.log = 1 ∧
    (DrawMaskWrapped 32 1 plainDst greyState (Rect (-2147483648) 0 0 1) lightSrc (Pt 2 0)
      none ZP SoverD).state.pix (-2147483648) 0 = RGBAColor 200 200 200 255 := by
  decide

theorem drawMask_beyond_extent_runs_away (fuel : Nat) :
    (DrawMask fuel sixDst greyState (Rect 0 0 2 2) redColor (Pt 1000000001 0) none ZP
      SoverD).isFinished = false := by
  have h : DrawMask fuel sixDst greyState (Rect 0 0 2 2) redColor (Pt 1000000001 0) none ZP
      SoverD
      = forNe (fun y sy my s =>
          forNe (fun x sx mx s => .finished (pixel sixDst redColor none x y sx sy mx my s))
            fuel 0 (-1) 1 1000000001 0 s)
        fuel 0 2 1 0 0 greyState := rfl
  rw [h]
  cases fuel with
  | zero => rfl
  | succ fuel =>
    rw [forNe, if_neg (by decide)]
    have hrow := forNe_runaway
      (fun x sx mx s => Outcome.finished (pixel sixDst redColor none x 0 sx 0 mx 0 s))
      (fuel + 1) 0 (-1) 1000000001 0 greyState (by decide)
    cases hr : forNe
      (fun x sx mx s => Outcome.finished (pixel sixDst redColor none x 0 sx 0 mx 0 s))
      (fuel + 1) 0 (-1) 1 1000000001 0 greyState with
    | finished s1 => rw [hr] at hrow; cases hrow
    | exhausted s1 => rfl

/-- C17 as amended, empty available extent. For a well-formed rectangle inside the
destination and offsets within the extents of the source and of the mask, with the
source offset at the far edge of the source (`sp.X = src.Width()` or `sp.Y =
src.Height()`), a `DrawMask` call that takes no fast path is the general loops on the
clipped rectangle; it runs to its end within the iteration budget, makes no access at
all and leaves every pixel of the destination as it was.  Under these hypotheses the
clipping computed in an `int` of any width that holds the extents of the images is the
one computed here. -/
theorem drawMask_empty_extent (fuel : Nat) (dst : Dst) (s : State) (r : Rectangle)
    (src : Source) (sp : Point) (mask : Option Source) (mp : Point) (op : Op)
    (hwf : r.WellFormed) (hin : r.Inside dst.Width dst.Height)
    (hsp : src.InExtent dst sp)
    (hedge : sp.X = src.Width dst ∨ sp.Y = src.Height dst)
    (hmp : ∀ m, mask = some m → m.InExtent dst mp)
    (hgen : fastPath dst (clip dst r src sp mask mp) src sp mask op = false)
    (hfx : r.Dx < fuel) (hfy : r.Dy < fuel) :
    (∀ bits, FitsInt bits dst src mask →
      DrawMaskWrapped bits fuel dst s r src sp mask mp op
        = DrawMask fuel dst s r src sp mask mp op) ∧
    DrawMask fuel dst s r src sp mask mp op
      = drawGeneric fuel dst s (clip dst r src sp mask mp) src sp mask mp ∧
    ∃ s1, DrawMask fuel dst s r src sp mask mp op = .finished s1 ∧
      s1.log = s.log ∧ ∀ x y, s1.pix x y = s.pix x y := by
  refine ⟨fun bits hfit =>
    DrawMaskWrapped_eq bits fuel dst s r src sp mask mp op hfit hwf hin hsp hmp,
    DrawMask_generic fuel dst s r src sp mask mp op hgen, ?_⟩
  apply DrawMask_empty fuel dst s r src sp mask mp op hwf hsp hmp hfx hfy
  intro x y hc
  obtain ⟨hr, hx, hy, _⟩ := clip_contains_extent dst r src sp mask mp x y hc
  unfold Rectangle.Contains at hr
  rcases hedge with h | h <;> omega

/-- Witness for C17 as amended: a 3 by 3 request from the 2 by 2 source at
`sp = (2, 1)`, its right edge, into a destination that is not an `*image.RGBA`. -/
theorem drawMask_empty_extent_witness :
    (Rect 1 1 4 4).WellFormed ∧ (Rect 1 1 4 4).Inside plainDst.Width plainDst.Height ∧
    lightSrc.InExtent plainDst (Pt 2 1) ∧ (Pt 2 1).X = lightSrc.Width plainDst ∧
    fastPath plainDst (clip plainDst (Rect 1 1 4 4) lightSrc (Pt 2 1) none ZP) lightSrc
      (Pt 2 1) none SoverD = false ∧
    ((∀ bits, FitsInt bits plainDst lightSrc none →
      DrawMaskWrapped bits 4 plainDst greyState (Rect 1 1 4 4) lightSrc (Pt 2 1) none ZP
        SoverD
        = DrawMask 4 plainDst greyState (Rect 1 1 4 4) lightSrc (Pt 2 1) none ZP SoverD) ∧
    DrawMask 4 plainDst greyState (Rect 1 1 4 4) lightSrc (Pt 2 1) none ZP SoverD
      = drawGeneric 4 plainDst greyState
          (clip plainDst (Rect 1 1 4 4) lightSrc (Pt 2 1) none ZP) lightSrc (Pt 2 1) none ZP ∧
    ∃ s1, DrawMask 4 plainDst greyState (Rect 1 1 4 4) lightSrc (Pt 2 1) none ZP SoverD
        = .finished s1 ∧
      s1.log = greyState.log ∧ ∀ x y, s1.pix x y = greyState.pix x y) :=
  ⟨by decide, by decide, by decide, by decide, by decide,
    drawMask_empty_extent 4 plainDst greyState (Rect 1 1 4 4) lightSrc (Pt 2 1) none ZP
      SoverD (by decide) (by decide) (by decide) (Or.inl (by decide)) (fun m h => by cases h)
      (by decide) (by decide) (by decide)⟩

theorem border_inside_calls_within (fuel : Nat) (dst : Dst) (r : Rectangle) (w : Int)
    (src : Source) (sp : Point)
    (hwf : r.WellFormed) (hw : 0 < w) (hwx : w ≤ r.Dx) (hwy : 2 * w ≤ r.Dy)
    (hcov : src.Covers dst r sp) (hfx : r.Dx < fuel) (hfy : r.Dy < fuel) :
    ∀ c ∈ borderCalls r w sp,
      (c.1.WellFormed ∧ src.InExtent dst c.2 ∧ c.1.Dx < fuel ∧ c.1.Dy < fuel) ∧
      clip dst c.1 src c.2 none ZP = c.1 ∧
      ∀ x y, c.1.Contains x y → r.Contains x y := by
  obtain ⟨hwfx, hwfy⟩ := hwf
  obtain ⟨hc1, hc2, hc3, hc4⟩ := hcov
  unfold Rectangle.Dx at hwx hfx hc2
  unfold Rectangle.Dy at hwy hfy hc4
  have hcalls : borderCalls r w sp =
      [ (Rect r.Min.X r.Min.Y r.Max.X (r.Min.Y + w), sp),
        (Rect r.Min.X (r.Min.Y + w) (r.Min.X + w) (r.Max.Y - w), sp.Add (Pt 0 w)),
        (Rect (r.Max.X - w) (r.Min.Y + w) r.Max.X (r.Max.Y - w),
          sp.Add (Pt (r.Dx - w) w)),
        (Rect r.Min.X (r.Max.Y - w) r.Max.X r.Max.Y, sp.Add (Pt 0 (r.Dy - w))) ] := by
    simp only [borderCalls, gt_iff_lt, hw, if_true]
  rw [hcalls]
  have hok : ∀ c ∈ [ (Rect r.Min.X r.Min.Y r.Max.X (r.Min.Y + w), sp),
        (Rect r.Min.X (r.Min.Y + w) (r.Min.X + w) (r.Max.Y - w), sp.Add (Pt 0 w)),
        (Rect (r.Max.X - w) (r.Min.Y + w) r.Max.X (r.Max.Y - w),
          sp.Add (Pt (r.Dx - w) w)),
        (Rect r.Min.X (r.Max.Y - w) r.Max.X r.Max.Y, sp.Add (Pt 0 (r.Dy - w))) ],
      (c.1.WellFormed ∧ src.InExtent dst c.2 ∧ c.1.Dx < fuel ∧ c.1.Dy < fuel) ∧
      (c.1.Dx ≤ src.Width dst - c.2.X ∧ c.1.Dy ≤ src.Height dst - c.2.Y) ∧
      (r.Min.X ≤ c.1.Min.X ∧ c.1.Max.X ≤ r.Max.X ∧ r.Min.Y ≤ c.1.Min.Y ∧
        c.1.Max.Y ≤ r.Max.Y) := by
    simp only [List.forall_mem_cons, List.not_mem_nil, false_imp_iff, imp_true_iff,
      implies_true, and_true, Rectangle.WellFormed, Source.InExtent, Rectangle.Dx,
      Rectangle.Dy, Rect, Pt, Point.Add]
    refine ⟨?_, ?_, ?_, ?_⟩ <;> omega
  intro c hc
  obtain ⟨h1, h2, h3⟩ := hok c hc
  refine ⟨h1, clip_eq_self dst c.1 src c.2 ZP h2.1 h2.2, fun x y hin => ?_⟩
  unfold Rectangle.Contains at hin ⊢
  omega

/-- C12 as stated fails for a width larger than the rectangle allows.  With `w = 5` on
the 4 by 4 rectangle `(2, 2)-(6, 6)` of a 14 by 14 `*image.RGBA` canvas and a flat
colour, `Border` runs to its end and its top strip `(2, 2)-(6, 7)` has painted pixel
`(2, 6)`, which is outside `r`.  With `w = 2` on the 3 by 3 rectangle `(1, 1)-(4, 4)` of
a 6 by 6 destination of another type, the left strip `(1, 3)-(3, 2)` is malformed: the
loop over `y`, which tests `y != y1`, starts above its bound, within ten tests it has
painted pixel `(1, 4)` outside `r` and has not reached its end.  With `w = 1` on the 2 by
4 rectangle `(0, 0)-(2, 4)` and a flat-colour source of extent `10^9` drawn from
`sp = (10^9, 0)`, the right strip is drawn from the offset `(10^9 + 1, 1)`, where the
available width is `-1`: the loop over `x` runs past its bound and has painted pixel
`(2, 1)` outside `r`. -/
theorem border_inside_large_width_counterexample :
    (Rect 2 2 6 6).WellFormed ∧ (Rect 2 2 6 6).Inside canvasDst.Width canvasDst.Height ∧
    (Border 7 canvasDst greyState (Rect 2 2 6 6) 5 redColor ZP).isFinished = true ∧
    ¬ (Rect 2 2 6 6).Contains 2 6 ∧
    (Border 7 canvasDst greyState (Rect 2 2 6 6) 5 redColor ZP).state.pix 2 6
      = RGBAColor 255 0 0 255 ∧
    greyState.pix 2 6 = RGBAColor 100 100 100 255 ∧
    (Rect 1 1 4 4).WellFormed ∧ (Rect 1 1 4 4).Inside sixDst.Width sixDst.Height ∧
    (borderCalls (Rect 1 1 4 4) 2 (Pt 1 1)).map Prod.fst
      = [Rect 1 1 4 3, Rect 1 3 3 2, Rect 2 3 4 2, Rect 1 2 4 4] ∧
    (Border 10 sixDst greyState (Rect 1 1 4 4) 2 coordSrc (Pt 1 1)).isFinished = false ∧
    ¬ (Rect 1 1 4 4).Contains 1 4 ∧
    (Border 10 sixDst greyState (Rect 1 1 4 4) 2 coordSrc (Pt 1 1)).state.pix 1 4
      = RGBAColor 1 4 0 255 ∧
    (Rect 0 0 2 4).WellFormed ∧ (Rect 0 0 2 4).Inside sixDst.Width sixDst.Height ∧
    (1 : Int) ≤ (Rect 0 0 2 4).Dx ∧ 2 * (1 : Int) ≤ (Rect 0 0 2 4).Dy ∧
    (borderCalls (Rect 0 0 2 4) 1 (Pt 1000000000 0)).map Prod.snd
      = [Pt 1000000000 0, Pt 1000000000 1, Pt 1000000001 1, Pt 1000000000 3] ∧
    (Border 10 sixDst greyState (Rect 0 0 2 4) 1 redColor (Pt 1000000000 0)).isFinished
      = false ∧
    ¬ (Rect 0 0 2 4).Contains 2 1 ∧
    (Border 10 sixDst greyState (Rect 0 0 2 4) 1 redColor (Pt 1000000000 0)).state.pix 2 1
      = RGBAColor 255 0 0 255 := by
  decide

/-- C12 as amended, positive-width border stays inside `r`. For a well-formed rectangle
inside the destination, a width `w > 0` with `w <= r.Dx()` and `2*w <= r.Dy()` (the left
and right strips may overlap) and a source that covers `r` from `sp`, `Border` runs to
its end, every strip lies inside `r`, no pixel outside `r` is stored to and every pixel
outside `r` keeps its value. -/
theorem border_inside_stays_inside (fuel : Nat) (dst : Dst) (s : State) (r : Rectangle)
    (w : Int) (src : Source) (sp : Point)
    (hwf : r.WellFormed) (_hin : r.Inside dst.Width dst.Height)
    (hw : 0 < w) (hwx : w ≤ r.Dx) (hwy : 2 * w ≤ r.Dy)
    (hcov : src.Covers dst r sp) (hfx : r.Dx < fuel) (hfy : r.Dy < fuel) :
    (∀ c ∈ borderCalls r w sp, c.1.WellFormed ∧ ∀ x y, c.1.Contains x y → r.Contains x y) ∧
    ∃ s1, Border fuel dst s r w src sp = .finished s1 ∧
      ∀ x y, ¬ r.Contains x y →
        s1.pix x y = s.pix x y ∧
        List.count (Event.Set x y) s1.log = List.count (Event.Set x y) s.log := by
  have hcalls := border_inside_calls_within fuel dst r w src sp hwf hw hwx hwy hcov hfx hfy
  refine ⟨fun c hc => ⟨(hcalls c hc).1.1, (hcalls c hc).2.2⟩, ?_⟩
  obtain ⟨s1, h1, h2⟩ := drawAll_spec fuel dst src (borderCalls r w sp) s
    (fun c hc => (hcalls c hc).1)
  refine ⟨s1, h1, fun x y hout => ?_⟩
  have hnone : ∀ c ∈ borderCalls r w sp, ¬ (clip dst c.1 src c.2 none ZP).Contains x y := by
    intro c hc hin
    rw [(hcalls c hc).2.1] at hin
    exact hout ((hcalls c hc).2.2 x y hin)
  refine ⟨(h2 x y).2 hnone, ?_⟩
  rw [(h2 x y).1]
  have hz : (borderCalls r w sp).countP
      (fun c => decide ((clip dst c.1 src c.2 none ZP).Contains x y)) = 0 := by
    rw [List.countP_eq_zero]
    intro c hc
    simpa using hnone c hc
  rw [hz, Nat.add_zero]

/-- Witness for C12 as amended: `w = 3` on the 4 by 10 rectangle `(2, 2)-(6, 12)` of the
14 by 14 canvas, more than half of its width. -/
theorem border_inside_stays_inside_witness :
    (3 : Int) ≤ (Rect 2 2 6 12).Dx ∧ (Rect 2 2 6 12).Dx < 2 * 3 ∧
    ((∀ c ∈ borderCalls (Rect 2 2 6 12) 3 (Pt 2 2),
      c.1.WellFormed ∧ ∀ x y, c.1.Contains x y → (Rect 2 2 6 12).Contains x y) ∧
    ∃ s1, Border 11 canvasDst greyState (Rect 2 2 6 12) 3 coordSrc14 (Pt 2 2)
        = .finished s1 ∧
      ∀ x y, ¬ (Rect 2 2 6 12).Contains x y →
        s1.pix x y = greyState.pix x y ∧
        List.count (Event.Set x y) s1.log = List.count (Event.Set x y) greyState.log) :=
  ⟨by decide, by decide,
    border_inside_stays_inside 11 canvasDst greyState (Rect 2 2 6 12) 3 coordSrc14 (Pt 2 2)
      (by decide) (by decide) (by decide) (by decide) (by decide) (by decide) (by decide)
      (by decide)⟩

/-- C13 as stated fails when the source does not reach `sp + (r.Dx(), 0)`.  With a
flat-colour source of extent `10^9`, `sp = (10^9 - 1, 0)`, `r = (0, 0)-(2, 2)` and a
destination that is not an `*image.RGBA`, all four rectangles of `Border(dst, r, 0, src,
sp)` have zero area, but the right strip `(2, 0)-(2, 2)` is drawn from the source offset
`(10^9 + 1, 0)`, where the available width is `-1`: clipping turns it into the malformed
`(2, 0)-(1, 2)`, and within ten tests of `x != x1` the call has stored to pixel
`(2, 0)` and has not reached the end of the loop. -/
theorem border_zero_width_counterexample :
    (Rect 0 0 2 2).WellFormed ∧ (Rect 0 0 2 2).Inside sixDst.Width sixDst.Height ∧
    borderCalls (Rect 0 0 2 2) 0 (Pt 999999999 0)
      = [(Rect 0 0 2 0, Pt 999999999 0), (Rect 0 0 0 2, Pt 999999999 0),
          (Rect 2 0 2 2, Pt 1000000001 0), (Rect 0 2 2 2, Pt 999999999 0)] ∧
    clip sixDst (Rect 2 0 2 2) redColor (Pt 1000000001 0) none ZP = Rect 2 0 1 2 ∧
    (Border 10 sixDst greyState (Rect 0 0 2 2) 0 redColor (Pt 999999999 0)).isFinished
      = false ∧
    (Border 10 sixDst greyState (Rect 0 0 2 2) 0 redColor (Pt 999999999 0)).state.pix 2 0
      = RGBAColor 255 0 0 255 ∧
    greyState.pix 2 0 = RGBAColor 100 100 100 255 := by
  decide

/-- C13 as amended, zero-width border. For a well-formed rectangle `r` inside the
destination and a non-negative source offset with `sp.X + r.Dx() <= src.Width()` and
`sp.Y <= src.Height()`, `Border(dst, r, 0, src, sp)` issues four `Draw` calls whose
rectangles are well formed, lie inside the destination and have zero width or zero
height; it runs to its end, makes no access at all and leaves every pixel of the
destination as it was. -/
theorem border_zero_width_noop (fuel : Nat) (dst : Dst) (s : State) (r : Rectangle)
    (src : Source) (sp : Point)
    (hwf : r.WellFormed) (hin : r.Inside dst.Width dst.Height)
    (hsp : 0 ≤ sp.X ∧ sp.X + r.Dx ≤ src.Width dst ∧ 0 ≤ sp.Y ∧ sp.Y ≤ src.Height dst)
    (hfx : r.Dx < fuel) (hfy : r.Dy < fuel) :
    (borderCalls r 0 sp).length = 4 ∧
    (∀ c ∈ borderCalls r 0 sp, c.1.WellFormed ∧ c.1.Inside dst.Width dst.Height ∧
      (c.1.Dx = 0 ∨ c.1.Dy = 0)) ∧
    ∃ s1, Border fuel dst s r 0 src sp = .finished s1 ∧
      s1.log = s.log ∧ ∀ x y, s1.pix x y = s.pix x y := by
  obtain ⟨hwfx, hwfy⟩ := hwf
  obtain ⟨i1, i2, i3, i4⟩ := hin
  obtain ⟨h1, h2, h3, h4⟩ := hsp
  unfold Rectangle.Dx at h2 hfx
  unfold Rectangle.Dy at hfy
  have hcalls : borderCalls r 0 sp =
      [ (Rect (r.Min.X - -0) (r.Min.Y - -0) (r.Max.X + -0) r.Min.Y,
          sp.Add (Pt (- -0) (- -0))),
        (Rect (r.Min.X - -0) r.Min.Y r.Min.X r.Max.Y, sp.Add (Pt (- -0) 0)),
        (Rect r.Max.X r.Min.Y (r.Max.X + -0) r.Max.Y, sp.Add (Pt r.Dx 0)),
        (Rect (r.Min.X - -0) r.Max.Y (r.Max.X + -0) (r.Max.Y + -0),
          sp.Add (Pt (- -0) 0)) ] := by
    simp only [borderCalls, gt_iff_lt, lt_self_iff_false, if_false]
  have hok : ∀ c ∈ borderCalls r 0 sp,
      (c.1.WellFormed ∧ src.InExtent dst c.2 ∧ c.1.Dx < fuel ∧ c.1.Dy < fuel) ∧
      c.1.Inside dst.Width dst.Height ∧ (c.1.Dx = 0 ∨ c.1.Dy = 0) := by
    rw [hcalls]
    simp only [List.forall_mem_cons, List.not_mem_nil, false_imp_iff, imp_true_iff,
      implies_true, and_true, Rectangle.WellFormed, Rectangle.Inside, Source.InExtent,
      Rectangle.Dx, Rectangle.Dy, Rect, Pt, Point.Add]
    refine ⟨?_, ?_, ?_, ?_⟩ <;> omega
  refine ⟨by rw [hcalls]; rfl,
    fun c hc => ⟨(hok c hc).1.1, (hok c hc).2.1, (hok c hc).2.2⟩, ?_⟩
  apply drawAll_empty fuel dst src (borderCalls r 0 sp) s
  intro c hc
  obtain ⟨⟨hw1, hs1, hf1, hf2⟩, _, hz⟩ := hok c hc
  refine ⟨hw1, hs1, hf1, hf2, fun x y hin => ?_⟩
  obtain ⟨hr, _, _, _⟩ := clip_contains_extent dst c.1 src c.2 none ZP x y hin
  unfold Rectangle.Contains at hr
  unfold Rectangle.Dx Rectangle.Dy at hz
  omega

/-- Witness for C13 as amended: the 10 by 10 rectangle `(2, 2)-(12, 12)` of the 14 by 14
`*image.RGBA` canvas with a flat colour, where the four calls take the fast fill. -/
theorem border_zero_width_noop_witness :
    (Rect 2 2 12 12).WellFormed ∧ (Rect 2 2 12 12).Inside canvasDst.Width canvasDst.Height ∧
    ((borderCalls (Rect 2 2 12 12) 0 (Pt 2 2)).length = 4 ∧
    (∀ c ∈ borderCalls (Rect 2 2 12 12) 0 (Pt 2 2),
      c.1.WellFormed ∧ c.1.Inside canvasDst.Width canvasDst.Height ∧
      (c.1.Dx = 0 ∨ c.1.Dy = 0)) ∧
    ∃ s1, Border 11 canvasDst greyState (Rect 2 2 12 12) 0 redColor (Pt 2 2)
        = .finished s1 ∧
      s1.log = greyState.log ∧ ∀ x y, s1.pix x y = greyState.pix x y) :=
  ⟨by decide, by decide,
    border_zero_width_noop 11 canvasDst greyState (Rect 2 2 12 12) redColor (Pt 2 2)
      (by decide) (by decide) (by decide) (by decide) (by decide)⟩

/-! ## Operator independence and the fast paths (claims C14, C15 and C16) -/

/-- C15, the fast copy is correct. For a well-formed rectangle `r` inside the destination,
an offset `sp` whose source region lies inside the source, and a source that is another
image or the destination itself with non-overlapping regions: after `drawCopy` every
pixel `(x, y)` of `r` holds the source pixel `(sp.X + x - r.Min.X, sp.Y + y - r.Min.Y)`
as it was before the call, and is stored exactly once; the pixels outside `r` are
unchanged and not stored. -/
theorem drawCopy_correct (dst : Dst) (s : State) (r : Rectangle) (src : Source) (sp : Point)
    (hwf : r.WellFormed) (_hin : r.Inside dst.Width dst.Height)
    (_hsrc : src.Covers dst r sp)
    (hsafe : src = .self → r.Overlaps (r.Add (sp.Sub r.Min)) = false) (x y : Int) :
    (r.Contains x y →
      (drawCopy s r src sp).pix x y = src.At s (sp.X + x - r.Min.X) (sp.Y + y - r.Min.Y) ∧
      List.count (Event.Set x y) (drawCopy s r src sp).log
        = List.count (Event.Set x y) s.log + 1) ∧
    (¬ r.Contains x y →
      (drawCopy s r src sp).pix x y = s.pix x y ∧
      List.count (Event.Set x y) (drawCopy s r src sp).log
        = List.count (Event.Set x y) s.log) := by
  obtain ⟨h1, h2⟩ := drawCopy_spec s r src sp hwf hsafe x y
  have e1 : x + (sp.X - r.Min.X) = sp.X + x - r.Min.X := by ring
  have e2 : y + (sp.Y - r.Min.Y) = sp.Y + y - r.Min.Y := by ring
  rw [e1, e2] at h1
  constructor
  · intro hc
    rw [if_pos hc] at h1 h2
    exact ⟨h1, h2⟩
  · intro hc
    rw [if_neg hc] at h1 h2
    exact ⟨h1, h2⟩

/-- Witness for C15: a copy within a 10 by 10 `*image.RGBA` whose pixels encode their
coordinates, from the region at `(5, 5)` to the region at `(0, 0)`; pixel `(1, 1)` ends
with the colour of `(6, 6)`. -/
theorem drawCopy_correct_witness :
    (Rect 0 0 2 2).WellFormed ∧ (Rect 0 0 2 2).Inside tenDst.Width tenDst.Height ∧
    Source.self.Covers tenDst (Rect 0 0 2 2) (Pt 5 5) ∧
    (Rect 0 0 2 2).Contains 1 1 ∧
    (drawCopy coordState (Rect 0 0 2 2) .self (Pt 5 5)).pix 1 1 = RGBAColor 6 6 0 255 ∧
    ((Rect 0 0 2 2).Contains 1 1 →
      (drawCopy coordState (Rect 0 0 2 2) .self (Pt 5 5)).pix 1 1
        = Source.self.At coordState ((Pt 5 5).X + 1 - (Rect 0 0 2 2).Min.X)
            ((Pt 5 5).Y + 1 - (Rect 0 0 2 2).Min.Y) ∧
      List.count (Event.Set 1 1) (drawCopy coordState (Rect 0 0 2 2) .self (Pt 5 5)).log
        = List.count (Event.Set 1 1) coordState.log + 1) ∧
    (¬ (Rect 0 0 2 2).Contains 1 1 →
      (drawCopy coordState (Rect 0 0 2 2) .self (Pt 5 5)).pix 1 1 = coordState.pix 1 1 ∧
      List.count (Event.Set 1 1) (drawCopy coordState (Rect 0 0 2 2) .self (Pt 5 5)).log
        = List.count (Event.Set 1 1) coordState.log) :=
  ⟨by decide, by decide, by decide, by decide, by decide,
    drawCopy_correct tenDst coordState (Rect 0 0 2 2) .self (Pt 5 5) (by decide) (by decide)
      (by decide) (fun _ => by decide) 1 1⟩

theorem u8_top_byte (n : Nat) (h : n < 2 ^ 32) : u8 (n >>> 24) = n >>> 24 := by
  have h32 : (2 : Nat) ^ 32 = 4294967296 := by norm_num
  have h24 : (2 : Nat) ^ 24 = 16777216 := by norm_num
  have h8 : (2 : Nat) ^ 8 = 256 := by norm_num
  rw [h32] at h
  simp only [u8, Nat.shiftRight_eq_div_pow, h24, h8]
  exact Nat.mod_eq_of_lt (Nat.div_lt_of_lt_mul (by omega))

/-- C16, the fast fill is correct. When `r.Dy() < 1` the function `drawFill` returns at
once and the destination is unchanged. Otherwise, for a well-formed rectangle `r` inside
the destination and a flat colour with 32-bit channels `(cr, cg, cb, ca)`: every pixel of
`r` holds the 8-bit colour `(cr>>24, cg>>24, cb>>24, ca>>24)`, equals the pixel of the
first row of `r` in its column, and is stored exactly once; the pixels outside `r` are
unchanged and not stored. -/
theorem drawFill_correct (dst : Dst) (s : State) (r : Rectangle) (c : Color) :
    (r.Dy < 1 → drawFill s r c = s) ∧
    (r.WellFormed → r.Inside dst.Width dst.Height → c.Valid → ∀ x y,
      (r.Contains x y →
        (drawFill s r c).pix x y
          = RGBAColor (c.r >>> 24) (c.g >>> 24) (c.b >>> 24) (c.a >>> 24) ∧
        (drawFill s r c).pix x y = (drawFill s r c).pix x r.Min.Y ∧
        List.count (Event.Set x y) (drawFill s r c).log
          = List.count (Event.Set x y) s.log + 1) ∧
      (¬ r.Contains x y →
        (drawFill s r c).pix x y = s.pix x y ∧
        List.count (Event.Set x y) (drawFill s r c).log
          = List.count (Event.Set x y) s.log)) := by
  constructor
  · intro h
    unfold drawFill
    rw [if_pos h]
  · intro hwf _ hc x y
    obtain ⟨c1, c2, c3, c4⟩ := hc
    have hcol : toRGBAColor c
        = RGBAColor (c.r >>> 24) (c.g >>> 24) (c.b >>> 24) (c.a >>> 24) := by
      unfold toRGBAColor
      rw [u8_top_byte _ c1, u8_top_byte _ c2, u8_top_byte _ c3, u8_top_byte _ c4]
    obtain ⟨h1, h2⟩ := drawFill_spec s r c hwf x y
    constructor
    · intro hin
      have hrow : r.Contains x r.Min.Y := by
        obtain ⟨a1, a2, a3, a4⟩ := hin
        exact ⟨a1, a2, le_refl _, by omega⟩
      have h3 := (drawFill_spec s r c hwf x r.Min.Y).1
      rw [if_pos hin] at h1 h2
      rw [if_pos hrow] at h3
      exact ⟨h1.trans hcol, h1.trans h3.symm, h2⟩
    · intro hin
      rw [if_neg hin] at h1 h2
      exact ⟨h1, h2⟩

/-- Witness for C16: a fill of a 2 by 2 rectangle of the 4 by 4 `*image.RGBA` with the
colour `(0x12345678, 0x9ABCDEF0, 0, 0xFFFFFFFF)`, whose top bytes are `(0x12, 0x9A, 0,
0xFF)`, and a fill of a rectangle of no rows. -/
theorem drawFill_correct_witness :
    (Rect 1 1 3 3).WellFormed ∧ (Rect 1 1 3 3).Inside rgbaDst.Width rgbaDst.Height ∧
    (⟨0x12345678, 0x9ABCDEF0, 0, 0xFFFFFFFF⟩ : Color).Valid ∧
    (Rect 1 1 3 3).Contains 2 2 ∧ (Rect 1 1 3 1).Dy < 1 ∧
    drawFill greyState (Rect 1 1 3 1) ⟨0x12345678, 0x9ABCDEF0, 0, 0xFFFFFFFF⟩ = greyState ∧
    ((drawFill greyState (Rect 1 1 3 3) ⟨0x12345678, 0x9ABCDEF0, 0, 0xFFFFFFFF⟩).pix 2 2
        = RGBAColor (0x12345678 >>> 24) (0x9ABCDEF0 >>> 24) (0 >>> 24) (0xFFFFFFFF >>> 24) ∧
      (drawFill greyState (Rect 1 1 3 3) ⟨0x12345678, 0x9ABCDEF0, 0, 0xFFFFFFFF⟩).pix 2 2
        = (drawFill greyState (Rect 1 1 3 3) ⟨0x12345678, 0x9ABCDEF0, 0, 0xFFFFFFFF⟩).pix 2
            (Rect 1 1 3 3).Min.Y ∧
      List.count (Event.Set 2 2)
          (drawFill greyState (Rect 1 1 3 3) ⟨0x12345678, 0x9ABCDEF0, 0, 0xFFFFFFFF⟩).log
        = List.count (Event.Set 2 2) greyState.log + 1) :=
  ⟨by decide, by decide, by decide, by decide, by decide,
    (drawFill_correct rgbaDst greyState (Rect 1 1 3 1)
      ⟨0x12345678, 0x9ABCDEF0, 0, 0xFFFFFFFF⟩).1 (by decide),
    ((drawFill_correct rgbaDst greyState (Rect 1 1 3 3)
      ⟨0x12345678, 0x9ABCDEF0, 0, 0xFFFFFFFF⟩).2 (by decide) (by decide) (by decide) 2 2).1
      (by decide)⟩

/-! ## Arithmetic of the blend (claims C18, C19 and C20) -/

theorem blendChannel_bounds (d s sa ma : Nat) (hd : d ≤ 65535) (hs : s ≤ sa)
    (hsa : sa ≤ 65535) (hma : ma ≤ 65535) :
    sa * ma < 4294967296 ∧ sa * ma / 65535 ≤ 65535 ∧
    d * (65535 - sa * ma / 65535) + s * ma < 4294901760 := by
  have hP : sa * ma ≤ 65535 * 65535 := Nat.mul_le_mul hsa hma
  have hY : s * ma ≤ sa * ma := Nat.mul_le_mul_right ma hs
  have hX : d * (65535 - sa * ma / 65535) ≤ 65535 * (65535 - sa * ma / 65535) :=
    Nat.mul_le_mul_right _ hd
  generalize sa * ma = P at *
  generalize d * (65535 - P / 65535) = X at *
  generalize s * ma = Y at *
  refine ⟨by omega, by omega, by omega⟩

theorem blend_channel_facts (d s sa ma : Nat) (hd : d ≤ 65535) (hs : s ≤ sa)
    (hsa : sa ≤ 65535) (hma : ma ≤ 65535) :
    sa * ma < 2 ^ 32 ∧ u32 (sa * ma) / M = sa * ma / 65535 ∧
    sa * ma / 65535 ≤ 65535 ∧
    d * (65535 - sa * ma / 65535) + s * ma < 2 ^ 32 ∧
    blendChannel d s ma (u32 (sa * ma) / M)
      = (d * (65535 - sa * ma / 65535) + s * ma) / 65535 ∧
    blendChannel d s ma (u32 (sa * ma) / M) ≤ 65535 ∧
    u16 (blendChannel d s ma (u32 (sa * ma) / M))
      = blendChannel d s ma (u32 (sa * ma) / M) := by
  obtain ⟨h1, h2, h3⟩ := blendChannel_bounds d s sa ma hd hs hsa hma
  obtain ⟨e1, e2⟩ := blendChannel_exact d s sa ma hd hs hsa hma
  have h32 : (2 : Nat) ^ 32 = 4294967296 := by norm_num
  have h16 : (2 : Nat) ^ 16 = 65536 := by norm_num
  have hM : M = 65535 := by norm_num [M]
  have e3 : u32 (sa * ma) / M = sa * ma / 65535 := by rw [e1, hM]
  have hq : (d * (65535 - sa * ma / 65535) + s * ma) / 65535 ≤ 65535 := by
    generalize d * (65535 - sa * ma / 65535) + s * ma = N at *
    omega
  have e4 : blendChannel d s ma (sa * ma / 65535)
      = (d * (65535 - sa * ma / 65535) + s * ma) / 65535 := by
    have hX : d * (65535 - sa * ma / 65535) ≤ d * (65535 - sa * ma / 65535) + s * ma :=
      Nat.le_add_right _ _
    have hY : s * ma ≤ d * (65535 - sa * ma / 65535) + s * ma := Nat.le_add_left _ _
    simp only [blendChannel, u32, hM, h32]
    rw [Nat.mod_eq_of_lt (a := d * (65535 - sa * ma / 65535)) (by omega),
      Nat.mod_eq_of_lt (a := s * ma) (by omega), Nat.mod_eq_of_lt (by omega)]
  rw [e3, e4, h32]
  refine ⟨h1, rfl, h2, by omega, rfl, hq, ?_⟩
  rw [u16, h16]
  exact Nat.mod_eq_of_lt (by omega)

/-- C18, the blend arithmetic never overflows. For a premultiplied source channel
`s <= sa <= 65535`, a destination channel `d <= 65535` and a 16-bit mask alpha
`ma <= 65535`, with `a = sa*ma/65535`: the product `sa*ma` and the intermediate
`d*(65535 - a) + s*ma` are below `2^32`, so the `uint32` computation of the channel
equals the exact integer one, and the quotient by 65535 is at most 65535, so the
conversion to `uint16` loses nothing. -/
theorem blend_no_overflow (d s sa ma : Nat) (hd : d ≤ 65535) (hs : s ≤ sa)
    (hsa : sa ≤ 65535) (hma : ma ≤ 65535) :
    sa * ma < 2 ^ 32 ∧ u32 (sa * ma) / M = sa * ma / 65535 ∧
    sa * ma / 65535 ≤ 65535 ∧
    d * (65535 - sa * ma / 65535) + s * ma < 2 ^ 32 ∧
    blendChannel d s ma (u32 (sa * ma) / M)
      = (d * (65535 - sa * ma / 65535) + s * ma) / 65535 ∧
    blendChannel d s ma (u32 (sa * ma) / M) ≤ 65535 ∧
    u16 (blendChannel d s ma (u32 (sa * ma) / M))
      = blendChannel d s ma (u32 (sa * ma) / M) := by
  exact blend_channel_facts d s sa ma hd hs hsa hma

/-- Witness for C18: an opaque source channel, a full destination channel and the
largest 16-bit mask alpha. -/
theorem blend_no_overflow_witness :
    (65535 : Nat) * 65535 < 2 ^ 32 ∧ u32 (65535 * 65535) / M = 65535 * 65535 / 65535 ∧
    65535 * 65535 / 65535 ≤ 65535 ∧
    65535 * (65535 - 65535 * 65535 / 65535) + 65535 * 65535 < 2 ^ 32 ∧
    blendChannel 65535 65535 65535 (u32 (65535 * 65535) / M)
      = (65535 * (65535 - 65535 * 65535 / 65535) + 65535 * 65535) / 65535 ∧
    blendChannel 65535 65535 65535 (u32 (65535 * 65535) / M) ≤ 65535 ∧
    u16 (blendChannel 65535 65535 65535 (u32 (65535 * 65535) / M))
      = blendChannel 65535 65535 65535 (u32 (65535 * 65535) / M) :=
  blend_no_overflow 65535 65535 65535 65535 (by decide) (by decide) (by decide) (by decide)

theorem shiftRight16_le (n : Nat) (h : n < 2 ^ 32) : n >>> 16 ≤ 65535 := by
  have h32 : (2 : Nat) ^ 32 = 4294967296 := by norm_num
  have h16 : (2 : Nat) ^ 16 = 65536 := by norm_num
  rw [h32] at h
  rw [Nat.shiftRight_eq_div_pow, h16]
  omega

theorem shiftRight16_mono (a b : Nat) (h : a ≤ b) : a >>> 16 ≤ b >>> 16 := by
  simp only [Nat.shiftRight_eq_div_pow]
  exact Nat.div_le_div_right h

theorem get16_le (c : Color) (hc : c.Valid) (ch : Channel) : c.get16 ch ≤ 65535 := by
  obtain ⟨h1, h2, h3, h4⟩ := hc
  cases ch
  · exact shiftRight16_le _ h1
  · exact shiftRight16_le _ h2
  · exact shiftRight16_le _ h3
  · exact shiftRight16_le _ h4

theorem get16_RGBA64Color (R G B A : Nat) (hR : R ≤ 65535) (hG : G ≤ 65535)
    (hB : B ≤ 65535) (hA : A ≤ 65535) (ch : Channel) :
    (RGBA64Color R G B A).get16 ch
      = match ch with
        | .R => R
        | .G => G
        | .B => B
        | .A => A := by
  have h16 : (2 : Nat) ^ 16 = 65536 := by norm_num
  cases ch <;> simp only [Color.get16, RGBA64Color, Nat.shiftRight_eq_div_pow, h16] <;> omega

theorem blendChannelSpec_mono (d d1 s s1 ma a : Nat) (hd : d ≤ d1) (hs : s ≤ s1) :
    blendChannelSpec 65535 d s ma a ≤ blendChannelSpec 65535 d1 s1 ma a := by
  unfold blendChannelSpec
  exact Nat.div_le_div_right
    (Nat.add_le_add (Nat.mul_le_mul_right _ hd) (Nat.mul_le_mul_right _ hs))

/-- The blend, channel by channel, in exact arithmetic, for a source whose 16-bit colour
channels do not exceed its 16-bit alpha. -/
theorem blend_get16 (d sc : Color) (ma : Nat) (hd : d.Valid) (hs : sc.Valid)
    (hp : ∀ ch, sc.get16 ch ≤ sc.get16 .A) (hma : ma < 2 ^ 32) (ch : Channel) :
    (blend d sc ma).get16 ch
      = blendChannelSpec 65535 (d.get16 ch) (sc.get16 ch) (ma >>> 16)
          (sc.get16 .A * (ma >>> 16) / 65535) ∧
    (blend d sc ma).get16 ch ≤ 65535 := by
  have hM : M = 65535 := by norm_num [M]
  have hm := shiftRight16_le ma hma
  have hsa := get16_le sc hs .A
  have key : ∀ c : Channel,
      u16 (blendChannel (d.get16 c) (sc.get16 c) (ma >>> 16)
        (u32 (sc.get16 .A * (ma >>> 16)) / M))
        = blendChannelSpec 65535 (d.get16 c) (sc.get16 c) (ma >>> 16)
            (sc.get16 .A * (ma >>> 16) / 65535) ∧
      blendChannelSpec 65535 (d.get16 c) (sc.get16 c) (ma >>> 16)
            (sc.get16 .A * (ma >>> 16) / 65535) ≤ 65535 := by
    intro c
    obtain ⟨e1, e2⟩ := blendChannel_exact (d.get16 c) (sc.get16 c) (sc.get16 .A) (ma >>> 16)
      (get16_le d hd c) (hp c) hsa hm
    obtain ⟨_, _, _, _, e5, e6, _⟩ := blend_channel_facts (d.get16 c) (sc.get16 c)
      (sc.get16 .A) (ma >>> 16) (get16_le d hd c) (hp c) hsa hm
    rw [e1, hM]
    refine ⟨e2, ?_⟩
    rw [e1, hM] at e5 e6
    unfold blendChannelSpec
    rw [← e5]
    exact e6
  have hb : blend d sc ma
      = RGBA64Color
          (u16 (blendChannel (d.get16 .R) (sc.get16 .R) (ma >>> 16)
            (u32 (sc.get16 .A * (ma >>> 16)) / M)))
          (u16 (blendChannel (d.get16 .G) (sc.get16 .G) (ma >>> 16)
            (u32 (sc.get16 .A * (ma >>> 16)) / M)))
          (u16 (blendChannel (d.get16 .B) (sc.get16 .B) (ma >>> 16)
            (u32 (sc.get16 .A * (ma >>> 16)) / M)))
          (u16 (blendChannel (d.get16 .A) (sc.get16 .A) (ma >>> 16)
            (u32 (sc.get16 .A * (ma >>> 16)) / M))) := rfl
  rw [hb, (key .R).1, (key .G).1, (key .B).1, (key .A).1,
    get16_RGBA64Color _ _ _ _ (key .R).2 (key .G).2 (key .B).2 (key .A).2]
  cases ch
  · exact ⟨rfl, (key .R).2⟩
  · exact ⟨rfl, (key .G).2⟩
  · exact ⟨rfl, (key .B).2⟩
  · exact ⟨rfl, (key .A).2⟩

theorem premultiplied_get16 (c : Color) (hp : c.Premultiplied) (ch : Channel) :
    c.get16 ch ≤ c.get16 .A := by
  obtain ⟨h1, h2, h3⟩ := hp
  cases ch
  · exact shiftRight16_mono _ _ h1
  · exact shiftRight16_mono _ _ h2
  · exact shiftRight16_mono _ _ h3
  · exact le_refl _

theorem top_byte_mono (R A : Nat) (hR : R ≤ A) (hA : A ≤ 65535) :
    u8 ((R * 0x00010001) >>> 24) * 0x01010101 ≤ u8 ((A * 0x00010001) >>> 24) * 0x01010101 := by
  have h24 : (2 : Nat) ^ 24 = 16777216 := by norm_num
  have h8 : (2 : Nat) ^ 8 = 256 := by norm_num
  have h1 : R * 65537 / 16777216 ≤ A * 65537 / 16777216 :=
    Nat.div_le_div_right (Nat.mul_le_mul_right _ hR)
  have h2 : A * 65537 / 16777216 < 256 := Nat.div_lt_of_lt_mul (by omega)
  simp only [u8, Nat.shiftRight_eq_div_pow, h24, h8]
  rw [Nat.mod_eq_of_lt h2, Nat.mod_eq_of_lt (lt_of_le_of_lt h1 h2)]
  exact Nat.mul_le_mul_right _ h1

theorem toRGBAColor_RGBA64Color_premultiplied (R G B A : Nat) (hR : R ≤ A) (hG : G ≤ A)
    (hB : B ≤ A) (hA : A ≤ 65535) :
    (RGBA64Color R G B A).Premultiplied ∧
    (toRGBAColor (RGBA64Color R G B A)).Premultiplied := by
  refine ⟨?_, ?_⟩
  · simp only [Color.Premultiplied, RGBA64Color]
    omega
  · exact ⟨top_byte_mono R A hR hA, top_byte_mono G A hG hA, top_byte_mono B A hB hA⟩

/-- C19, the blend preserves premultiplied alpha. If the destination colour `d` and the
source colour `sc` are both premultiplied (no colour channel exceeds the alpha channel),
then for every mask alpha the colour computed by the blend branch of `DrawMask` has R, G
and B at most A, both as the `image.RGBA64Color` handed to `dst.Set` and as the
`image.RGBAColor` an `*image.RGBA` destination stores; its 16-bit channels are the exact
blend of the 16-bit channels of `d` and `sc`. -/
theorem blend_preserves_premultiplied (d sc : Color) (ma : Nat) (hd : d.Valid)
    (hs : sc.Valid) (hdp : d.Premultiplied) (hsp : sc.Premultiplied) (hma : ma < 2 ^ 32) :
    (blend d sc ma).Premultiplied ∧ (toRGBAColor (blend d sc ma)).Premultiplied ∧
    ∀ ch, (blend d sc ma).get16 ch ≤ (blend d sc ma).get16 .A ∧
      (blend d sc ma).get16 ch ≤ 65535 := by
  have h16 := premultiplied_get16 sc hsp
  have hd16 := premultiplied_get16 d hdp
  have hch : ∀ ch, (blend d sc ma).get16 ch ≤ (blend d sc ma).get16 .A ∧
      (blend d sc ma).get16 ch ≤ 65535 := by
    intro ch
    obtain ⟨e1, e2⟩ := blend_get16 d sc ma hd hs h16 hma ch
    obtain ⟨e3, _⟩ := blend_get16 d sc ma hd hs h16 hma .A
    refine ⟨?_, e2⟩
    rw [e1, e3]
    exact blendChannelSpec_mono _ _ _ _ _ _ (hd16 ch) (h16 ch)
  have hA := (blend_get16 d sc ma hd hs h16 hma .A).2
  rw [(blend_get16 d sc ma hd hs h16 hma .A).1] at hA
  have hmono : ∀ ch, blendChannelSpec 65535 (d.get16 ch) (sc.get16 ch) (ma >>> 16)
        (sc.get16 .A * (ma >>> 16) / 65535)
      ≤ blendChannelSpec 65535 (d.get16 .A) (sc.get16 .A) (ma >>> 16)
        (sc.get16 .A * (ma >>> 16) / 65535) :=
    fun ch => blendChannelSpec_mono _ _ _ _ _ _ (hd16 ch) (h16 ch)
  have hb : blend d sc ma = blendSpec16 d sc ma := blend_eq_blendSpec16 d sc ma hd hs hsp hma
  have hp := toRGBAColor_RGBA64Color_premultiplied _ _ _ _ (hmono .R) (hmono .G) (hmono .B) hA
  refine ⟨?_, ?_, hch⟩
  · rw [hb]
    exact hp.1
  · rw [hb]
    exact hp.2

/-- Witness for C19: a half-transparent premultiplied source over a half-transparent
premultiplied destination at a mask alpha of 50%. -/
theorem blend_preserves_premultiplied_witness :
    (RGBAColor 10 20 30 128).Premultiplied ∧ (RGBAColor 100 0 50 128).Premultiplied ∧
    (blend (RGBAColor 10 20 30 128) (RGBAColor 100 0 50 128) 0x7FFFFFFF).Premultiplied ∧
    (toRGBAColor
      (blend (RGBAColor 10 20 30 128) (RGBAColor 100 0 50 128) 0x7FFFFFFF)).Premultiplied ∧
    ∀ ch, (blend (RGBAColor 10 20 30 128) (RGBAColor 100 0 50 128) 0x7FFFFFFF).get16 ch
        ≤ (blend (RGBAColor 10 20 30 128) (RGBAColor 100 0 50 128) 0x7FFFFFFF).get16 .A ∧
      (blend (RGBAColor 10 20 30 128) (RGBAColor 100 0 50 128) 0x7FFFFFFF).get16 ch ≤ 65535 :=
  ⟨by decide, by decide,
    blend_preserves_premultiplied (RGBAColor 10 20 30 128) (RGBAColor 100 0 50 128) 0x7FFFFFFF
      (by decide) (by decide) (by decide) (by decide) (by decide)⟩

theorem interp_bounds (d s m : Nat) (hm : m ≤ 65535) :
    min d s ≤ (d * (65535 - m) + s * m) / 65535 ∧
    (d * (65535 - m) + s * m) / 65535 ≤ max d s := by
  have e1 : d * (65535 - m) + d * m = 65535 * d := by
    rw [← Nat.mul_add, Nat.sub_add_cancel hm, Nat.mul_comm]
  have e2 : s * (65535 - m) + s * m = 65535 * s := by
    rw [← Nat.mul_add, Nat.sub_add_cancel hm, Nat.mul_comm]
  rcases Nat.le_total d s with h | h
  · have h1 : d * m ≤ s * m := Nat.mul_le_mul_right _ h
    have h2 : d * (65535 - m) ≤ s * (65535 - m) := Nat.mul_le_mul_right _ h
    rw [Nat.min_eq_left h, Nat.max_eq_right h]
    generalize d * (65535 - m) = X at *
    generalize s * (65535 - m) = W at *
    generalize d * m = Z at *
    generalize s * m = Y at *
    omega
  · have h1 : s * m ≤ d * m := Nat.mul_le_mul_right _ h
    have h2 : s * (65535 - m) ≤ d * (65535 - m) := Nat.mul_le_mul_right _ h
    rw [Nat.min_eq_right h, Nat.max_eq_left h]
    generalize d * (65535 - m) = X at *
    generalize s * (65535 - m) = W at *
    generalize d * m = Z at *
    generalize s * m = Y at *
    omega

theorem interp_mono (d s m m1 : Nat) (hm : m ≤ m1) (hm1 : m1 ≤ 65535) :
    (d ≤ s → (d * (65535 - m) + s * m) / 65535 ≤ (d * (65535 - m1) + s * m1) / 65535) ∧
    (s ≤ d → (d * (65535 - m1) + s * m1) / 65535 ≤ (d * (65535 - m) + s * m) / 65535) := by
  obtain ⟨t, rfl⟩ := Nat.exists_eq_add_of_le hm
  have e1 : 65535 - m = (65535 - (m + t)) + t := by omega
  have e2 : d * (65535 - m) = d * (65535 - (m + t)) + d * t := by
    rw [e1, Nat.mul_add]
  have e3 : s * (m + t) = s * m + s * t := Nat.mul_add _ _ _
  rw [e2, e3]
  constructor
  · intro h
    have h1 : d * t ≤ s * t := Nat.mul_le_mul_right _ h
    exact Nat.div_le_div_right (by omega)
  · intro h
    have h1 : s * t ≤ d * t := Nat.mul_le_mul_right _ h
    exact Nat.div_le_div_right (by omega)

/-- The blend of an opaque source, channel by channel: the 16-bit channel written is
`(d*(65535 - m) + s*m) / 65535` for the 16-bit mask alpha `m`. -/
theorem blend_opaque_get16 (d sc : Color) (ma : Nat) (hd : d.Valid) (hs : sc.Valid)
    (hop : sc.get16 .A = 65535) (hma : ma < 2 ^ 32) (ch : Channel) :
    (blend d sc ma).get16 ch
      = (d.get16 ch * (65535 - ma >>> 16) + sc.get16 ch * (ma >>> 16)) / 65535 := by
  have hp : ∀ c, sc.get16 c ≤ sc.get16 .A := fun c => by
    rw [hop]
    exact get16_le sc hs c
  rw [(blend_get16 d sc ma hd hs hp hma ch).1, hop,
    Nat.mul_div_cancel_left _ (by norm_num : 0 < 65535)]
  rfl

/-- C20, the blend is an interpolation for opaque sources. When the 16-bit source alpha
is 65535, each 16-bit channel written by the blend branch is
`(d*(65535 - m) + s*m) / 65535` for the 16-bit mask alpha `m`; it lies between the
minimum and the maximum of the destination channel `d` and the source channel `s`, and
it is monotone in the mask alpha: non-decreasing when `s >= d` and non-increasing when
`s <= d`. -/
theorem blend_opaque_interpolates (d sc : Color) (ma ma1 : Nat) (hd : d.Valid)
    (hs : sc.Valid) (hop : sc.get16 .A = 65535) (hma : ma < 2 ^ 32) (hma1 : ma1 < 2 ^ 32)
    (ch : Channel) :
    (blend d sc ma).get16 ch
      = (d.get16 ch * (65535 - ma >>> 16) + sc.get16 ch * (ma >>> 16)) / 65535 ∧
    min (d.get16 ch) (sc.get16 ch) ≤ (blend d sc ma).get16 ch ∧
    (blend d sc ma).get16 ch ≤ max (d.get16 ch) (sc.get16 ch) ∧
    (ma ≤ ma1 → d.get16 ch ≤ sc.get16 ch →
      (blend d sc ma).get16 ch ≤ (blend d sc ma1).get16 ch) ∧
    (ma ≤ ma1 → sc.get16 ch ≤ d.get16 ch →
      (blend d sc ma1).get16 ch ≤ (blend d sc ma).get16 ch) := by
  have e := blend_opaque_get16 d sc ma hd hs hop hma ch
  have e1 := blend_opaque_get16 d sc ma1 hd hs hop hma1 ch
  have hb := interp_bounds (d.get16 ch) (sc.get16 ch) (ma >>> 16) (shiftRight16_le ma hma)
  refine ⟨e, ?_, ?_, ?_, ?_⟩
  · rw [e]
    exact hb.1
  · rw [e]
    exact hb.2
  · intro hle h
    rw [e, e1]
    exact (interp_mono _ _ _ _ (shiftRight16_mono _ _ hle) (shiftRight16_le ma1 hma1)).1 h
  · intro hle h
    rw [e, e1]
    exact (interp_mono _ _ _ _ (shiftRight16_mono _ _ hle) (shiftRight16_le ma1 hma1)).2 h

/-- Witness for C20: an opaque light source over the grey destination colour, at mask
alphas of 25% and 50%; the red channel moves from 25700 towards 51400. -/
theorem blend_opaque_interpolates_witness :
    (RGBAColor 200 200 200 255).get16 .A = 65535 ∧
    (blend (RGBAColor 100 100 100 255) (RGBAColor 200 200 200 255) 0x3FFFFFFF).get16 .R
      = 32124 ∧
    (blend (RGBAColor 100 100 100 255) (RGBAColor 200 200 200 255) 0x7FFFFFFF).get16 .R
      = 38549 ∧
    ((blend (RGBAColor 100 100 100 255) (RGBAColor 200 200 200 255) 0x3FFFFFFF).get16 .R
      = ((RGBAColor 100 100 100 255).get16 .R * (65535 - 0x3FFFFFFF >>> 16)
          + (RGBAColor 200 200 200 255).get16 .R * (0x3FFFFFFF >>> 16)) / 65535 ∧
    min ((RGBAColor 100 100 100 255).get16 .R) ((RGBAColor 200 200 200 255).get16 .R)
      ≤ (blend (RGBAColor 100 100 100 255) (RGBAColor 200 200 200 255) 0x3FFFFFFF).get16 .R ∧
    (blend (RGBAColor 100 100 100 255) (RGBAColor 200 200 200 255) 0x3FFFFFFF).get16 .R
      ≤ max ((RGBAColor 100 100 100 255).get16 .R) ((RGBAColor 200 200 200 255).get16 .R) ∧
    (0x3FFFFFFF ≤ 0x7FFFFFFF →
      (RGBAColor 100 100 100 255).get16 .R ≤ (RGBAColor 200 200 200 255).get16 .R →
      (blend (RGBAColor 100 100 100 255) (RGBAColor 200 200 200 255) 0x3FFFFFFF).get16 .R
        ≤ (blend (RGBAColor 100 100 100 255) (RGBAColor 200 200 200 255)
            0x7FFFFFFF).get16 .R) ∧
    (0x3FFFFFFF ≤ 0x7FFFFFFF →
      (RGBAColor 200 200 200 255).get16 .R ≤ (RGBAColor 100 100 100 255).get16 .R →
      (blend (RGBAColor 100 100 100 255) (RGBAColor 200 200 200 255) 0x7FFFFFFF).get16 .R
        ≤ (blend (RGBAColor 100 100 100 255) (RGBAColor 200 200 200 255)
            0x3FFFFFFF).get16 .R)) :=
  ⟨by decide, by decide, by decide,
    blend_opaque_interpolates (RGBAColor 100 100 100 255) (RGBAColor 200 200 200 255)
      0x3FFFFFFF 0x7FFFFFFF (by decide) (by decide) (by decide) (by decide) (by decide) .R⟩

end ExpDraw
